import Mathlib

/-! # datagen: the entity generator

A shallow embedding of `generator/generator.go` (package `generator`), of the scope of
`interpreter/scope.go`, of the operators of `interpreter/evaluator_utils.go`, of the lookups,
the counting functions and `SetLang` of `dictionary/dictionary.go`, and of the entity and
generation statements of `interpreter/interpreter.go`.

Conventions of the embedding.

* A Go `map[string]interface{}` that is only read and written by key (`EntityResult`,
  `SymbolTable`) is a function `String → Option Value`.
* The field map of a generator (`FieldSet`, a `map[string]*Field`) is also visited with
  `range`.  It is an association list; the list order stands for the order in which `range`
  visits the map, which Go leaves unspecified.  A statement about every generator is therefore
  a statement about every visiting order; a statement about a generator that a constructor
  returns is made for every generator with the same members and a permutation of its fields
  (`Generator.sameMap`) where the order matters.
* The two loops of `One` may visit the map in two different orders.  The first loop skips the
  deferred fields and the second loop skips the others (`nonDeferredFields_filter`,
  `deferredFields_filter`), so such a run is the run on the list that holds the fields that
  are not deferred in the order of the first loop and the deferred fields in the order of the
  second.
* `int64` values are integers.  The generator compares them (`EnsureGeneratable`,
  `newFieldType`) and increments a serial counter, which is taken not to overflow; the
  operators of the deferred evaluator compute with them, and there every result is wrapped
  into the range of `int64` (`int64.wrap`).
* A `float64` is a finite value, given by the rational number it denotes, a negative zero, an
  infinity or NaN (`float64`).  The operations on `float64` that round, and the conversions
  that the language leaves to the implementation, are members of the parameter `Runtime`.
* In the parts on `WithField` and on the operators, where the text of an error matters, a Go
  function that returns `(value, error)` returns an `Except String`, the message of the error
  on the left, and an `error` alone is its message, or `none` for nil.
* Mutable objects that are shared through pointers (the serial counter of a primary key, the
  random source, the sink behind an emitter) live in an explicit `World` that is passed
  through every call.  A pointer to a generator is the generator as it is when the pointer is
  stored.
* A call that dereferences a missing map entry panics in Go; it is `none` here, and so is a
  deferred resolver that fails.
* Code of the repository that is not among the sources at hand (fields.go, primary_key.go, the
  emitter, `TransientScope`) is modelled from the specification; each such definition says
  so.  Calls into libraries (the random source, the dictionary, object ids) are the parameter
  `Library`, and are taken to return.  `Interpreter.ApplyOperator`, which is not among the
  sources either and which the operators only pass on, is a member of `Interpreter`.
* Allocations succeed: a slice of any length can be made.
* The package-level variables of dictionary.go are the record `Dictionary`, passed through
  the calls; the files, `math.Pow` and the error values are the parameter `Assets`.  The
  recursion of `NumberOfPossibleValuesForDictionary` through the format files need not end;
  it is bounded by a depth, and the result is `none` when the bound is reached.
* The lookups of dictionary.go also draw from the random source of the package and read whole
  files; both are the parameter `Sources`, and the state of the random source is passed
  through the calls next to the variables.  The contents of a file are a string.  The
  recursion of `valueFromFormat` through `compositeFormat` is bounded by a depth like the
  counting; the recursion of `_lookup` ends after one call (`_lookup.go_fuel`).
* interpreter.go is written against a revision of the packages dsl and generator that is not
  among the sources; what it calls there is the parameter `Packages`.  Its struct
  `Interpreter` is `InterpreterState` here, the name `Interpreter` being the receiver of the
  operators.
-/

namespace generator

/-! ## Values, records and scopes -/

/-- The dynamic values (`interface{}`) that fields produce and records hold. -/
inductive Value where
  | nil
  | int (i : Int)
  | float (f : Rat)
  | str (s : String)
  | bool (b : Bool)
  | time (unix : Int)
  | list (vs : List Value)

/-- The Go test `v != nil` on an `interface{}`. -/
def Value.isNil : Value → Bool
  | .nil => true
  | _ => false

/-- The type `EntityResult`, a `map[string]interface{}`: one generated record. -/
abbrev EntityResult := String → Option Value

/-- The type `SymbolTable` of scope.go, a `map[string]interface{}`. -/
abbrev SymbolTable := String → Option Value

/-- The literal `EntityResult{}`. -/
def EntityResult.empty : EntityResult := fun _ => none

/-- The assignment `m[k] = v` on a map. -/
def EntityResult.set (m : EntityResult) (k : String) (v : Value) : EntityResult :=
  fun j => if j = k then some v else m j

/-- The struct `Scope` of scope.go: a symbol table chained to a parent scope (a nil parent is
`none`).  The `imports` member plays no part in symbol resolution and is left out. -/
inductive Scope where
  | mk (parent : Option Scope) (symbols : SymbolTable)

/-- The member `symbols` of a scope. -/
def Scope.symbols : Scope → SymbolTable
  | .mk _ s => s

/-- The member `parent` of a scope. -/
def Scope.parent : Scope → Option Scope
  | .mk p _ => p

/-- `Scope.ResolveSymbol` (scope.go): the entry of the nearest scope that defines the
identifier, `nil` when no scope of the chain does. -/
def Scope.ResolveSymbol : Scope → String → Value
  | .mk none symbols, identifier =>
    match symbols identifier with
    | some entry => entry
    | none => Value.nil
  | .mk (some p) symbols, identifier =>
    match symbols identifier with
    | some entry => entry
    | none => Scope.ResolveSymbol p identifier

/-- `Scope.SetSymbol` (scope.go): `s.symbols[identifier] = value`. -/
def Scope.SetSymbol (s : Scope) (identifier : String) (value : Value) : Scope :=
  .mk s.parent (EntityResult.set s.symbols identifier value)

/-- Modelled from the spec: `TransientScope` (its file is not in src) makes a scope over the
given parent "whose symbol table is the entity record itself". -/
def TransientScope (parent : Option Scope) (symbols : SymbolTable) : Scope :=
  .mk parent symbols

/-! ## Fields and generators -/

/-- The struct `CountRange` (package common, not in src): the bounds of a multi-value count. -/
structure CountRange where
  Min : Int
  Max : Int
  deriving DecidableEq

/-- The distributions that `newDistribution` builds. -/
inductive Distribution where
  | NormalDistribution
  | UniformDistribution
  | WeightedDistribution (weights : List Rat)
  | PercentageDistribution (weights : List Rat) (bins : List Int)

/-- The struct `PrimaryKey`.  The source shows the members `name` and `kind`
(`DEFAULT_PK_CONFIG`).  Modelled from the spec: `counter` is the shared counter cell of the
key ("{name, kind, counter?: shared}"), given by its address in `World.serial`. -/
structure PrimaryKey where
  name : String
  kind : String
  counter : Nat
  deriving DecidableEq

/-- The package variable `DEFAULT_PK_CONFIG`. -/
def DEFAULT_PK_CONFIG : PrimaryKey := { name := "$id", kind := "uid", counter := 0 }

mutual
/-- The field types that generator.go constructs (`&StringType{..}`, `&IntegerType{..}`, ...).
A pointer to a generator is the generator itself; the counter of a `SerialType` is the address
of its cell in `World.serial`. -/
inductive FieldType where
  | StringType (length : Int)
  | IntegerType (min max : Int)
  | FloatType (min max : Rat)
  | DateType (min max : Int) (format : String)
  | BoolType
  | DictType (category : String)
  | EnumType (values : List Value) (size : Int)
  | MongoIDType
  | SerialType (counter : Nat)
  | LiteralType (value : Value)
  | EntityType (entityGenerator : Generator)
  | ReferenceType (referred : Generator) (fieldName : String)
  | DeferredType (closure : Scope → Option Value)
  | DistributionType (bins : List Field) (dist : Distribution)
/-- The struct `Field`, as `NewField(fieldType, count, uniqueValue)` fills it. -/
inductive Field where
  | mk (fieldType : FieldType) (count : Option CountRange) (UniqueValue : Bool)
/-- The struct `Generator` (generator.go 13-20). -/
inductive Generator where
  | mk (name : String) (extends_ : String) (declaredType : String)
      (fields : List (String × Field)) (disableMetadata : Bool) (pkey : PrimaryKey)
end

/-- The type `FieldSet`, a `map[string]*Field`, with the order in which `range` visits it. -/
abbrev FieldSet := List (String × Field)

/-- The constructor `NewField`. -/
def NewField (fieldType : FieldType) (count : Option CountRange) (uniqueValue : Bool) : Field :=
  .mk fieldType count uniqueValue

/-- The member `fieldType` of a field. -/
def Field.fieldType : Field → FieldType
  | .mk t _ _ => t

/-- The member `count` of a field. -/
def Field.count : Field → Option CountRange
  | .mk _ c _ => c

/-- The member `UniqueValue` of a field. -/
def Field.UniqueValue : Field → Bool
  | .mk _ _ u => u

/-- The member `name` of a generator. -/
def Generator.name : Generator → String
  | .mk n _ _ _ _ _ => n

/-- The member `extends` of a generator. -/
def Generator.extends_ : Generator → String
  | .mk _ e _ _ _ _ => e

/-- The member `declaredType` of a generator. -/
def Generator.declaredType : Generator → String
  | .mk _ _ d _ _ _ => d

/-- The member `fields` of a generator. -/
def Generator.fields : Generator → FieldSet
  | .mk _ _ _ fs _ _ => fs

/-- The member `disableMetadata` of a generator. -/
def Generator.disableMetadata : Generator → Bool
  | .mk _ _ _ _ d _ => d

/-- The member `pkey` of a generator. -/
def Generator.pkey : Generator → PrimaryKey
  | .mk _ _ _ _ _ p => p

/-- The map read `fields[key]`: the field stored under the key, if any. -/
def FieldSet.get : FieldSet → String → Option Field
  | [], _ => none
  | (k, f) :: rest, key => if k = key then some f else FieldSet.get rest key

/-- The map write `fields[key] = field`: an existing entry is replaced in place, a new key is
added. -/
def FieldSet.set : FieldSet → String → Field → FieldSet
  | [], key, field => [(key, field)]
  | (k, f) :: rest, key, field =>
    if k = key then (k, field) :: rest else (k, f) :: FieldSet.set rest key field

/-- `Generator.HasField` (generator.go 22-25). -/
def Generator.HasField (g : Generator) (fieldName : String) : Bool :=
  (FieldSet.get g.fields fieldName).isSome

/-- `Generator.PrimaryKeyName` (generator.go 77-79). -/
def Generator.PrimaryKeyName (g : Generator) : String :=
  g.pkey.name

/-- `Generator.Type` (generator.go 240-242). -/
def Generator.Type (g : Generator) : String :=
  g.declaredType

/-- Modelled from the spec: the tag `Type()` of a field type (fields.go is not in src), one
tag per variant of the table of field types.  generator.go compares the tag with "deferred"
(in `One`) only. -/
def FieldType.Type : FieldType → String
  | .StringType _ => "string"
  | .IntegerType _ _ => "integer"
  | .FloatType _ _ => "float"
  | .DateType _ _ _ => "date"
  | .BoolType => "bool"
  | .DictType _ => "dict"
  | .EnumType _ _ => "enum"
  | .MongoIDType => "uid"
  | .SerialType _ => "serial"
  | .LiteralType _ => "literal"
  | .EntityType _ => "entity"
  | .ReferenceType _ _ => "reference"
  | .DeferredType _ => "deferred"
  | .DistributionType _ _ => "distribution"

/-- Modelled from the spec: `Field.Uniquable` (fields.go is not in src), membership of the
field type in the uniquable set {String, Integer, Float, Date, Dict, Enum, UID, Serial}. -/
def Field.Uniquable (f : Field) : Bool :=
  match f.fieldType with
  | .StringType _ => true
  | .IntegerType _ _ => true
  | .FloatType _ _ => true
  | .DateType _ _ _ => true
  | .DictType _ => true
  | .EnumType _ _ => true
  | .MongoIDType => true
  | .SerialType _ => true
  | _ => false

/-! ## EnsureGeneratable -/

/-- The message of `EnsureGeneratable`:
`fmt.Errorf("Not enough unique values for field '%v': There are only %v unique values
available for the '%v' field, and you're trying to generate %v entities", name,
numberOfPossibilities, name, count)`. -/
def notEnoughUniqueValues (name : String) (numberOfPossibilities count : Int) : String :=
  "Not enough unique values for field \x27" ++ name ++ "\x27: There are only "
    ++ toString numberOfPossibilities ++ " unique values available for the \x27" ++ name
    ++ "\x27 field, and you\x27re trying to generate " ++ toString count ++ " entities"

/-- The loop of `EnsureGeneratable` over the fields in visiting order.  The count of
possibilities of a field, `Field.numberOfPossibilities` (fields.go, not in src), is the
argument `numberOfPossibilities`. -/
def ensureFields (numberOfPossibilities : Field → Int) (count : Int) : FieldSet → Option String
  | [] => none
  | (name, field) :: rest =>
    if field.Uniquable && field.UniqueValue then
      if numberOfPossibilities field ≠ -1 ∧ numberOfPossibilities field < count then
        some (notEnoughUniqueValues name (numberOfPossibilities field) count)
      else ensureFields numberOfPossibilities count rest
    else ensureFields numberOfPossibilities count rest

/-- `Generator.EnsureGeneratable` (generator.go 252-262): the error, `none` for `nil`. -/
def Generator.EnsureGeneratable (numberOfPossibilities : Field → Int) (g : Generator)
    (count : Int) : Option String :=
  ensureFields numberOfPossibilities count g.fields

/-! ## Construction and extension -/

/-- The library call `strings.HasPrefix`: `s` begins with `pre`. Go compares bytes; on
valid UTF-8 a byte prefix that is itself valid UTF-8 is a prefix of characters. -/
def strings.HasPrefix (s pre : String) : Bool :=
  pre.data.isPrefixOf s.data

/-- The assignment `g.fields[key] = field`. -/
def Generator.setField : Generator → String → Field → Generator
  | .mk n e d fs dm pk, key, field => .mk n e d (FieldSet.set fs key field) dm pk

/-- The assignment `g.extends = value`. -/
def Generator.setExtends : Generator → String → Generator
  | .mk n _ d fs dm pk, value => .mk n value d fs dm pk

/-- The assignment `g.declaredType = value`. -/
def Generator.setDeclaredType : Generator → String → Generator
  | .mk n e _ fs dm pk, value => .mk n e value fs dm pk

/-- The assignment `g.pkey = pk`. -/
def Generator.setPkey : Generator → PrimaryKey → Generator
  | .mk n e d fs dm _, pk => .mk n e d fs dm pk

/-- `Generator.recalculateType` (generator.go 244-250). -/
def Generator.recalculateType (g : Generator) : Generator :=
  if (strings.HasPrefix g.name "$" || g.name == "") && g.extends_ != "" then
    g.setDeclaredType g.extends_
  else
    g.setDeclaredType g.name

/-- Modelled from the spec: the id field of a primary key (primary_key.go is not in src),
"UID → UID FieldType; Serial → Serial FieldType referencing `counter`". -/
def PrimaryKey.idField (pk : PrimaryKey) : Field :=
  if pk.kind = "serial" then NewField (.SerialType pk.counter) none false
  else NewField .MongoIDType none false

/-- Modelled from the spec: `PrimaryKey.Attach` (primary_key.go is not in src), "`Attach(g)`
installs the id field on `g.fields[name]` of the corresponding FieldType"; the generator keeps
the key as its `pkey`. -/
def PrimaryKey.Attach (pk : PrimaryKey) (g : Generator) : Generator :=
  (g.setPkey pk).setField pk.name pk.idField

/-- Modelled from the spec: `PrimaryKey.Inherit` (primary_key.go is not in src), "child's pkey
is the same object as parent's (same counter); the child's id-field reuses that counter". -/
def PrimaryKey.Inherit (pk : PrimaryKey) (gen : Generator) (_parent : Generator) : Generator :=
  (gen.setPkey pk).setField pk.name pk.idField

/-- `NewGenerator` (generator.go 55-75).  A nil `pkey` is `none`.  Between the allocation of
the generator and `Attach` its `pkey` member is nil in Go; `DEFAULT_PK_CONFIG` stands there
until `Attach` sets the member. -/
def NewGenerator (name : String) (pkey : Option PrimaryKey) (disableMetadata : Bool) :
    Generator :=
  let name := if name = "" then "$" else name
  let g := Generator.mk name "" "" [] disableMetadata DEFAULT_PK_CONFIG
  let g := g.recalculateType
  let g := if !disableMetadata then
      g.setField "$type" (NewField (.LiteralType (.str g.Type)) none false)
    else g
  let pkey := match pkey with
    | none => DEFAULT_PK_CONFIG
    | some pk => pk
  pkey.Attach g

/-- The loop of `ExtendGenerator` over the fields of the parent (generator.go 46-50). -/
def inheritFields (parent : Generator) : FieldSet → Generator → Generator
  | [], gen => gen
  | (key, f) :: rest, gen =>
    if !gen.HasField key && !strings.HasPrefix key "$" && key != parent.PrimaryKeyName then
      inheritFields parent rest
        (gen.setField key (NewField (.ReferenceType parent key) f.count false))
    else inheritFields parent rest gen

/-- `ExtendGenerator` (generator.go 27-53).  A nil `pkey` is `none`. -/
def ExtendGenerator (name : String) (parent : Generator) (pkey : Option PrimaryKey)
    (disableMetadata : Bool) : Generator :=
  let gen := match pkey with
    | none => parent.pkey.Inherit (NewGenerator name (some parent.pkey) disableMetadata) parent
    | some pk => NewGenerator name (some pk) disableMetadata
  let gen := gen.setExtends parent.Type
  let gen := gen.recalculateType
  let gen := if !disableMetadata then
      (gen.setField "$extends" (NewField (.LiteralType (.str gen.extends_)) none false)).setField
        "$type" (NewField (.LiteralType (.str gen.Type)) none false)
    else gen
  inheritFields parent parent.fields gen

/-- `Generator.newStaticField` (generator.go 81-83). -/
def Generator.newStaticField (_g : Generator) (_fieldName : String) (fieldValue : Value) :
    Field :=
  NewField (.LiteralType fieldValue) none false

/-- `Generator.WithDeferredField` (generator.go 85-88): the generator after the call; the
error that the call returns is always nil.  A `DeferredResolver` is a function from the scope
to a value or (`none`) an error. -/
def Generator.WithDeferredField (g : Generator) (fieldName : String)
    (fieldValue : Scope → Option Value) : Generator :=
  g.setField fieldName (NewField (.DeferredType fieldValue) none false)

/-- `Generator.WithLiteralField` (generator.go 90-93): the generator after the call; the error
that the call returns is always nil. -/
def Generator.WithLiteralField (g : Generator) (fieldName : String) (fieldValue : Value) :
    Generator :=
  g.setField fieldName (g.newStaticField fieldName fieldValue)

/-- `Generator.WithEntityField` (generator.go 95-98): the generator after the call; the error
that the call returns is always nil. -/
def Generator.WithEntityField (g : Generator) (fieldName : String)
    (entityGenerator : Generator) (_fieldArgs : Value) (countRange : Option CountRange) :
    Generator :=
  g.setField fieldName (NewField (.EntityType entityGenerator) countRange false)

/-! ## Generation -/

/-- The mutable objects that generation reaches through pointers.
* `rng`: the state of the process-wide random source and of the libraries that draw from it.
* `serial`: the serial counters, by address; a counter that was never advanced holds 0.
* `emitted`: the records delivered to the sink behind the emitter, oldest first, each with the
  type tag it was emitted under. -/
structure World where
  rng : Nat
  serial : Nat → Int
  emitted : List (EntityResult × String)

/-- Modelled from the spec: an `Emitter` (package emitter is not in src).  "`Emit(record,
typeTag)` delivers one finished record; `NextEmitter(parentRecord, fieldName, multi)` returns a
child emitter bound to a slot in the parent"; the spec has every record, sub-entity records
included, delivered to the one sink, in the order of the `Emit` calls (§5, S5).  An emitter is
the chain of slots it is bound to. -/
structure Emitter where
  slots : List (String × Bool)

/-- Modelled from the spec: `Emitter.NextEmitter`.  The child emitter delivers to the same
sink and does not write into the parent record: an emitter that populates `entity[name]`, which
the test `isAlreadySet` of generator.go 289 allows for, is not modelled. -/
def Emitter.NextEmitter (e : Emitter) (_parentRecord : EntityResult) (fieldName : String)
    (multi : Bool) : Emitter :=
  { slots := e.slots ++ [(fieldName, multi)] }

/-- Modelled from the spec: `Emitter.Emit`, the record joins the records delivered so far. -/
def Emitter.Emit (_e : Emitter) (record : EntityResult) (typeTag : String) (w : World) : World :=
  { w with emitted := w.emitted ++ [(record, typeTag)] }

/-- The library calls behind the field types, which are not part of this repository's
generator code: the producers of the leaf field types (random strings, numbers, dates,
dictionary samples, enum choices, booleans, object ids), the test whether a count range asks
for several values, the draw of a count from a range, and the draw of a bin by a
distribution.  Each draw takes the state of the random source and returns the next state. -/
structure Library where
  produce : FieldType → Nat → Value × Nat
  multiple : CountRange → Bool
  count : CountRange → Nat → Nat × Nat
  bin : Distribution → Nat → Nat → Nat × Nat

/-- Modelled from the spec: `Field.MultiValue` (fields.go is not in src), whether the count of
the field is a range of several values. -/
def Field.MultiValue (lib : Library) (f : Field) : Bool :=
  match f.count with
  | none => false
  | some c => lib.multiple c

/-- The value read from a map entry: the nil interface for a missing key. -/
def valueOf : Option Value → Value
  | some v => v
  | none => Value.nil

/-- The loop `values[i] = fieldType.One(...)` of a multi-value field, for n values. -/
def repeatOne (one : Value → Emitter → Scope → World → Option (Value × World)) :
    Nat → Value → Emitter → Scope → World → Option (List Value × World)
  | 0, _, _, _, w => some ([], w)
  | n + 1, parentId, emitter, scope, w =>
    match one parentId emitter scope w with
    | none => none
    | some (value, w) =>
      match repeatOne one n parentId emitter scope w with
      | none => none
      | some (values, w) => some (value :: values, w)

mutual
/-- `Generator.One` (generator.go 273-308).  The record `entity` and the symbol table of
`childScope` are one map in Go, so `childScope` is `TransientScope scope entity` for the
current `entity` at every use.  The result is `none` when Go panics on a missing field. -/
def Generator.One (lib : Library) :
    Generator → Value → Emitter → Option Scope → World → Option (EntityResult × World)
  | .mk _ _ declaredType fields _ pkey, parentId, emitter, scope, w =>
    let entity := EntityResult.empty
    let idKey := pkey.name
    match lookupGenerate lib fields idKey Value.nil emitter (TransientScope scope entity) w with
    | none => none
    | some (id, w) =>
      let entity := entity.set idKey id
      let entity := if parentId.isNil then entity else entity.set "$parent" parentId
      match nonDeferredFields lib fields idKey id emitter scope entity w with
      | none => none
      | some (entity, w) =>
        match deferredFields lib fields id emitter scope entity w with
        | none => none
        | some (entity, w) => some (entity, emitter.Emit entity declaredType w)
/-- The first loop of `One` (generator.go 285-296), over the fields in visiting order. -/
def nonDeferredFields (lib : Library) :
    FieldSet → String → Value → Emitter → Option Scope → EntityResult → World →
      Option (EntityResult × World)
  | [], _, _, _, _, entity, w => some (entity, w)
  | (name, field) :: rest, idKey, id, emitter, scope, entity, w =>
    if field.fieldType.Type != "deferred" then
      if name != idKey then
        match Field.GenerateValue lib field id
            (emitter.NextEmitter entity name (field.MultiValue lib))
            (TransientScope scope entity) w with
        | none => none
        | some (value, w) =>
          if (entity name).isSome then
            nonDeferredFields lib rest idKey id emitter scope entity w
          else
            let entity := entity.set name value
            let entity := ((TransientScope scope entity).SetSymbol name value).symbols
            nonDeferredFields lib rest idKey id emitter scope entity w
      else nonDeferredFields lib rest idKey id emitter scope entity w
    else nonDeferredFields lib rest idKey id emitter scope entity w
/-- The second loop of `One` (generator.go 299-304), over the fields in visiting order. -/
def deferredFields (lib : Library) :
    FieldSet → Value → Emitter → Option Scope → EntityResult → World →
      Option (EntityResult × World)
  | [], _, _, _, entity, w => some (entity, w)
  | (name, field) :: rest, id, emitter, scope, entity, w =>
    if field.fieldType.Type == "deferred" then
      match Field.GenerateValue lib field id
          (emitter.NextEmitter entity name (field.MultiValue lib))
          (TransientScope scope entity) w with
      | none => none
      | some (value, w) =>
        let entity := entity.set name value
        let entity := ((TransientScope scope entity).SetSymbol name
          (valueOf (entity name))).symbols
        deferredFields lib rest id emitter scope entity w
    else deferredFields lib rest id emitter scope entity w
/-- The call `fields[key].GenerateValue(...)`: `none` (a nil `*Field`) for a missing key. -/
def lookupGenerate (lib : Library) :
    FieldSet → String → Value → Emitter → Scope → World → Option (Value × World)
  | [], _, _, _, _, _ => none
  | (k, field) :: rest, key, parentId, emitter, scope, w =>
    if k = key then Field.GenerateValue lib field parentId emitter scope w
    else lookupGenerate lib rest key parentId emitter scope w
/-- Modelled from the spec: `Field.GenerateValue` (fields.go is not in src).  "If `count` is
nil or single: produce one value from `fieldType.One(parentId, emitter, scope)`.  Else: draw n
and produce a list of n independent values." -/
def Field.GenerateValue (lib : Library) :
    Field → Value → Emitter → Scope → World → Option (Value × World)
  | .mk fieldType count _, parentId, emitter, scope, w =>
    match count with
    | none => FieldType.One lib fieldType parentId emitter scope w
    | some c =>
      if lib.multiple c then
        match repeatOne (FieldType.One lib fieldType) (lib.count c w.rng).1 parentId emitter
            scope { w with rng := (lib.count c w.rng).2 } with
        | none => none
        | some (values, w) => some (Value.list values, w)
      else FieldType.One lib fieldType parentId emitter scope w
/-- Modelled from the spec: `One` of the field types (fields.go is not in src).
* Serial: "pre-increment a counter shared via the owning pkey; starts at 1".
* Literal: "return the stored value".
* Entity: "call `childGen.One(parentId, emitter, scope)` and return the id".
* Reference: "look up the referred generator's field of the same name and call its
  `GenerateValue`, passing the current scope".
* Deferred: the resolver is invoked with the scope; `none` is a resolver that fails, which
  aborts the run.
* Distribution: "ask `dist` for a bin index, then produce a value from `bins[idx]`".
* The other types draw their value from the library. -/
def FieldType.One (lib : Library) :
    FieldType → Value → Emitter → Scope → World → Option (Value × World)
  | .SerialType counter, _, _, _, w =>
    some (Value.int (w.serial counter + 1),
      { w with serial := fun c => if c = counter then w.serial counter + 1 else w.serial c })
  | .LiteralType value, _, _, _, w => some (value, w)
  | .EntityType entityGenerator, parentId, emitter, scope, w =>
    match Generator.One lib entityGenerator parentId emitter (some scope) w with
    | none => none
    | some (entity, w) => some (valueOf (entity entityGenerator.PrimaryKeyName), w)
  | .ReferenceType referred fieldName, parentId, emitter, scope, w =>
    referredGenerate lib referred fieldName parentId emitter scope w
  | .DeferredType closure, _, _, scope, w =>
    match closure scope with
    | none => none
    | some value => some (value, w)
  | .DistributionType bins dist, parentId, emitter, scope, w =>
    binGenerate lib bins (lib.bin dist bins.length w.rng).1 parentId emitter scope
      { w with rng := (lib.bin dist bins.length w.rng).2 }
  | .StringType length, _, _, _, w =>
    some ((lib.produce (.StringType length) w.rng).1,
      { w with rng := (lib.produce (.StringType length) w.rng).2 })
  | .IntegerType min max, _, _, _, w =>
    some ((lib.produce (.IntegerType min max) w.rng).1,
      { w with rng := (lib.produce (.IntegerType min max) w.rng).2 })
  | .FloatType min max, _, _, _, w =>
    some ((lib.produce (.FloatType min max) w.rng).1,
      { w with rng := (lib.produce (.FloatType min max) w.rng).2 })
  | .DateType min max format, _, _, _, w =>
    some ((lib.produce (.DateType min max format) w.rng).1,
      { w with rng := (lib.produce (.DateType min max format) w.rng).2 })
  | .BoolType, _, _, _, w =>
    some ((lib.produce .BoolType w.rng).1, { w with rng := (lib.produce .BoolType w.rng).2 })
  | .DictType category, _, _, _, w =>
    some ((lib.produce (.DictType category) w.rng).1,
      { w with rng := (lib.produce (.DictType category) w.rng).2 })
  | .EnumType values size, _, _, _, w =>
    some ((lib.produce (.EnumType values size) w.rng).1,
      { w with rng := (lib.produce (.EnumType values size) w.rng).2 })
  | .MongoIDType, _, _, _, w =>
    some ((lib.produce .MongoIDType w.rng).1,
      { w with rng := (lib.produce .MongoIDType w.rng).2 })
/-- The call `referred.fields[fieldName].GenerateValue(...)` of a reference. -/
def referredGenerate (lib : Library) :
    Generator → String → Value → Emitter → Scope → World → Option (Value × World)
  | .mk _ _ _ fields _ _, fieldName, parentId, emitter, scope, w =>
    lookupGenerate lib fields fieldName parentId emitter scope w
/-- The call `bins[idx].GenerateValue(...)` of a distribution: `none` (index out of range) when
there is no such bin. -/
def binGenerate (lib : Library) :
    List Field → Nat → Value → Emitter → Scope → World → Option (Value × World)
  | [], _, _, _, _, _ => none
  | field :: _, 0, parentId, emitter, scope, w =>
    Field.GenerateValue lib field parentId emitter scope w
  | _ :: rest, idx + 1, parentId, emitter, scope, w =>
    binGenerate lib rest idx parentId emitter scope w
end

/-- The loop of `Generate` (generator.go 267-269): `remaining` iterations from index `i`. -/
def generateLoop (lib : Library) (g : Generator) (emitter : Emitter) (scope : Option Scope) :
    Nat → Nat → List Value → World → Option (List Value × World)
  | 0, _, ids, w => some (ids, w)
  | remaining + 1, i, ids, w =>
    match g.One lib Value.nil emitter scope w with
    | none => none
    | some (entity, w) =>
      generateLoop lib g emitter scope remaining (i + 1)
        (ids.set i (valueOf (entity g.PrimaryKeyName))) w

/-- `Generator.Generate` (generator.go 264-271).  `make([]interface{}, count)` panics for a
negative count, which is `none`. -/
def Generator.Generate (lib : Library) (g : Generator) (count : Int) (emitter : Emitter)
    (scope : Option Scope) (w : World) : Option (List Value × World) :=
  if count < 0 then none
  else generateLoop lib g emitter scope count.toNat 0 (List.replicate count.toNat Value.nil) w

/-! ## Auxiliary definitions for the statements about construction -/

/-- The name that `NewGenerator` stores: "$" for the empty name. -/
def storedName (name : String) : String := if name = "" then "$" else name

/-- The primary key that `NewGenerator` attaches: the default one for a nil argument. -/
def attachedKey (pkey : Option PrimaryKey) : PrimaryKey :=
  match pkey with
  | none => DEFAULT_PK_CONFIG
  | some pk => pk

/-- The literal field that holds a metadata string. -/
def metadataField (value : String) : Field := NewField (.LiteralType (.str value)) none false

/-- The fields of a new generator. -/
def newFields (name : String) (pk : PrimaryKey) (dm : Bool) : FieldSet :=
  FieldSet.set (if dm then [] else [("$type", metadataField (storedName name))])
    pk.name pk.idField

/-- The primary key of an extended generator: the given one, the one of the parent for nil. -/
def extendedKey (parent : Generator) (pkey : Option PrimaryKey) : PrimaryKey :=
  match pkey with
  | none => parent.pkey
  | some pk => pk

/-- The declared type of an extended generator, as `recalculateType` computes it. -/
def extendedType (name : String) (parent : Generator) : String :=
  if (strings.HasPrefix (storedName name) "$" || storedName name == "") && parent.Type != "" then
    parent.Type
  else storedName name

/-- The fields of an extended generator before the fields of the parent are visited. -/
def extendedFields (name : String) (parent : Generator) (pk : PrimaryKey) (dm : Bool) :
    FieldSet :=
  if dm then newFields name pk dm
  else FieldSet.set (FieldSet.set (newFields name pk dm)
    "$extends" (metadataField parent.Type)) "$type" (metadataField (extendedType name parent))

/-- The entry of the key that the loop would install for a visited field. -/
def inherited (parent : Generator) (fs : FieldSet) (k : String) : Option Field :=
  match FieldSet.get fs k with
  | some f =>
    if strings.HasPrefix k "$" = false ∧ k ≠ parent.PrimaryKeyName then
      some (NewField (.ReferenceType parent k) f.count false)
    else none
  | none => none

/-! ## Auxiliary definitions for the statements about generation -/

/-- The test `field.fieldType.Type() == "deferred"` of the loops of `One`. -/
def Field.isDeferred (f : Field) : Bool := f.fieldType.Type == "deferred"

/-- The field set is a map: no key occurs twice. -/
def FieldSet.isMap (fs : FieldSet) : Prop := (fs.map Prod.fst).Nodup

/-- Whether a field set is a map is decided by comparing its keys. -/
instance FieldSet.decidableIsMap (fs : FieldSet) : Decidable (FieldSet.isMap fs) :=
  inferInstanceAs (Decidable ((fs.map Prod.fst).Nodup))

/-- Two generators are one generator whose field map is visited in two orders: they agree on
every member and their field lists are permutations of each other. -/
def Generator.sameMap (g g' : Generator) : Prop :=
  g.name = g'.name ∧ g.extends_ = g'.extends_ ∧ g.declaredType = g'.declaredType ∧
    g.disableMetadata = g'.disableMetadata ∧ g.pkey = g'.pkey ∧ g.fields.Perm g'.fields

/-- The record of `One` when the loops start: the primary key, and `$parent` for a parent id
that is not nil (generator.go 279-283). -/
def initialEntity (idKey : String) (id parentId : Value) : EntityResult :=
  if parentId.isNil then EntityResult.empty.set idKey id
  else (EntityResult.empty.set idKey id).set "$parent" parentId

/-- Successive calls `One(nil, emitter, scope)`, n of them, each from the world that the call
before it left: the records in the order of the calls, and the last world.  `none` when a call
panics. -/
def oneCalls (lib : Library) (g : Generator) (emitter : Emitter) (scope : Option Scope) :
    Nat → World → Option (List EntityResult × World)
  | 0, w => some ([], w)
  | n + 1, w =>
    match g.One lib Value.nil emitter scope w with
    | none => none
    | some (record, w) =>
      match oneCalls lib g emitter scope n w with
      | none => none
      | some (records, w) => some (record :: records, w)

/-- The sink of the second world holds the records of the first, then possibly more. -/
def Grows (w w' : World) : Prop := ∃ l, w'.emitted = w.emitted ++ l

/-- A producer of values only adds records to the sink. -/
def RunnerGrows (r : Value → Emitter → Scope → World → Option (Value × World)) : Prop :=
  ∀ p e s w v w', r p e s w = some (v, w') → Grows w w'

/-- The field always produces a value, and leaves the serial counter at the address alone. -/
def KeepsCounter (lib : Library) (counter : Nat) (f : Field) : Prop :=
  ∀ parentId emitter scope w, ∃ v w',
    f.GenerateValue lib parentId emitter scope w = some (v, w') ∧
    w'.serial counter = w.serial counter

/-! ## Sample generators -/

/-- A library for the samples: a string field yields its length in copies of one letter, every
other leaf field yields the state of the random source as a number; each draw advances the
state by one.  A count range asks for several values when its maximum exceeds 1 and the draw
takes its minimum; a distribution picks its first bin. -/
def sampleLibrary : Library where
  produce := fun ft r =>
    match ft with
    | .StringType length =>
      (Value.str (String.mk (List.replicate length.toNat (Char.ofNat (97 + r % 26)))), r + 1)
    | _ => (Value.int r, r + 1)
  multiple := fun c => decide (1 < c.Max)
  count := fun c r => (c.Min.toNat, r)
  bin := fun _ _ r => (0, r)

/-- A world in which nothing has been drawn, counted or emitted. -/
def freshWorld : World := { rng := 0, serial := fun _ => 0, emitted := [] }

/-- An emitter that is bound to no slot. -/
def rootEmitter : Emitter := { slots := [] }

/-- The resolver of `first + " " + last`: the two names are resolved in the scope and the
strings found are joined; anything but two strings is an error. -/
def fullName (scope : Scope) : Option Value :=
  match scope.ResolveSymbol "first", scope.ResolveSymbol "last" with
  | Value.str a, Value.str b => some (Value.str (a ++ " " ++ b))
  | _, _ => none

/-- The generator `person`: `first: string(3)`, `last: string(4)`, `full: first + " " + last`,
with the default primary key and metadata.  The string fields are stored as
`WithField(name, "string", length, nil, false)` stores them. -/
def person : Generator :=
  (((NewGenerator "person" none false).WithDeferredField "full" fullName).setField "first"
    (NewField (.StringType 3) none false)).setField "last" (NewField (.StringType 4) none false)

/-- The generator `person`, visited in another order: `first` before `full`. -/
def personReordered : Generator :=
  (((NewGenerator "person" none false).setField "first"
    (NewField (.StringType 3) none false)).WithDeferredField "full" fullName).setField "last"
    (NewField (.StringType 4) none false)

/-- The result of one call of `One` on `person`, for the parent id 7. -/
def personRun : EntityResult × World :=
  (person.One sampleLibrary (Value.int 7) rootEmitter none freshWorld).getD
    (EntityResult.empty, freshWorld)

/-- The resolver of the expression `b`: the value that the scope resolves `b` to. -/
def valueOfB (scope : Scope) : Option Value := some (scope.ResolveSymbol "b")

/-- The resolver of the constant 1. -/
def constantOne (_scope : Scope) : Option Value := some (Value.int 1)

/-- A generator with the deferred fields `a: b` and `b: 1`, visited in the order `a`, `b`. -/
def aliasFirst : Generator :=
  ((NewGenerator "Q" none false).WithDeferredField "a" valueOfB).WithDeferredField "b"
    constantOne

/-- The same generator, visited in the order `b`, `a`. -/
def aliasLast : Generator :=
  ((NewGenerator "Q" none false).WithDeferredField "b" constantOne).WithDeferredField "a"
    valueOfB

/-- The generator `Pet` with `name: string(5)`, stored as
`WithField("name", "string", 5, nil, false)` stores it. -/
def pet : Generator :=
  (NewGenerator "Pet" none false).setField "name" (NewField (.StringType 5) none false)

/-- The generator `Owner` with the sub-entity field `pet: Pet`. -/
def owner : Generator :=
  (NewGenerator "Owner" none false).WithEntityField "pet" pet Value.nil none

/-- The result of one call of `One` on `owner` from the fresh world. -/
def ownerRun : EntityResult × World :=
  (owner.One sampleLibrary Value.nil rootEmitter none freshWorld).getD
    (EntityResult.empty, freshWorld)

/-- The resolver of the constant "x". -/
def constantX (_scope : Scope) : Option Value := some (Value.str "x")

/-- A generator `Pet` that defines a deferred field named `$parent`. -/
def strayPet : Generator :=
  (NewGenerator "Pet" none false).WithDeferredField "$parent" constantX

/-- The generator `Owner` with the sub-entity field `pet` of the generator `strayPet`. -/
def strayOwner : Generator :=
  (NewGenerator "Owner" none false).WithEntityField "pet" strayPet Value.nil none

/-- A serial primary key named `id`, with its counter at the address 7. -/
def serialKey : PrimaryKey := { name := "id", kind := "serial", counter := 7 }

/-- The generator `A` with the serial primary key `serialKey`. -/
def serialParent : Generator := NewGenerator "A" (some serialKey) false

/-- A generator `A` whose serial primary key is named `$extends`. -/
def extendsKeyed : Generator :=
  NewGenerator "A" (some { name := "$extends", kind := "serial", counter := 7 }) false

/-! ## WithField -/

/-- The dynamic values that reach `newFieldType` as `fieldArgs interface{}`, by dynamic type:
an `int64`, a `[2]int64`, a `[2]float64`, a `[]interface{}`, a `string`, and a value of any
other type (nil, `int`, `float64`, `[2]int`, `time.Time`, ...), which is given by the name of
its type and its rendering. -/
inductive FieldArgs where
  | int64 (ln : Int)
  | int64Pair (bounds0 bounds1 : Int)
  | float64Pair (bounds0 bounds1 : Rat)
  | slice (values : List Value)
  | string (dict : String)
  | other (typeName : String) (rendering : String)

/-- The renderings of the verb `%v` of package fmt that are not fixed here: of a `fieldArgs`
value, of a `float64` and of a `time.Time`. -/
structure Fmt where
  args : FieldArgs → String
  float64 : Rat → String
  time : Int → String

/-- Modelled from the spec: `DateType.ValidBounds` (fields.go is not in src),
"`ValidBounds := min < max`".  `DateField.ValidBounds` of generator_fields.go, its older form,
is `min.Before(max)` on the parsed bounds.  A `time.Time` is the instant it denotes. -/
def DateType.ValidBounds (min max : Int) (_format : String) : Bool :=
  decide (min < max)

/-- `Generator.newFieldType` (generator.go 100-170).  The result is `none` when the call
panics (a failed type assertion or an index out of range in the case "date"), the error
message when it returns an error, and the field otherwise.  `cell` is the address of the
counter of the `SerialType` that `&SerialType{}` allocates. -/
def Generator.newFieldType (fmt : Fmt) (cell : Nat) (_g : Generator)
    (fieldName fieldType : String) (fieldArgs : FieldArgs) (countRange : Option CountRange)
    (uniqueValue : Bool) : Option (Except String Field) :=
  match fieldType with
  | "string" =>
    match fieldArgs with
    | .int64 ln => some (.ok (NewField (.StringType ln) countRange uniqueValue))
    | _ => some (.error ("expected field args to be of type \x27int\x27 for field "
        ++ fieldName ++ " (" ++ fieldType ++ "), but got " ++ fmt.args fieldArgs))
  | "integer" =>
    match fieldArgs with
    | .int64Pair min max =>
      if max < min then
        some (.error ("max " ++ toString max ++ " cannot be less than min " ++ toString min))
      else some (.ok (NewField (.IntegerType min max) countRange uniqueValue))
    | _ => some (.error
        ("expected field args to be of type \x27(min:int, max:int)\x27 for field "
        ++ fieldName ++ " (" ++ fieldType ++ "), but got " ++ fmt.args fieldArgs))
  | "decimal" =>
    match fieldArgs with
    | .float64Pair min max =>
      if max < min then
        some (.error ("max " ++ fmt.float64 max ++ " cannot be less than min "
          ++ fmt.float64 min))
      else some (.ok (NewField (.FloatType min max) countRange uniqueValue))
    | _ => some (.error
        ("expected field args to be of type \x27(min:float64, max:float64)\x27 for field "
        ++ fieldName ++ " (" ++ fieldType ++ "), but got " ++ fmt.args fieldArgs))
  | "date" =>
    match fieldArgs with
    | .slice bounds =>
      match bounds.get? 0, bounds.get? 1, bounds.get? 2 with
      | some (.time min), some (.time max), some (.str format) =>
        if !DateType.ValidBounds min max format then
          some (.error ("max " ++ fmt.time max ++ " cannot be before min " ++ fmt.time min))
        else some (.ok (NewField (.DateType min max format) countRange uniqueValue))
      | _, _, _ => none
    | _ => some (.error
        ("expected field args to be of type \x27time.Time\x27 for field "
        ++ fieldName ++ " (" ++ fieldType ++ "), but got " ++ fmt.args fieldArgs))
  | "uid" => some (.ok (NewField .MongoIDType none false))
  | "bool" =>
    if uniqueValue then some (.error "boolean fields cannot be unique")
    else some (.ok (NewField .BoolType countRange false))
  | "dict" =>
    match fieldArgs with
    | .string dict => some (.ok (NewField (.DictType dict) countRange uniqueValue))
    | _ => some (.error ("expected field args to be of type \x27string\x27 for field "
        ++ fieldName ++ " (" ++ fieldType ++ "), but got " ++ fmt.args fieldArgs))
  | "enum" =>
    match fieldArgs with
    | .slice values =>
      some (.ok (NewField (.EnumType values (values.length : Int)) countRange uniqueValue))
    | _ => some (.error
        ("expected field args to be of type \x27collection\x27 for field "
        ++ fieldName ++ " (" ++ fieldType ++ "), but got " ++ fmt.args fieldArgs))
  | "serial" =>
    if countRange.isSome then some (.error "serial fields can only have a single value")
    else some (.ok (NewField (.SerialType cell) none false))
  | _ => some (.error ("Invalid field type \x27" ++ fieldType ++ "\x27"))

/-- `Generator.WithField` (generator.go 172-179): the generator after the call and the error
that the call returns (`none` for nil); `none` when the call panics. -/
def Generator.WithField (fmt : Fmt) (cell : Nat) (g : Generator)
    (fieldName fieldType : String) (fieldArgs : FieldArgs) (countRange : Option CountRange)
    (uniqueValue : Bool) : Option (Generator × Option String) :=
  match g.newFieldType fmt cell fieldName fieldType fieldArgs countRange uniqueValue with
  | none => none
  | some (.ok field) => some (g.setField fieldName field, none)
  | some (.error err) => some (g, some err)

/-- A sample of the renderings of package fmt. -/
def sampleFmt : Fmt :=
  { args := fun _ => "?", float64 := fun _ => "?", time := fun t => toString t }

/-! ## The operators of the deferred evaluator -/

/-- The values of the Go type `float64`.  A finite value is the rational number it denotes
(not every rational is a `float64`, so a statement about every `finite q` covers every finite
`float64`); the other values are the negative zero, the two infinities and NaN. -/
inductive float64 where
  | finite (q : Rat)
  | negZero
  | inf (negative : Bool)
  | NaN

/-- The comparison `x < 0` of a `float64` with zero. -/
def float64.isNegative : float64 → Bool
  | .finite q => decide (q < 0)
  | .negZero => false
  | .inf negative => negative
  | .NaN => false

/-- The dynamic values (`interface{}`) that the operators of evaluator_utils.go take and
return, by dynamic type.  A `DeferredResolver` is a `func(scope *Scope) (interface{}, error)`;
a value of a type that the operators do not name (a `time.Time`, a collection, a generator)
is given by the name of its type. -/
inductive Operand where
  | int64 (v : Int)
  | float64 (v : float64)
  | string (v : String)
  | bool (v : Bool)
  | DeferredResolver (resolver : Scope → Except String Operand)
  | nil
  | other (typeName : String)

/-- The type `DeferredResolver`. -/
abbrev DeferredResolver := Scope → Except String Operand

/-- The range of the type `int64`. -/
def int64.inRange (n : Int) : Prop :=
  -(2 : Int) ^ 63 ≤ n ∧ n < (2 : Int) ^ 63

/-- The `int64` that an arithmetic operation yields for the mathematical result `n`: the
value in the range of `int64` that is congruent to `n` modulo 2^64 (two's complement). -/
def int64.wrap (n : Int) : Int :=
  (n + (2 : Int) ^ 63) % (2 : Int) ^ 64 - (2 : Int) ^ 63

/-- What the functions of evaluator_utils.go take from the Go runtime and from the standard
library and that is not fixed here.
* `fadd`, `fsub`, `fmul`, `fdiv`: the arithmetic of `float64`, which rounds.
* `roundInt`: the conversion `float64(n)` of an `int64` that has no exact `float64`.
* `int64OutOfRange`: the conversion `int64(x)` of a `float64` whose truncation is not an
  `int64`, which the language leaves to the implementation.
* `FormatFloat`: `strconv.FormatFloat(x, \x27f\x27, -1, 64)`.
* `quoteRune`: the rendering by the verb `%q` of a character outside printable ASCII. -/
structure Runtime where
  fadd : float64 → float64 → float64
  fsub : float64 → float64 → float64
  fmul : float64 → float64 → float64
  fdiv : float64 → float64 → float64
  roundInt : Int → float64
  int64OutOfRange : float64 → Int
  FormatFloat : float64 → String
  quoteRune : Char → String

/-- The conversion `float64(n)` of an `int64`: exact up to 2^53 in absolute value. -/
def Runtime.toFloat64 (rt : Runtime) (n : Int) : float64 :=
  if n.natAbs ≤ 2 ^ 53 then .finite n else rt.roundInt n

/-- The conversion `int64(x)` of a `float64`: the fraction is discarded (truncation towards
zero) when the result is an `int64`. -/
def Runtime.toInt64 (rt : Runtime) (x : float64) : Int :=
  match x with
  | .finite q =>
    if -(2 : Int) ^ 63 ≤ (if 0 ≤ q then ⌊q⌋ else ⌈q⌉) ∧
        (if 0 ≤ q then ⌊q⌋ else ⌈q⌉) < (2 : Int) ^ 63 then
      (if 0 ≤ q then ⌊q⌋ else ⌈q⌉)
    else int64.wrap (rt.int64OutOfRange x)
  | .negZero => 0
  | _ => int64.wrap (rt.int64OutOfRange x)

/-- The library call `strconv.FormatInt(i, 10)`: the decimal digits of the absolute value,
after a minus sign for a negative number. -/
def strconv.FormatInt (i : Int) : String :=
  if i < 0 then "-" ++ Nat.repr i.natAbs else Nat.repr i.natAbs

/-- The library call `strconv.FormatBool`. -/
def strconv.FormatBool (b : Bool) : String :=
  if b then "true" else "false"

/-- The library call `strings.Join`: the elements in order, with the separator between
neighbours. -/
def strings.Join : List String → String → String
  | [], _ => ""
  | [a], _ => a
  | a :: b :: rest, sep => a ++ sep ++ strings.Join (b :: rest) sep

/-- The library call `strconv.Quote`, which the verb `%q` applies to a string: the string in
double quotes, a double quote and a backslash escaped by a backslash, every other printable
ASCII character as it is. -/
def strconv.Quote (rt : Runtime) (s : String) : String :=
  "\x22" ++ String.join (s.data.map (fun c =>
    if c = Char.ofNat 0x22 then "\x5c\x22"
    else if c = Char.ofNat 0x5c then "\x5c\x5c"
    else if 0x20 ≤ c.toNat ∧ c.toNat < 0x7f then c.toString
    else rt.quoteRune c)) ++ "\x22"

/-- `incompatible` (evaluator_utils.go 228-230): the message of
`fmt.Errorf("Incompatible types for operator %q", op)`. -/
def incompatible (rt : Runtime) (op : String) : String :=
  "Incompatible types for operator " ++ strconv.Quote rt op

/-- The receiver `*Interpreter` of the operators.  `ApplyOperator` is a method of the
interpreter that is not in src; the operators call it only inside the resolvers that
`handleDeferredLHS` and `handleDeferredRHS` return, and it is a member here. -/
structure Interpreter where
  runtime : Runtime
  ApplyOperator : String → Operand → Operand → Scope → Bool → Except String Operand

/-- `Interpreter.handleDeferredLHS` (evaluator_utils.go 9-17). -/
def Interpreter.handleDeferredLHS (i : Interpreter) (op : String) (left : DeferredResolver)
    (right : Operand) : DeferredResolver :=
  fun scope =>
    match left scope with
    | .error err => .error err
    | .ok lhs => i.ApplyOperator op lhs right scope false

/-- `Interpreter.handleDeferredRHS` (evaluator_utils.go 19-27). -/
def Interpreter.handleDeferredRHS (i : Interpreter) (op : String) (left : Operand)
    (right : DeferredResolver) : DeferredResolver :=
  fun scope =>
    match right scope with
    | .error err => .error err
    | .ok rhs => i.ApplyOperator op left rhs scope false

mutual
/-- `Interpreter.addToFloat` (evaluator_utils.go 58-89). -/
def Interpreter.addToFloat (i : Interpreter) (op : String) (lhs : float64) :
    Operand → Scope → Bool → Except String Operand
  | .int64 right, _, _ =>
    if "-" = op then .ok (.float64 (i.runtime.fsub lhs (i.runtime.toFloat64 right)))
    else .ok (.float64 (i.runtime.fadd lhs (i.runtime.toFloat64 right)))
  | .float64 rhs, _, _ =>
    if "-" = op then .ok (.float64 (i.runtime.fsub lhs rhs))
    else .ok (.float64 (i.runtime.fadd lhs rhs))
  | .string right, _, _ =>
    if "-" = op then .error (incompatible i.runtime op)
    else .ok (.string (i.runtime.FormatFloat lhs ++ right))
  | .DeferredResolver right, scope, deferred =>
    match (if !deferred then Interpreter.addToFloatEager i op lhs (right scope) scope
      else none) with
    | some err => .error err
    | none => .ok (.DeferredResolver (i.handleDeferredRHS op (.float64 lhs) right))
  | _, _, _ => .error (incompatible i.runtime op)
/-- The statement `if rhs, err := right.(DeferredResolver)(scope); err == nil {
i.addToFloat(op, lhs, rhs, scope, false) } else { return nil, err }` on the pair that the
resolver returned: the error that the statement returns, if it returns.  The result of the
inner call is dropped. -/
def Interpreter.addToFloatEager (i : Interpreter) (op : String) (lhs : float64) :
    Except String Operand → Scope → Option String
  | .ok rhs, scope =>
    let _ := Interpreter.addToFloat i op lhs rhs scope false
    none
  | .error err, _ => some err
end

mutual
/-- `Interpreter.addToInt` (evaluator_utils.go 29-56). -/
def Interpreter.addToInt (i : Interpreter) (op : String) (lhs : Int) :
    Operand → Scope → Bool → Except String Operand
  | .int64 rhs, _, _ =>
    if "-" = op then .ok (.int64 (int64.wrap (lhs - rhs)))
    else .ok (.int64 (int64.wrap (lhs + rhs)))
  | .float64 right, scope, deferred =>
    i.addToFloat op (i.runtime.toFloat64 lhs) (.float64 right) scope deferred
  | .string right, _, _ =>
    if "-" = op then .error (incompatible i.runtime op)
    else .ok (.string (strconv.FormatInt lhs ++ right))
  | .DeferredResolver right, scope, deferred =>
    match (if !deferred then Interpreter.addToIntEager i op lhs (right scope) scope
      else none) with
    | some err => .error err
    | none => .ok (.DeferredResolver (i.handleDeferredRHS op (.int64 lhs) right))
  | _, _, _ => .error (incompatible i.runtime op)
/-- The statement `if rhs, err := right.(DeferredResolver)(scope); err == nil {
i.addToInt(op, lhs, rhs, scope, false) } else { return nil, err }` on the pair that the
resolver returned: the error that the statement returns, if it returns.  The result of the
inner call is dropped. -/
def Interpreter.addToIntEager (i : Interpreter) (op : String) (lhs : Int) :
    Except String Operand → Scope → Option String
  | .ok rhs, scope =>
    let _ := Interpreter.addToInt i op lhs rhs scope false
    none
  | .error err, _ => some err
end

mutual
/-- `Interpreter.addToString` (evaluator_utils.go 91-116). -/
def Interpreter.addToString (i : Interpreter) (op : String) (lhs : String) :
    Operand → Scope → Bool → Except String Operand
  | right, scope, deferred =>
    if "-" = op then .error (incompatible i.runtime op)
    else
      match right with
      | .string right => .ok (.string (lhs ++ right))
      | .int64 right => .ok (.string (lhs ++ strconv.FormatInt right))
      | .float64 right => .ok (.string (lhs ++ i.runtime.FormatFloat right))
      | .bool right => .ok (.string (lhs ++ strconv.FormatBool right))
      | .DeferredResolver right =>
        match (if !deferred then Interpreter.addToStringEager i op lhs (right scope) scope
          else none) with
        | some err => .error err
        | none => .ok (.DeferredResolver (i.handleDeferredRHS op (.string lhs) right))
      | _ => .error (incompatible i.runtime op)
/-- The statement `if rhs, err := right.(DeferredResolver)(scope); err == nil {
i.addToString(op, lhs, rhs, scope, false) } else { return nil, err }` on the pair that the
resolver returned: the error that the statement returns, if it returns.  The result of the
inner call is dropped. -/
def Interpreter.addToStringEager (i : Interpreter) (op : String) (lhs : String) :
    Except String Operand → Scope → Option String
  | .ok rhs, scope =>
    let _ := Interpreter.addToString i op lhs rhs scope false
    none
  | .error err, _ => some err
end

mutual
/-- `Interpreter.addToBool` (evaluator_utils.go 118-137). -/
def Interpreter.addToBool (i : Interpreter) (op : String) (lhs : Bool) :
    Operand → Scope → Bool → Except String Operand
  | right, scope, deferred =>
    if "-" = op then .error (incompatible i.runtime op)
    else
      match right with
      | .string right => .ok (.string (strconv.FormatBool lhs ++ right))
      | .DeferredResolver right =>
        match (if !deferred then Interpreter.addToBoolEager i op lhs (right scope) scope
          else none) with
        | some err => .error err
        | none => .ok (.DeferredResolver (i.handleDeferredRHS op (.bool lhs) right))
      | _ => .error (incompatible i.runtime op)
/-- The statement `if rhs, err := right.(DeferredResolver)(scope); err == nil {
i.addToBool(op, lhs, rhs, scope, false) } else { return nil, err }` on the pair that the
resolver returned: the error that the statement returns, if it returns.  The result of the
inner call is dropped. -/
def Interpreter.addToBoolEager (i : Interpreter) (op : String) (lhs : Bool) :
    Except String Operand → Scope → Option String
  | .ok rhs, scope =>
    let _ := Interpreter.addToBool i op lhs rhs scope false
    none
  | .error err, _ => some err
end

/-- The case `string` of `Interpreter.multByInt` (evaluator_utils.go 149-161), with the
string operand `rhs`.  The slice of `lhs` copies of `rhs` that the loop fills is
`List.replicate`; its allocation is taken to succeed. -/
def Interpreter.multByIntString (i : Interpreter) (op : String) (lhs : Int) (rhs : String) :
    Except String Operand :=
  if "/" = op then .error (incompatible i.runtime op)
  else if lhs < 0 then .error "Cannot multiply string by negative number"
  else .ok (.string (strings.Join (List.replicate lhs.toNat rhs) ""))

mutual
/-- `Interpreter.multByFloat` (evaluator_utils.go 176-204).  Its case `string` calls
`i.multByInt(op, int64(lhs), right, scope, deferred)` with a string `right`, which runs the
case `string` of `multByInt` (`multByFloat_string`). -/
def Interpreter.multByFloat (i : Interpreter) (op : String) (lhs : float64) :
    Operand → Scope → Bool → Except String Operand
  | .int64 right, _, _ =>
    if "/" = op then .ok (.float64 (i.runtime.fdiv lhs (i.runtime.toFloat64 right)))
    else .ok (.float64 (i.runtime.fmul lhs (i.runtime.toFloat64 right)))
  | .float64 rhs, _, _ =>
    if "/" = op then .ok (.float64 (i.runtime.fdiv lhs rhs))
    else .ok (.float64 (i.runtime.fmul lhs rhs))
  | .string right, _, _ => i.multByIntString op (i.runtime.toInt64 lhs) right
  | .DeferredResolver right, scope, deferred =>
    match (if !deferred then Interpreter.multByFloatEager i op lhs (right scope) scope
      else none) with
    | some err => .error err
    | none => .ok (.DeferredResolver (i.handleDeferredRHS op (.float64 lhs) right))
  | _, _, _ => .error (incompatible i.runtime op)
/-- The statement `if rhs, err := right.(DeferredResolver)(scope); err == nil {
i.multByFloat(op, lhs, rhs, scope, false) } else { return nil, err }` on the pair that the
resolver returned: the error that the statement returns, if it returns.  The result of the
inner call is dropped. -/
def Interpreter.multByFloatEager (i : Interpreter) (op : String) (lhs : float64) :
    Except String Operand → Scope → Option String
  | .ok rhs, scope =>
    let _ := Interpreter.multByFloat i op lhs rhs scope false
    none
  | .error err, _ => some err
end

mutual
/-- `Interpreter.multByInt` (evaluator_utils.go 139-174). -/
def Interpreter.multByInt (i : Interpreter) (op : String) (lhs : Int) :
    Operand → Scope → Bool → Except String Operand
  | .int64 rhs, _, _ =>
    if "/" = op then
      .ok (.float64 (i.runtime.fdiv (i.runtime.toFloat64 lhs) (i.runtime.toFloat64 rhs)))
    else .ok (.int64 (int64.wrap (lhs * rhs)))
  | .float64 right, scope, deferred =>
    i.multByFloat op (i.runtime.toFloat64 lhs) (.float64 right) scope deferred
  | .string rhs, _, _ => i.multByIntString op lhs rhs
  | .DeferredResolver right, scope, deferred =>
    match (if !deferred then Interpreter.multByIntEager i op lhs (right scope) scope
      else none) with
    | some err => .error err
    | none => .ok (.DeferredResolver (i.handleDeferredRHS op (.int64 lhs) right))
  | _, _, _ => .error (incompatible i.runtime op)
/-- The statement `if rhs, err := right.(DeferredResolver)(scope); err == nil {
i.multByInt(op, lhs, rhs, scope, false) } else { return nil, err }` on the pair that the
resolver returned: the error that the statement returns, if it returns.  The result of the
inner call is dropped. -/
def Interpreter.multByIntEager (i : Interpreter) (op : String) (lhs : Int) :
    Except String Operand → Scope → Option String
  | .ok rhs, scope =>
    let _ := Interpreter.multByInt i op lhs rhs scope false
    none
  | .error err, _ => some err
end

mutual
/-- `Interpreter.multByString` (evaluator_utils.go 206-226). -/
def Interpreter.multByString (i : Interpreter) (op : String) (lhs : String) :
    Operand → Scope → Bool → Except String Operand
  | .int64 rhs, scope, deferred => i.multByInt op rhs (.string lhs) scope deferred
  | .float64 right, scope, deferred =>
    i.multByInt op (i.runtime.toInt64 right) (.string lhs) scope deferred
  | .DeferredResolver right, scope, deferred =>
    match (if !deferred then Interpreter.multByStringEager i op lhs (right scope) scope
      else none) with
    | some err => .error err
    | none => .ok (.DeferredResolver (i.handleDeferredRHS op (.string lhs) right))
  | _, _, _ => .error (incompatible i.runtime op)
/-- The statement `if rhs, err := right.(DeferredResolver)(scope); err == nil {
i.multByString(op, lhs, rhs, scope, false) } else { return nil, err }` on the pair that the
resolver returned: the error that the statement returns, if it returns.  The result of the
inner call is dropped. -/
def Interpreter.multByStringEager (i : Interpreter) (op : String) (lhs : String) :
    Except String Operand → Scope → Option String
  | .ok rhs, scope =>
    let _ := Interpreter.multByString i op lhs rhs scope false
    none
  | .error err, _ => some err
end

/-- An arithmetic operation of the sample runtime: exact on finite values, NaN otherwise. -/
def float64.exact (f : Rat → Rat → Rat) : float64 → float64 → float64
  | .finite a, .finite b => .finite (f a b)
  | _, _ => .NaN

/-- A sample runtime, for the samples only: exact arithmetic on the finite values. -/
def sampleRuntime : Runtime :=
  { fadd := float64.exact (fun a b => a + b)
    fsub := float64.exact (fun a b => a - b)
    fmul := float64.exact (fun a b => a * b)
    fdiv := float64.exact (fun a b => a / b)
    roundInt := fun n => .finite n
    int64OutOfRange := fun _ => -(2 : Int) ^ 63
    FormatFloat := fun _ => "?"
    quoteRune := fun c => c.toString }

/-- A sample interpreter. -/
def sampleInterpreter : Interpreter :=
  { runtime := sampleRuntime
    ApplyOperator := fun _ _ _ _ _ => .error "ApplyOperator" }

/-- A sample scope: no parent, no symbols. -/
def emptyScope : Scope := .mk none (fun _ => none)

/-! ## Scopes: extension -/

/-- `ExtendScope` (scope.go 35-37): a scope over the given parent (`none` for nil) with a
fresh, empty symbol table. -/
def ExtendScope (parentScope : Option Scope) : Scope :=
  .mk parentScope (fun _ => none)

/-- `Scope.Extend` (scope.go 27-29). -/
def Scope.Extend (s : Scope) : Scope :=
  ExtendScope (some s)

/-- `NewRootScope` (scope.go 31-33). -/
def NewRootScope : Scope :=
  ExtendScope none

/-- The symbol tables of a scope chain, from the receiver along the parent links. -/
def Scope.chain : Scope → List SymbolTable
  | .mk none symbols => [symbols]
  | .mk (some p) symbols => symbols :: Scope.chain p

/-- A sample chain: a root that binds `a` and `b`, and a child of it that binds `a`. -/
def sampleChain : Scope :=
  .mk (some (.mk none (fun k => if k = "a" then some (Value.int 1)
    else if k = "b" then some (Value.int 2) else none)))
    (fun k => if k = "a" then some (Value.int 3) else none)

/-! ## Distributions -/

/-- The methods of the distributions that generator.go calls (`isCompatibleDomain`,
`supportsMultipleDomains`, `Type`, which is `typeName` here); their file is not in src, and
they are parameters. -/
structure Distributions where
  isCompatibleDomain : Distribution → String → Bool
  supportsMultipleDomains : Distribution → Bool
  typeName : Distribution → String

/-- `Generator.newDistribution` (generator.go 225-238).  `make([]int64, len(weights))` is a
list of zeros. -/
def Generator.newDistribution (_g : Generator) (distType : String) (weights : List Rat) :
    Distribution :=
  match distType with
  | "normal" => .NormalDistribution
  | "uniform" => .UniformDistribution
  | "weighted" => .WeightedDistribution weights
  | "percent" => .PercentageDistribution weights (List.replicate weights.length 0)
  | _ => .UniformDistribution

/-- Modelled from the spec: `Field.Type` (fields.go is not in src), the tag of the type of the
field. -/
def Field.Type (f : Field) : String :=
  f.fieldType.Type

/-- The message `fmt.Errorf("Invalid distribution Domain: %v is not a valid domain for %v
distributions", domain, distributionType.Type())`. -/
def invalidDomain (domain distributionType : String) : String :=
  "Invalid distribution Domain: " ++ domain ++ " is not a valid domain for "
    ++ distributionType ++ " distributions"

/-- `Generator.WithStaticDistribution` (generator.go 181-199): the generator after the call
and the error that the call returns (`none` for nil). -/
def Generator.WithStaticDistribution (ds : Distributions) (g : Generator)
    (fieldName distribution : String) (fieldValues : List Value) (weights : List Rat) :
    Generator × Option String :=
  let distributionType := g.newDistribution distribution weights
  if !ds.isCompatibleDomain distributionType "literal" then
    (g, some (invalidDomain "static" (ds.typeName distributionType)))
  else if !ds.supportsMultipleDomains distributionType && fieldValues.length > 1 then
    (g, some "Distribution does not support multiple domains")
  else
    (g.setField fieldName (NewField (.DistributionType
      (fieldValues.map (fun fieldValue => g.newStaticField fieldName fieldValue))
      distributionType) none false), none)

/-- The loop of `WithDistribution` (generator.go 210-219) from the index `i` on, with the bins
filled so far: the bins, the error that the loop returns, or `none` when `newFieldType`
panics.  `cells i` is the address of the counter that the call for the index `i` would
allocate. -/
def distributionBins (fmt : Fmt) (cells : Nat → Nat) (ds : Distributions) (g : Generator)
    (fieldName fieldType : String) (distributionType : Distribution) :
    List FieldArgs → Nat → List Field → Option (Except String (List Field))
  | [], _, bins => some (.ok bins)
  | fieldArg :: rest, i, bins =>
    match g.newFieldType fmt (cells i) fieldName fieldType fieldArg none false with
    | none => none
    | some (.error err) => some (.error err)
    | some (.ok field) =>
      if i = 0 ∧ ds.isCompatibleDomain distributionType field.Type = false then
        some (.error (invalidDomain field.Type (ds.typeName distributionType)))
      else
        distributionBins fmt cells ds g fieldName fieldType distributionType rest (i + 1)
          (bins ++ [field])

/-- `Generator.WithDistribution` (generator.go 201-223): the generator after the call and the
error that the call returns (`none` for nil); `none` when the call panics. -/
def Generator.WithDistribution (fmt : Fmt) (cells : Nat → Nat) (ds : Distributions)
    (g : Generator) (fieldName distribution fieldType : String) (fieldArgs : List FieldArgs)
    (weights : List Rat) : Option (Generator × Option String) :=
  let distributionType := g.newDistribution distribution weights
  if !ds.supportsMultipleDomains distributionType && fieldArgs.length > 1 then
    some (g, some "Distribution does not support multiple domains")
  else
    match distributionBins fmt cells ds g fieldName fieldType distributionType fieldArgs 0
        [] with
    | none => none
    | some (.error err) => some (g, some err)
    | some (.ok bins) =>
      some (g.setField fieldName (NewField (.DistributionType bins distributionType) none
        false), none)

/-- The generators that the constructors and the field definitions of generator.go produce:
`NewGenerator`, `ExtendGenerator` of such a generator, and every `With...` call on such a
generator that returns, with or without an error. -/
inductive Reachable : Generator → Prop where
  | new (name : String) (pkey : Option PrimaryKey) (disableMetadata : Bool) :
    Reachable (NewGenerator name pkey disableMetadata)
  | extend (name : String) (parent : Generator) (pkey : Option PrimaryKey)
    (disableMetadata : Bool) (h : Reachable parent) :
    Reachable (ExtendGenerator name parent pkey disableMetadata)
  | withField (fmt : Fmt) (cell : Nat) (g : Generator) (fieldName fieldType : String)
    (fieldArgs : FieldArgs) (countRange : Option CountRange) (uniqueValue : Bool)
    (g' : Generator) (err : Option String) (h : Reachable g)
    (hr : g.WithField fmt cell fieldName fieldType fieldArgs countRange uniqueValue =
      some (g', err)) : Reachable g'
  | withLiteralField (g : Generator) (fieldName : String) (fieldValue : Value)
    (h : Reachable g) : Reachable (g.WithLiteralField fieldName fieldValue)
  | withDeferredField (g : Generator) (fieldName : String)
    (fieldValue : Scope → Option Value) (h : Reachable g) :
    Reachable (g.WithDeferredField fieldName fieldValue)
  | withEntityField (g : Generator) (fieldName : String) (entityGenerator : Generator)
    (fieldArgs : Value) (countRange : Option CountRange) (h : Reachable g)
    (hc : Reachable entityGenerator) :
    Reachable (g.WithEntityField fieldName entityGenerator fieldArgs countRange)
  | withStaticDistribution (ds : Distributions) (g : Generator)
    (fieldName distribution : String) (fieldValues : List Value) (weights : List Rat)
    (h : Reachable g) :
    Reachable (g.WithStaticDistribution ds fieldName distribution fieldValues weights).1
  | withDistribution (fmt : Fmt) (cells : Nat → Nat) (ds : Distributions) (g : Generator)
    (fieldName distribution fieldType : String) (fieldArgs : List FieldArgs)
    (weights : List Rat) (g' : Generator) (err : Option String) (h : Reachable g)
    (hr : g.WithDistribution fmt cells ds fieldName distribution fieldType fieldArgs weights =
      some (g', err)) : Reachable g'

/-- The invariant of the unique flag for one field: a field that is marked unique has a type
of the uniquable set, and no bin of a distribution is marked unique. -/
def Field.uniqueOk (f : Field) : Prop :=
  (f.UniqueValue = true → f.Uniquable = true) ∧
  ∀ bins dist, f.fieldType = .DistributionType bins dist → ∀ b ∈ bins, b.UniqueValue = false

/-- A sample of the methods of the distributions. -/
def sampleDistributions : Distributions :=
  { isCompatibleDomain := fun _ _ => true
    supportsMultipleDomains := fun _ => true
    typeName := fun _ => "uniform" }

/-- A sample of a reachable generator: a new generator with a unique string field. -/
def uniqueSample : Generator :=
  (((NewGenerator "user" none false).WithField sampleFmt 0 "login" "string" (.int64 8) none
      true).getD (NewGenerator "user" none false, none)).1

/-- The resolver of the expression `a`, with a default: the value that the scope resolves `a`
to, and the string "unset" when that is nil. -/
def keyOfA (scope : Scope) : Option Value :=
  match scope.ResolveSymbol "a" with
  | Value.nil => some (Value.str "unset")
  | v => some v

/-- A generator whose primary-key field `$id` is redefined as the deferred field `keyOfA`,
with the literal `a: 1` and the sub-entity field `pet: Pet`. -/
def deferredKeyed : Generator :=
  (((NewGenerator "x" none false).WithLiteralField "a" (Value.int 1)).WithEntityField "pet" pet
    Value.nil none).WithDeferredField "$id" keyOfA

/-! ## The dictionary -/

/-- The package-level variables of dictionary.go (lines 15-20). -/
structure Dictionary where
  samplesCache : String → String → Option (List String)
  lang : String
  useExternalData : Bool
  enFallback : Bool
  availLangs : List String
  customDataLocation : String

/-- What dictionary.go takes from outside the file.
* `Pow`: the library function `math.Pow`.
* `Open`: `FS(useExternalData).Open(fullpath)` followed by the scan of the file, as the
  lines that a `bufio.Scanner` yields; `none` when the file cannot be opened.
* `ErrNoSamplesFn`, `ErrNoLanguageFn`: the messages of the errors of these names. -/
structure Assets where
  runtime : Runtime
  Pow : float64 → float64 → float64
  Open : Bool → String → Option (List String)
  ErrNoSamplesFn : String → String
  ErrNoLanguageFn : String → String

/-- The library call `strings.Count(s, substr)` for a `substr` of the one character `c`. -/
def strings.Count (s : String) (c : Char) : Nat :=
  s.data.count c

/-- The library call `strings.Contains(s, substr)` for a `substr` of the one character `c`. -/
def strings.Contains (s : String) (c : Char) : Bool :=
  s.data.contains c

/-- The pieces of a list of characters between the occurrences of `sep`, with the piece that
is being read. -/
def strings.splitChars (sep : Char) : List Char → List Char → List String
  | [], piece => [String.mk piece.reverse]
  | c :: rest, piece =>
    if c = sep then String.mk piece.reverse :: strings.splitChars sep rest []
    else strings.splitChars sep rest (c :: piece)

/-- The library call `strings.Split(s, sep)` for a `sep` of the one character `sep`. -/
def strings.Split (s : String) (sep : Char) : List String :=
  strings.splitChars sep s.data []

/-- `fullPath` (dictionary.go 205-215). -/
def fullPath (d : Dictionary) (lang cat : String) : String :=
  if d.useExternalData then
    if d.customDataLocation = "" then cat
    else d.customDataLocation ++ "/" ++ cat
  else "/data/" ++ lang ++ "/" ++ cat

/-- `numberOfNumericPossibilities` (dictionary.go 173-176):
`int64(math.Pow(9.0, float64(slots)))`. -/
def numberOfNumericPossibilities (env : Assets) (format : String) : Int :=
  env.runtime.toInt64 (env.Pow (.finite 9) (env.runtime.toFloat64 (strings.Count format '#')))

/-- `numberOfNewLinesForDictionary` (dictionary.go 128-142): the count and the error (`none`
for nil). -/
def numberOfNewLinesForDictionary (env : Assets) (d : Dictionary) (lang cat : String) :
    Int × Option String :=
  match env.Open d.useExternalData (fullPath d lang cat) with
  | none => (0, some (env.ErrNoSamplesFn lang))
  | some lines => (int64.wrap lines.length, none)

/-- The inner loop of `numberOfNewLinesForFormat` (dictionary.go 153-167) over the parts of
one line, from the running `result`: `Except.error r` when the loop returns `r` from the
function, the new `result` otherwise.  `NumberOfPossibleValuesForDictionary` is the function
of that name, with which `numberOfNewLinesForFormat` is mutually recursive; it is `none` when
it does not return. -/
def formatParts (env : Assets)
    (NumberOfPossibleValuesForDictionary : String → Dictionary → Option (Int × Dictionary)) :
    List String → Int → Dictionary → Option (Except Int Int × Dictionary)
  | [], result, d => some (.ok result, d)
  | ref :: rest, result, d =>
    match (if strings.Contains ref '#' then some (numberOfNumericPossibilities env ref, d)
      else if ref ≠ " " then NumberOfPossibleValuesForDictionary ref d
      else some (0, d)) with
    | none => none
    | some (subPossibilities, d) =>
      if (if subPossibilities ≠ 0 then int64.wrap (result * subPossibilities) else result)
          ≤ 0 then
        some (.error (-1), d)
      else
        formatParts env NumberOfPossibleValuesForDictionary rest
          (if subPossibilities ≠ 0 then int64.wrap (result * subPossibilities) else result) d

/-- The outer loop of `numberOfNewLinesForFormat` (dictionary.go 152-169) over the lines. -/
def formatLines (env : Assets)
    (NumberOfPossibleValuesForDictionary : String → Dictionary → Option (Int × Dictionary)) :
    List String → Int → Dictionary → Option (Int × Dictionary)
  | [], result, d => some (result, d)
  | text :: rest, result, d =>
    match formatParts env NumberOfPossibleValuesForDictionary (strings.Split text '|') result
        d with
    | none => none
    | some (.error r, d) => some (r, d)
    | some (.ok result, d) => formatLines env NumberOfPossibleValuesForDictionary rest result d

/-- `numberOfNewLinesForFormat` (dictionary.go 144-171): the count, the error (`none` for
nil) and the variables after the call; `none` when a call of
`NumberOfPossibleValuesForDictionary` does not return. -/
def numberOfNewLinesForFormat (env : Assets)
    (NumberOfPossibleValuesForDictionary : String → Dictionary → Option (Int × Dictionary))
    (d : Dictionary) (lang cat : String) : Option ((Int × Option String) × Dictionary) :=
  match env.Open d.useExternalData (fullPath d lang cat ++ "_format") with
  | none => some ((0, some (env.ErrNoSamplesFn lang)), d)
  | some lines =>
    match formatLines env NumberOfPossibleValuesForDictionary lines 1 d with
    | none => none
    | some (result, d) => some ((result, none), d)

/-- `NumberOfPossibleValuesForDictionary` (dictionary.go 110-126): the count and the variables
after the call.  The recursion through `numberOfNewLinesForFormat` follows the references of
the format files and need not end; the first argument bounds its depth, and the result is
`none` when the bound is reached. -/
def NumberOfPossibleValuesForDictionary (env : Assets) :
    Nat → String → Dictionary → Option (Int × Dictionary)
  | 0, _, _ => none
  | depth + 1, cat, d =>
    let d := { d with useExternalData := true }
    let r := numberOfNewLinesForDictionary env d d.lang cat
    let d := { d with useExternalData := false }
    if r.2.isSome then
      let r := numberOfNewLinesForDictionary env d d.lang cat
      if r.2.isSome then
        let d := { d with useExternalData := true }
        match numberOfNewLinesForFormat env (NumberOfPossibleValuesForDictionary env depth) d
            d.lang cat with
        | none => none
        | some (r, d) =>
          let d := { d with useExternalData := false }
          if r.2.isSome then
            match numberOfNewLinesForFormat env (NumberOfPossibleValuesForDictionary env depth)
                d d.lang cat with
            | none => none
            | some (r, d) => some (r.1, d)
          else some (r.1, d)
      else some (r.1, d)
    else some (r.1, d)

/-- The loop of `SetLang` (dictionary.go 240-246): whether the language is found. -/
def SetLang.found (newLang : String) : List String → Bool
  | [] => false
  | l :: rest => if newLang = l then true else SetLang.found newLang rest

/-- `SetLang` (dictionary.go 239-252): the error (`none` for nil) and the variables after the
call. -/
def SetLang (env : Assets) (d : Dictionary) (newLang : String) : Option String × Dictionary :=
  if !SetLang.found newLang d.availLangs then (some (env.ErrNoLanguageFn newLang), d)
  else (none, { d with lang := newLang })

/-- A sample of `math.Pow`: exact for a natural exponent, NaN otherwise. -/
def samplePow : float64 → float64 → float64
  | .finite a, .finite b => if b.den = 1 ∧ 0 ≤ b.num then .finite (a ^ b.num.toNat) else .NaN
  | _, _ => .NaN

/-- A sample of the assets: the built-in format file `/data/en/code_format` holds the one line
`###########|###########`, two runs of eleven digits. -/
def sampleAssets : Assets :=
  { runtime := sampleRuntime
    Pow := samplePow
    Open := fun external path =>
      if external = false ∧ path = "/data/en/code_format" then
        some ["###########|###########"]
      else none
    ErrNoSamplesFn := fun lang => "no samples for " ++ lang
    ErrNoLanguageFn := fun lang => "no language " ++ lang }

/-- The variables of dictionary.go as they are initialised, with two languages. -/
def sampleDictionary : Dictionary :=
  { samplesCache := fun _ _ => none
    lang := "en"
    useExternalData := false
    enFallback := true
    availLangs := ["en", "ru"]
    customDataLocation := "" }

/-! ## The interpreter of interpreter.go -/

mutual
/-- The struct `dsl.Node` (package dsl, not in src), with the members that interpreter.go
reads.  A nil `Related` is `none`. -/
inductive Node where
  | mk (Kind : String) (Name : String) (Value : NodeValue) (Args : List Node)
      (Children : List Node) (Related : Option Node)
/-- The dynamic values (`interface{}`) that the member `Value` of a node holds, by dynamic
type; a value of a type that interpreter.go does not name is given by the name of its type. -/
inductive NodeValue where
  | node (n : Node)
  | string (s : String)
  | int64 (i : Int)
  | float64 (x : float64)
  | time (t : Int)
  | other (typeName : String)
end

/-- The member `Kind` of a node. -/
def Node.Kind : Node → String
  | .mk k _ _ _ _ _ => k

/-- The member `Name` of a node. -/
def Node.Name : Node → String
  | .mk _ n _ _ _ _ => n

/-- The member `Value` of a node. -/
def Node.Value : Node → NodeValue
  | .mk _ _ v _ _ _ => v

/-- The member `Args` of a node. -/
def Node.Args : Node → List Node
  | .mk _ _ _ a _ _ => a

/-- The member `Children` of a node. -/
def Node.Children : Node → List Node
  | .mk _ _ _ _ c _ => c

/-- The member `Related` of a node. -/
def Node.Related : Node → Option Node
  | .mk _ _ _ _ _ r => r

/-- The argument values that interpreter.go passes to `WithField`: an `int`, a `[2]int`, a
`[2]float64`, a `[2]time.Time` and a `string`. -/
inductive Arg where
  | int (n : Int)
  | intPair (a b : Int)
  | float64Pair (a b : float64)
  | timePair (a b : Int)
  | string (s : String)

/-- What interpreter.go takes from outside the file, in the revision that it is written
against: the packages dsl and generator and the type `GenerationOutput` are not in src.
* `G`, `R`, `Out`: a generator (`*generator.Generator`), the result of `Generate`, and a
  `GenerationOutput`.
* `Err`, `WrapErr`: the methods of these names of a node, on the formatted message.
* `sprintV`, `sprintT`, `sprintNode`: the renderings by `%v` and `%T` of a node value and by
  `%v` of a node.
* the functions and methods of the package generator that interpreter.go calls; a method
  that changes the generator behind the pointer returns the changed generator. -/
structure Packages where
  G : Type
  R : Type
  Out : Type
  runtime : Runtime
  Err : Node → String → String
  WrapErr : Node → String → String
  sprintV : NodeValue → String
  sprintT : NodeValue → String
  sprintNode : Node → String
  NewGenerator : String → G
  ExtendGenerator : String → G → G
  setBase : G → String → G
  Name : G → String
  WithField : G → String → String → Arg → G × Option String
  WithStaticField : G → String → NodeValue → G × Option String
  Generate : G → Int → R
  addAndAppend : Out → String → R → Out

/-- The struct `Interpreter` of interpreter.go (lines 36-39), with the package variable
`AnonExtendNames` (line 15), a `map[string]int`. -/
structure InterpreterState (api : Packages) where
  entities : String → Option api.G
  output : api.Out
  AnonExtendNames : String → Option Int

/-- `NamespaceCounter.Next` (interpreter.go 17-26): the number and the counter after the
call. -/
def NamespaceCounter.Next (c : String → Option Int) (key : String) :
    Int × (String → Option Int) :=
  match c key with
  | some ctr => (ctr + 1, fun k => if k = key then some (ctr + 1) else c k)
  | none => (1, fun k => if k = key then some 1 else c k)

/-- `NamespaceCounter.NextAsStr` (interpreter.go 28-30); `strconv.Itoa` is the decimal
rendering. -/
def NamespaceCounter.NextAsStr (c : String → Option Int) (key : String) :
    String × (String → Option Int) :=
  (strconv.FormatInt (NamespaceCounter.Next c key).1, (NamespaceCounter.Next c key).2)

/-- `Interpreter.defaultArgumentFor` (interpreter.go 76-91).  The instants of `1945-01-01` and
`2017-01-01` are in seconds since the epoch. -/
def Interpreter.defaultArgumentFor (fieldType : String) : Except String Arg :=
  match fieldType with
  | "string" => .ok (.int 5)
  | "integer" => .ok (.intPair 1 10)
  | "decimal" => .ok (.float64Pair (.finite 1) (.finite 10))
  | "date" => .ok (.timePair (-788918400) 1483228800)
  | _ => .error ("Field of type \x60" ++ fieldType ++ "\x60 requires arguments")

/-- `valStr` (interpreter.go 143-145): `none` when the type assertion panics. -/
def valStr (n : Node) : Option String :=
  match n.Value with
  | .string s => some s
  | _ => none

/-- `valInt` (interpreter.go 147-149): `none` when the type assertion panics. -/
def valInt (n : Node) : Option Int :=
  match n.Value with
  | .int64 i => some i
  | _ => none

/-- `valFloat` (interpreter.go 151-153): `none` when the type assertion panics. -/
def valFloat (n : Node) : Option float64 :=
  match n.Value with
  | .float64 x => some x
  | _ => none

/-- `valTime` (interpreter.go 155-157): `none` when the type assertion panics. -/
def valTime (n : Node) : Option Int :=
  match n.Value with
  | .time t => some t
  | _ => none

/-- `assertValStr` (interpreter.go 161-166): the error, `none` for nil. -/
def assertValStr (api : Packages) (n : Node) : Option String :=
  match n.Value with
  | .string _ => none
  | v => some (api.Err n ("Expected " ++ api.sprintV v ++ " to be a string, but was "
      ++ api.sprintT v ++ "."))

/-- `assertValInt` (interpreter.go 168-173): the error, `none` for nil. -/
def assertValInt (api : Packages) (n : Node) : Option String :=
  match n.Value with
  | .int64 _ => none
  | v => some (api.Err n ("Expected " ++ api.sprintV v ++ " to be an integer, but was "
      ++ api.sprintT v ++ "."))

/-- `assertValFloat` (interpreter.go 175-180): the error, `none` for nil. -/
def assertValFloat (api : Packages) (n : Node) : Option String :=
  match n.Value with
  | .float64 _ => none
  | v => some (api.Err n ("Expected " ++ api.sprintV v ++ " to be a decimal, but was "
      ++ api.sprintT v ++ "."))

/-- `assertValTime` (interpreter.go 182-187): the error, `none` for nil. -/
def assertValTime (api : Packages) (n : Node) : Option String :=
  match n.Value with
  | .time _ => none
  | v => some (api.Err n ("Expected " ++ api.sprintV v ++ " to be a datetime, but was "
      ++ api.sprintT v ++ "."))

/-- The loop `args.Each(...)` of `expectsArgs` (interpreter.go 196-200): the error of the
first node that the validator rejects. -/
def eachValidate (fn : Node → Option String) : List Node → Option String
  | [] => none
  | node :: rest =>
    match fn node with
    | some er => some er
    | none => eachValidate fn rest

/-- `expectsArgs` (interpreter.go 189-203): the error, `none` for nil; `none` outside when
`args[0]` panics on an empty list. -/
def expectsArgs (api : Packages) (num : Nat) (fn : Node → Option String) (fieldType : String)
    (args : List Node) : Option (Option String) :=
  if num ≠ args.length then
    match args with
    | [] => none
    | first :: _ => some (some (api.Err first ("Field type \x60" ++ fieldType
        ++ "\x60 expected " ++ toString num ++ " args, but " ++ toString args.length
        ++ " found.")))
  else some (eachValidate fn args)

/-- `Interpreter.withStaticField` (interpreter.go 205-208): the error (`none` for nil) and the
entity after the call; `none` when the type assertion `field.Value.(dsl.Node)` panics. -/
def Interpreter.withStaticField (api : Packages) (entity : api.G) (field : Node) :
    Option (Option String × api.G) :=
  match field.Value with
  | .node valueNode =>
    some ((api.WithStaticField entity field.Name valueNode.Value).2,
      (api.WithStaticField entity field.Name valueNode.Value).1)
  | _ => none

/-- The call `entity.WithField(field.Name, fieldType, arg)` with its error first; `none` when
an argument could not be read (a type assertion or an index panics). -/
def withFieldOf (api : Packages) (entity : api.G) (field : Node) (fieldType : String)
    (arg : Option Arg) : Option (Option String × api.G) :=
  match arg with
  | none => none
  | some arg =>
    some ((api.WithField entity field.Name fieldType arg).2,
      (api.WithField entity field.Name fieldType arg).1)

/-- `Interpreter.withDynamicField` (interpreter.go 210-250): the error (`none` for nil) and
the entity after the call; `none` when a type assertion panics. -/
def Interpreter.withDynamicField (api : Packages) (entity : api.G) (field : Node) :
    Option (Option String × api.G) :=
  match field.Value with
  | .node valueNode =>
    match valueNode.Value with
    | .string fieldType =>
      if field.Args.length = 0 then
        match Interpreter.defaultArgumentFor fieldType with
        | .error e => some (some (api.WrapErr field e), entity)
        | .ok arg => withFieldOf api entity field fieldType (some arg)
      else
        match fieldType with
        | "integer" =>
          match expectsArgs api 2 (assertValInt api) fieldType field.Args with
          | none => none
          | some (some err) => some (some err, entity)
          | some none =>
            withFieldOf api entity field fieldType
              (match field.Args.get? 0, field.Args.get? 1 with
                | some a0, some a1 =>
                  match valInt a0, valInt a1 with
                  | some v0, some v1 => some (.intPair v0 v1)
                  | _, _ => none
                | _, _ => none)
        | "decimal" =>
          match expectsArgs api 2 (assertValFloat api) fieldType field.Args with
          | none => none
          | some (some err) => some (some err, entity)
          | some none =>
            withFieldOf api entity field fieldType
              (match field.Args.get? 0, field.Args.get? 1 with
                | some a0, some a1 =>
                  match valFloat a0, valFloat a1 with
                  | some v0, some v1 => some (.float64Pair v0 v1)
                  | _, _ => none
                | _, _ => none)
        | "string" =>
          match expectsArgs api 1 (assertValInt api) fieldType field.Args with
          | none => none
          | some (some err) => some (some err, entity)
          | some none =>
            withFieldOf api entity field fieldType
              (match field.Args.get? 0 with
                | some a0 =>
                  match valInt a0 with
                  | some v0 => some (.int v0)
                  | none => none
                | none => none)
        | "dict" =>
          match expectsArgs api 1 (assertValStr api) fieldType field.Args with
          | none => none
          | some (some err) => some (some err, entity)
          | some none =>
            withFieldOf api entity field fieldType
              (match field.Args.get? 0 with
                | some a0 =>
                  match valStr a0 with
                  | some v0 => some (.string v0)
                  | none => none
                | none => none)
        | "date" =>
          match expectsArgs api 2 (assertValTime api) fieldType field.Args with
          | none => none
          | some (some err) => some (some err, entity)
          | some none =>
            withFieldOf api entity field fieldType
              (match field.Args.get? 0, field.Args.get? 1 with
                | some a0, some a1 =>
                  match valTime a0, valTime a1 with
                  | some v0, some v1 => some (.timePair v0 v1)
                  | _, _ => none
                | _, _ => none)
        | _ => some (none, entity)
    | v =>
      some (some (api.Err field ("Could not parse field-type for field \x60" ++ field.Name
        ++ "\x60. Expected one of the builtin generator types, but instead got: "
        ++ api.sprintV v)), entity)
  | _ => none

/-- `Interpreter.ResolveSymbol` (interpreter.go 252-258): the generator or the error; `none`
when `ValStr` panics. -/
def Interpreter.ResolveSymbol (api : Packages) (i : InterpreterState api)
    (identiferNode : Node) : Option (Except String api.G) :=
  match valStr identiferNode with
  | none => none
  | some name =>
    match i.entities name with
    | none => some (.error (api.Err identiferNode
        ("Cannot resolve symbol " ++ strconv.Quote api.runtime name)))
    | some g => some (.ok g)

/-- The loop of `EntityFromNode` over the children of the node (interpreter.go 118-137): the
entity with its fields, or the error that the function returns; `none` when a call panics. -/
def entityFields (api : Packages) : List Node → api.G → Option (Except String api.G)
  | [], entity => some (.ok entity)
  | field :: rest, entity =>
    if field.Kind ≠ "field" then
      some (.error (api.Err field ("Expected a \x60field\x60 declaration, but instead got \x60"
        ++ field.Kind ++ "\x60")))
    else
      match field.Value with
      | .node valueNode =>
        if valueNode.Kind = "builtin" then
          match Interpreter.withDynamicField api entity field with
          | none => none
          | some (some err, _) => some (.error (api.WrapErr field err))
          | some (none, entity) => entityFields api rest entity
        else if strings.HasPrefix valueNode.Kind "literal-" then
          match Interpreter.withStaticField api entity field with
          | none => none
          | some (some err, _) => some (.error (api.WrapErr field err))
          | some (none, entity) => entityFields api rest entity
        else
          some (.error (api.Err field ("Unexpected field type " ++ valueNode.Kind
            ++ "; field declarations must be either a built-in type or a literal value")))
      | _ => none

/-- The first part of `EntityFromNode` (interpreter.go 94-116): the formal name and the new
entity, or the error that the function returns, with the interpreter after it. -/
def newEntity (api : Packages) (i : InterpreterState api) (node : Node) :
    Option (Except String (String × api.G) × InterpreterState api) :=
  match node.Related with
  | some related =>
    match valStr related with
    | none => none
    | some symbol =>
      match Interpreter.ResolveSymbol api i related with
      | none => none
      | some (.ok parent) =>
        if node.Name = "" then
          some (.ok (strings.Join
              ["$" ++ (NamespaceCounter.NextAsStr i.AnonExtendNames symbol).1, symbol] "::",
            api.setBase (api.ExtendGenerator (strings.Join
              ["$" ++ (NamespaceCounter.NextAsStr i.AnonExtendNames symbol).1, symbol] "::")
              parent) symbol),
            { i with AnonExtendNames := (NamespaceCounter.NextAsStr i.AnonExtendNames symbol).2 })
        else
          some (.ok (node.Name, api.setBase (api.ExtendGenerator node.Name parent) symbol), i)
      | some (.error _) =>
        some (.error ("Cannot resolve parent entity " ++ strconv.Quote api.runtime symbol
          ++ " for entity " ++ strconv.Quote api.runtime "<anonymous>"), i)
  | none =>
    if node.Name = "" then
      some (.ok ("$" ++ (NamespaceCounter.NextAsStr i.AnonExtendNames "$").1,
        api.NewGenerator ("$" ++ (NamespaceCounter.NextAsStr i.AnonExtendNames "$").1)),
        { i with AnonExtendNames := (NamespaceCounter.NextAsStr i.AnonExtendNames "$").2 })
    else some (.ok (node.Name, api.NewGenerator node.Name), i)

/-- `Interpreter.EntityFromNode` (interpreter.go 93-141): the entity or the error, and the
interpreter after the call; `none` when a call panics. -/
def Interpreter.EntityFromNode (api : Packages) (i : InterpreterState api) (node : Node) :
    Option (Except String api.G × InterpreterState api) :=
  match newEntity api i node with
  | none => none
  | some (.error err, i) => some (.error err, i)
  | some (.ok (formalName, entity), i) =>
    match entityFields api node.Children entity with
    | none => none
    | some (.error err) => some (.error err, i)
    | some (.ok entity) =>
      some (.ok entity,
        { i with entities := fun k => if k = formalName then some entity else i.entities k })

/-- The switch of `GenerateFromNode` (interpreter.go 263-279): the generator of the entity of
the node, or the error that the function returns, and the interpreter after it; `none` when a
call panics. -/
def entityGeneratorOf (api : Packages) (i : InterpreterState api) (generationNode : Node) :
    Option (Except String api.G × InterpreterState api) :=
  match generationNode.Value with
  | .node entity =>
    if entity.Kind = "identifier" then
      match Interpreter.ResolveSymbol api i entity with
      | none => none
      | some r => some (r, i)
    else if entity.Kind = "entity" then Interpreter.EntityFromNode api i entity
    else
      some (.error (api.Err generationNode ("Unexpected node type "
        ++ strconv.Quote api.runtime entity.Kind ++ "; node is " ++ api.sprintNode entity)), i)
  | _ => none

/-- `Interpreter.GenerateFromNode` (interpreter.go 260-296): the error (`none` for nil) and
the interpreter after the call; `none` when a call panics. -/
def Interpreter.GenerateFromNode (api : Packages) (i : InterpreterState api)
    (generationNode : Node) : Option (Option String × InterpreterState api) :=
  match entityGeneratorOf api i generationNode with
  | none => none
  | some (.error e, i) => some (some e, i)
  | some (.ok entityGenerator, i) =>
    match generationNode.Args with
    | [] => some (some (api.Err generationNode "generate requires an argument"), i)
    | first :: _ =>
      match first.Value with
      | .int64 count =>
        if count < 1 then
          some (some (api.Err generationNode ("Must generate at least 1 \x60"
            ++ api.Name entityGenerator ++ "\x60 entity")), i)
        else
          some (none,
            { i with
              output := api.addAndAppend i.output (api.Name entityGenerator)
                (api.Generate entityGenerator count) })
      | _ =>
        some (some (api.Err generationNode ("generate "
          ++ strconv.Quote api.runtime (api.Name entityGenerator)
          ++ " takes an integer count")), i)

/-- A sample of the packages: a generator is its name with the fields installed on it (name
and type tag), `Generate` yields the count, the output is the list of the calls of
`addAndAppend`, and an error of a node is the message after `ERROR: `. -/
def samplePackages : Packages :=
  { G := String × List (String × String)
    R := Int
    Out := List (String × Int)
    runtime := sampleRuntime
    Err := fun _ msg => "ERROR: " ++ msg
    WrapErr := fun _ msg => "ERROR: " ++ msg
    sprintV := fun _ => "?"
    sprintT := fun _ => "?"
    sprintNode := fun _ => "?"
    NewGenerator := fun name => (name, [])
    ExtendGenerator := fun name parent => (name, parent.2)
    setBase := fun g _ => g
    Name := fun g => g.1
    WithField := fun g name fieldType _ => ((g.1, g.2 ++ [(name, fieldType)]), none)
    WithStaticField := fun g name _ => ((g.1, g.2 ++ [(name, "literal")]), none)
    Generate := fun _ count => count
    addAndAppend := fun out name r => out ++ [(name, r)] }

/-- The node `Builtin(tag)` of the tests: the value node of a field of a built-in type. -/
def Builtin (tag : String) : Node :=
  .mk "builtin" "" (.string tag) [] [] none

/-- The nodes `IntArgs(...)` of the tests. -/
def IntArgs (values : List Int) : List Node :=
  values.map (fun v => Node.mk "literal-int" "" (.int64 v) [] [] none)

/-- An interpreter with the entity `person`, an empty output and no anonymous names. -/
def sampleState : InterpreterState samplePackages :=
  { entities := fun k => if k = "person" then some ("person", []) else none
    output := []
    AnonExtendNames := fun _ => none }

/-- The node `GenerationNode(name, count)` of the tests: generate `count` entities of the
entity that the identifier names. -/
def GenerationNode (name : String) (count : Int) : Node :=
  .mk "generation" "" (.node (.mk "identifier" "" (.string name) [] [] none)) (IntArgs [count])
    [] none

/-- A way of counting in which every field has 3 possible values. -/
def threePossibilities (_field : Field) : Int := 3

/-- The child `kid` of the sample generator with the unique field `login`, freshly
extended. -/
def uniqueChild : Generator :=
  ExtendGenerator "kid" uniqueSample none false

/-- An interpreter whose `ApplyOperator` hands an `int64` on the left to `addToInt`, as the
sample of the dispatch of the operators "+" and "-". -/
def dispatchingInterpreter : Interpreter :=
  { runtime := sampleRuntime
    ApplyOperator := fun op left right scope deferred =>
      match left with
      | .int64 lhs => sampleInterpreter.addToInt op lhs right scope deferred
      | _ => .error "ApplyOperator" }

/-- A resolver that resolves to the string "x" on every scope. -/
def resolvesToX (_scope : Scope) : Except String Operand := .ok (.string "x")

/-- A resolver that fails on every scope. -/
def unbound (_scope : Scope) : Except String Operand := .error "unbound"

/-! ## Lookups in the dictionary -/

/-- What the lookups of dictionary.go take from outside the file, besides the assets.
* `ReadAll`: `FS(useExternalData).Open(fullpath)` followed by `ioutil.ReadAll(file)`: `none`
  when the file cannot be opened, else the contents of the file or the message of the error
  of the read.
* `Intn`: the call `r.Intn(n)` of the random source `r` of the package (not in src) for a
  positive `n`, from the state of the source: the number drawn and the next state. -/
structure Sources where
  assets : Assets
  ReadAll : Bool → String → Option (Except String String)
  Intn : Nat → Nat → Nat × Nat

/-- The library predicate `unicode.IsSpace`. -/
def unicode.IsSpace (c : Char) : Bool :=
  c.toNat ∈ [0x9, 0xA, 0xB, 0xC, 0xD, 0x20, 0x85, 0xA0, 0x1680, 0x2028, 0x2029, 0x202F, 0x205F,
    0x3000] || (0x2000 ≤ c.toNat && c.toNat ≤ 0x200A)

/-- The library call `strings.TrimSpace`: the string without its leading and trailing white
space. -/
def strings.TrimSpace (s : String) : String :=
  String.mk ((s.data.dropWhile unicode.IsSpace).reverse.dropWhile unicode.IsSpace).reverse

/-- The library call `strings.HasSuffix`. -/
def strings.HasSuffix (s suffix : String) : Bool :=
  suffix.data.isSuffixOf s.data

/-- The library call `strconv.Itoa`. -/
def strconv.Itoa (i : Int) : String :=
  strconv.FormatInt i

/-- `UseExternalData` (dictionary.go 221-223). -/
def UseExternalData (d : Dictionary) (flag : Bool) : Dictionary :=
  { d with useExternalData := flag }

/-- `readFile` (dictionary.go 194-203): the contents of the file, or the message of the
error. -/
def readFile (env : Sources) (d : Dictionary) (lang cat : String) : Except String String :=
  match env.ReadAll d.useExternalData (fullPath d lang cat) with
  | none => .error (env.assets.ErrNoSamplesFn lang)
  | some data => data

/-- `populateSamples` (dictionary.go 178-192): the samples or the message of the error, and
the variables after the call.  The cache `samplesCache` (type `samplesTree`, not in src) is
the function from language and category to the list it holds. -/
def populateSamples (env : Sources) (d : Dictionary) (lang cat : String) :
    Except String (List String) × Dictionary :=
  match readFile env d lang cat with
  | .error err => (.error err, d)
  | .ok data =>
    (.ok (strings.Split (strings.TrimSpace data) (Char.ofNat 10)),
      { d with
        samplesCache := fun l c =>
          if l = lang ∧ c = cat then
            some (strings.Split (strings.TrimSpace data) (Char.ofNat 10))
          else d.samplesCache l c })

/-- The last line of `_lookup` (dictionary.go 107), `samples[r.Intn(len(samples))]`: the
sample and the next state of the random source; `none` when `r.Intn` panics for the length 0
or the index is out of range. -/
def sampleAt (env : Sources) (samples : List String) (rng : Nat) : Option (String × Nat) :=
  if samples.length = 0 then none
  else
    match samples.get? (env.Intn rng samples.length).1 with
    | none => none
    | some s => some (s, (env.Intn rng samples.length).2)

/-- `_lookup` (dictionary.go 92-108), with a bound on the depth of its recursion: the string,
the variables and the state of the random source after the call; `none` when Go panics or
the bound is reached.  `samplesCache.hasKeyPath(lang, cat)` (not in src) is the test whether
the cache holds a list for the language and the category. -/
def _lookup.go (env : Sources) :
    Nat → String → String → Bool → Dictionary → Nat → Option (String × Dictionary × Nat)
  | 0, _, _, _, _, _ => none
  | fuel + 1, lang, cat, fallback, d, rng =>
    match d.samplesCache lang cat with
    | some samples =>
      match sampleAt env samples rng with
      | none => none
      | some (s, rng) => some (s, d, rng)
    | none =>
      match populateSamples env d lang cat with
      | (.error err, d) =>
        if lang ≠ "en" ∧ fallback = true ∧ d.enFallback = true ∧
            err = env.assets.ErrNoSamplesFn lang then
          _lookup.go env fuel "en" cat false d rng
        else some ("", d, rng)
      | (.ok samples, d) =>
        match sampleAt env samples rng with
        | none => none
        | some (s, rng) => some (s, d, rng)

/-- `_lookup` (dictionary.go 92-108).  The recursive call passes `fallback = false`, with
which the function does not call itself, so the depth 2 is never exceeded. -/
def _lookup (env : Sources) (lang cat : String) (fallback : Bool) (d : Dictionary) (rng : Nat) :
    Option (String × Dictionary × Nat) :=
  _lookup.go env 2 lang cat fallback d rng

/-- `lookup` (dictionary.go 85-90); the lock has no effect in a single thread. -/
def lookup (env : Sources) (lang cat : String) (fallback : Bool) (d : Dictionary) (rng : Nat) :
    Option (String × Dictionary × Nat) :=
  _lookup env lang cat fallback d rng

/-- `tryLookup` (dictionary.go 30-38). -/
def tryLookup (env : Sources) (cat : String) (d : Dictionary) (rng : Nat) :
    Option (String × Dictionary × Nat) :=
  match lookup env d.lang cat true { d with useExternalData := true } rng with
  | none => none
  | some (s, d, rng) =>
    if s = "" then lookup env d.lang cat true { d with useExternalData := false } rng
    else some (s, { d with useExternalData := false }, rng)

/-- `numericFormat` (dictionary.go 73-83): the loop over the runes of the format, from the
running `result`. -/
def numericFormat (env : Sources) : List Char → String → Nat → String × Nat
  | [], result, rng => (result, rng)
  | ru :: rest, result, rng =>
    if ru = '#' then
      numericFormat env rest (result ++ strconv.Itoa (env.Intn rng 10).1) (env.Intn rng 10).2
    else numericFormat env rest (result ++ String.singleton ru) rng

/-- The loop of `valueFromFormat` (dictionary.go 48-56) over the parts of the format, from the
running `result`.  `compositeFormat` is the function of that name, with which
`valueFromFormat` is mutually recursive; it is `none` when it does not return. -/
def formatRefs (env : Sources)
    (compositeFormat : String → Dictionary → Nat → Option (String × Dictionary × Nat)) :
    List String → String → Dictionary → Nat → Option (String × Dictionary × Nat)
  | [], result, d, rng => some (result, d, rng)
  | ref :: rest, result, d, rng =>
    if strings.Contains ref '#' then
      formatRefs env compositeFormat rest (result ++ (numericFormat env ref.data "" rng).1) d
        (numericFormat env ref.data "" rng).2
    else if ref = " " then formatRefs env compositeFormat rest (result ++ " ") d rng
    else
      match compositeFormat ref d rng with
      | none => none
      | some (s, d, rng) => formatRefs env compositeFormat rest (result ++ s) d rng

/-- `compositeFormat` (dictionary.go 60-71), with the function `valueFromFormat` that it
calls. -/
def compositeFormat (env : Sources)
    (valueFromFormat : String → Dictionary → Nat → Option (String × Dictionary × Nat))
    (ref : String) (d : Dictionary) (rng : Nat) : Option (String × Dictionary × Nat) :=
  match tryLookup env ref d rng with
  | none => none
  | some (r, d, rng) =>
    if r = "" then some ("" ++ ref, d, rng)
    else if strings.HasSuffix ref "_format" then
      match valueFromFormat r d rng with
      | none => none
      | some (s, d, rng) => some ("" ++ s, d, rng)
    else some ("" ++ r, d, rng)

/-- `valueFromFormat` (dictionary.go 46-58).  The recursion through `compositeFormat` follows
the references of the formats and need not end; the first argument bounds its depth, and the
result is `none` when the bound is reached. -/
def valueFromFormat (env : Sources) :
    Nat → String → Dictionary → Nat → Option (String × Dictionary × Nat)
  | 0, _, _, _ => none
  | depth + 1, format, d, rng =>
    formatRefs env (compositeFormat env (valueFromFormat env depth)) (strings.Split format '|')
      "" d rng

/-- `formatLookup` (dictionary.go 40-43); the parameters `lang` and `fallback` are not
used. -/
def formatLookup (env : Sources) (depth : Nat) (_lang cat : String) (_fallback : Bool)
    (d : Dictionary) (rng : Nat) : Option (String × Dictionary × Nat) :=
  match tryLookup env (cat ++ "_format") d rng with
  | none => none
  | some (format, d, rng) => valueFromFormat env depth format d rng

/-- `ValueFromDictionary` (dictionary.go 22-28), with the bound on the depth of
`valueFromFormat`. -/
def ValueFromDictionary (env : Sources) (depth : Nat) (cat : String) (d : Dictionary)
    (rng : Nat) : Option (String × Dictionary × Nat) :=
  match tryLookup env cat d rng with
  | none => none
  | some (s, d, rng) =>
    if s = "" then formatLookup env depth d.lang cat true d rng
    else some (s, d, rng)

/-- A sample of the sources: the built-in word list `/data/en/colors` holds the lines `red`
and `green`, the built-in file `/data/en/pair_format` the format `colors| |##`, and the
external file `shapes` (no custom location) the line `square`; the random source counts its
draws and draws the state modulo `n`. -/
def sampleSources : Sources :=
  { assets := sampleAssets
    ReadAll := fun external path =>
      if external = false ∧ path = "/data/en/colors" then some (.ok "red\ngreen\n")
      else if external = false ∧ path = "/data/en/pair_format" then some (.ok "colors| |##\n")
      else if external = true ∧ path = "shapes" then some (.ok "square\n")
      else none
    Intn := fun rng n => (rng % n, rng + 1) }

/-- The state after `ValueFromDictionary("pair")` on the sample, called after
`UseExternalData(true)` with the random source in state 0. -/
def pairRun : String × Dictionary × Nat :=
  (ValueFromDictionary sampleSources 2 "pair" (UseExternalData sampleDictionary true) 0).getD
    ("", sampleDictionary, 0)

/-- The state after `NumberOfPossibleValuesForDictionary("code")` on the sample, called after
`UseExternalData(true)`. -/
def codeRun : Int × Dictionary :=
  (NumberOfPossibleValuesForDictionary sampleAssets 1 "code"
    (UseExternalData sampleDictionary true)).getD (0, sampleDictionary)

/-- The settings `lang`, `enFallback` and `customDataLocation` are the same in both states of
the variables. -/
def Dictionary.sameSettings (d d' : Dictionary) : Prop :=
  d'.lang = d.lang ∧ d'.enFallback = d.enFallback ∧
    d'.customDataLocation = d.customDataLocation

/-- A generator with the unique field `color`, an enum of three values, stored as
`WithField("color", "enum", values, nil, true)` stores it. -/
def colorSample : Generator :=
  (NewGenerator "shirt" none false).setField "color"
    (NewField (.EnumType [Value.str "red", Value.str "green", Value.str "blue"] 3) none true)

/-- A sample of the count of possibilities of a field (fields.go is not in src): the size of
an enum, as the spec has it, and -1 for every other field. -/
def enumSize (field : Field) : Int :=
  match field.fieldType with
  | .EnumType _ size => size
  | _ => -1

/-- A generator `Pet` that defines a literal field named `$parent`. -/
def guardedPet : Generator :=
  (NewGenerator "Pet" none false).WithLiteralField "$parent" (Value.str "x")

/-- The generator `Owner` with the sub-entity field `pet` of the generator `guardedPet`. -/
def guardedOwner : Generator :=
  (NewGenerator "Owner" none false).WithEntityField "pet" guardedPet Value.nil none

/-! # Theorems -/

/-! ## Field maps -/

theorem FieldSet.get_set_self (fs : FieldSet) (k : String) (f : Field) :
    FieldSet.get (FieldSet.set fs k f) k = some f := by
  induction fs with
  | nil => simp [FieldSet.set, FieldSet.get]
  | cons hd rest ih =>
    obtain ⟨k0, f0⟩ := hd
    by_cases h : k0 = k
    · simp [FieldSet.set, FieldSet.get, h]
    · simp [FieldSet.set, FieldSet.get, h, ih]

theorem FieldSet.get_set_ne (fs : FieldSet) (k j : String) (f : Field) (hne : j ≠ k) :
    FieldSet.get (FieldSet.set fs k f) j = FieldSet.get fs j := by
  induction fs with
  | nil =>
    have : ¬ k = j := fun h => hne h.symm
    simp [FieldSet.set, FieldSet.get, this]
  | cons hd rest ih =>
    obtain ⟨k0, f0⟩ := hd
    by_cases h : k0 = k
    · subst h
      have : ¬ k0 = j := fun h => hne h.symm
      simp [FieldSet.set, FieldSet.get, this]
    · by_cases h2 : k0 = j
      · subst h2
        simp [FieldSet.set, FieldSet.get, h]
      · simp [FieldSet.set, FieldSet.get, h, h2, ih]

theorem FieldSet.get_set (fs : FieldSet) (k j : String) (f : Field) :
    FieldSet.get (FieldSet.set fs k f) j = if j = k then some f else FieldSet.get fs j := by
  by_cases h : j = k
  · subst h; simp [FieldSet.get_set_self]
  · simp [h, FieldSet.get_set_ne _ _ _ _ h]

theorem FieldSet.get_some_mem (fs : FieldSet) (k : String) (f : Field)
    (h : FieldSet.get fs k = some f) : (k, f) ∈ fs := by
  induction fs with
  | nil => simp [FieldSet.get] at h
  | cons hd rest ih =>
    obtain ⟨k0, f0⟩ := hd
    by_cases hk : k0 = k
    · simp [FieldSet.get, hk] at h
      subst hk; subst h
      exact List.mem_cons_self _ _
    · simp [FieldSet.get, hk] at h
      exact List.mem_cons_of_mem _ (ih h)

@[simp] theorem Generator.fields_setField (g : Generator) (k : String) (f : Field) :
    (g.setField k f).fields = FieldSet.set g.fields k f := by
  cases g; rfl

@[simp] theorem Generator.pkey_setField (g : Generator) (k : String) (f : Field) :
    (g.setField k f).pkey = g.pkey := by
  cases g; rfl

@[simp] theorem Generator.name_setField (g : Generator) (k : String) (f : Field) :
    (g.setField k f).name = g.name := by
  cases g; rfl

@[simp] theorem Generator.extends_setField (g : Generator) (k : String) (f : Field) :
    (g.setField k f).extends_ = g.extends_ := by
  cases g; rfl

@[simp] theorem Generator.declaredType_setField (g : Generator) (k : String) (f : Field) :
    (g.setField k f).declaredType = g.declaredType := by
  cases g; rfl

@[simp] theorem Generator.disableMetadata_setField (g : Generator) (k : String) (f : Field) :
    (g.setField k f).disableMetadata = g.disableMetadata := by
  cases g; rfl

/-- The loop of `ExtendGenerator` changes nothing but the field map. -/
theorem inheritFields_frame (parent : Generator) (fs : FieldSet) (gen : Generator) :
    (inheritFields parent fs gen).name = gen.name ∧
    (inheritFields parent fs gen).extends_ = gen.extends_ ∧
    (inheritFields parent fs gen).declaredType = gen.declaredType ∧
    (inheritFields parent fs gen).disableMetadata = gen.disableMetadata ∧
    (inheritFields parent fs gen).pkey = gen.pkey := by
  induction fs generalizing gen with
  | nil => simp [inheritFields]
  | cons hd rest ih =>
    obtain ⟨key, f⟩ := hd
    simp only [inheritFields]
    split
    · have := ih (gen.setField key (NewField (.ReferenceType parent key) f.count false))
      simpa using this
    · exact ih gen

theorem inheritFields_get (parent : Generator) (fs : FieldSet) (gen : Generator) (k : String) :
    FieldSet.get (inheritFields parent fs gen).fields k =
      match FieldSet.get gen.fields k with
      | some f => some f
      | none => inherited parent fs k := by
  induction fs generalizing gen with
  | nil => 
    simp only [inheritFields, inherited, FieldSet.get]
    cases FieldSet.get gen.fields k <;> rfl
  | cons hd rest ih =>
    obtain ⟨key, f⟩ := hd
    simp only [inheritFields]
    split
    · rename_i hc
      simp only [Bool.and_eq_true, Bool.not_eq_true', bne_iff_ne, ne_eq, Generator.HasField] at hc
      obtain ⟨⟨h1, h2⟩, h3⟩ := hc
      rw [ih]
      simp only [Generator.fields_setField, FieldSet.get_set]
      by_cases hk : k = key
      · subst hk
        simp only [if_true]
        have hnone : FieldSet.get gen.fields k = none := by
          cases hg : FieldSet.get gen.fields k with
          | none => rfl
          | some x => simp [hg] at h1
        simp [hnone, inherited, FieldSet.get, h2, h3]
      · simp only [hk, if_false]
        have hk2 : ¬ key = k := fun h => hk h.symm
        cases hg : FieldSet.get gen.fields k with
        | none => simp [inherited, FieldSet.get, hk2]
        | some x => rfl
    · rename_i hc
      rw [ih]
      cases hg : FieldSet.get gen.fields k with
      | some x => rfl
      | none =>
        by_cases hk : key = k
        · subst hk
          simp only [Bool.and_eq_true, Bool.not_eq_true', bne_iff_ne, ne_eq, Generator.HasField, hg, Option.isSome_none, true_and, not_and, not_not] at hc
          have hcond : ¬ (strings.HasPrefix key "$" = false ∧ key ≠ parent.PrimaryKeyName) := by
            rintro ⟨a, b⟩
            exact b (hc a)
          simp only [inherited, FieldSet.get, if_true]
          rw [if_neg hcond]
          cases FieldSet.get rest key with
          | none => rfl
          | some y => simp only [if_neg hcond]
        · simp [inherited, FieldSet.get, hk]

@[simp] theorem Generator.Type_setField (g : Generator) (k : String) (f : Field) :
    (g.setField k f).Type = g.Type := by
  cases g; rfl

theorem FieldSet.set_set_self (fs : FieldSet) (k : String) (f : Field) :
    FieldSet.set (FieldSet.set fs k f) k f = FieldSet.set fs k f := by
  induction fs with
  | nil => simp [FieldSet.set]
  | cons hd rest ih =>
    obtain ⟨k0, f0⟩ := hd
    by_cases h : k0 = k
    · simp [FieldSet.set, h]
    · simp [FieldSet.set, h, ih]

theorem recalculateType_mk (n e d : String) (fs : FieldSet) (dm : Bool) (pk : PrimaryKey) :
    (Generator.mk n e d fs dm pk).recalculateType =
      Generator.mk n e (if (strings.HasPrefix n "$" || n == "") && e != "" then e else n)
        fs dm pk := by
  unfold Generator.recalculateType
  simp only [Generator.name, Generator.extends_]
  split <;> rfl

theorem NewGenerator_shape (name : String) (pkey : Option PrimaryKey) (dm : Bool) :
    NewGenerator name pkey dm =
      Generator.mk (storedName name) "" (storedName name)
        (newFields name (attachedKey pkey) dm) dm (attachedKey pkey) := by
  cases dm <;>
    simp [NewGenerator, recalculateType_mk, PrimaryKey.Attach, Generator.setPkey,
      Generator.setField, storedName, newFields,
      attachedKey, metadataField, Generator.Type, Generator.declaredType, FieldSet.set]

theorem ExtendGenerator_shape (name : String) (parent : Generator) (pkey : Option PrimaryKey)
    (dm : Bool) :
    ExtendGenerator name parent pkey dm =
      inheritFields parent parent.fields
        (Generator.mk (storedName name) parent.Type (extendedType name parent)
          (extendedFields name parent (extendedKey parent pkey) dm) dm
          (extendedKey parent pkey)) := by
  unfold ExtendGenerator
  cases pkey <;> cases dm <;>
    simp [NewGenerator_shape, PrimaryKey.Inherit, Generator.setPkey, Generator.setField,
      Generator.setExtends, recalculateType_mk, Generator.extends_, Generator.declaredType,
      extendedType, extendedKey, attachedKey, Generator.Type, extendedFields, metadataField,
      newFields, FieldSet.set_set_self]

theorem newFields_get (name : String) (pk : PrimaryKey) (dm : Bool) (k : String) :
    FieldSet.get (newFields name pk dm) k =
      if k = pk.name then some pk.idField
      else if dm = false ∧ k = "$type" then some (metadataField (storedName name)) else none := by
  unfold newFields
  rw [FieldSet.get_set]
  by_cases h : k = pk.name
  · simp [h]
  · cases dm
    · by_cases h2 : k = "$type"
      · simp [h, h2, FieldSet.get]
      · have h3 : ¬ "$type" = k := fun e => h2 e.symm
        simp [h, h2, h3, FieldSet.get]
    · simp [h, FieldSet.get]

theorem extendedFields_get (name : String) (parent : Generator) (pk : PrimaryKey) (dm : Bool)
    (k : String) :
    FieldSet.get (extendedFields name parent pk dm) k =
      if dm = false ∧ k = "$type" then some (metadataField (extendedType name parent))
      else if dm = false ∧ k = "$extends" then some (metadataField parent.Type)
      else if k = pk.name then some pk.idField
      else none := by
  unfold extendedFields
  cases dm
  · simp only [Bool.false_eq_true, if_false, FieldSet.get_set, newFields_get, true_and]
    by_cases h1 : k = "$type"
    · simp [h1]
    · by_cases h2 : k = "$extends"
      · simp [h2]
      · simp [h1, h2]
  · simp [newFields_get]

theorem idField_not_reference (pk : PrimaryKey) (g : Generator) (k : String)
    (c : Option CountRange) (u : Bool) : pk.idField ≠ NewField (.ReferenceType g k) c u := by
  unfold PrimaryKey.idField NewField
  split <;> simp

theorem metadataField_not_reference (v : String) (g : Generator) (k : String)
    (c : Option CountRange) (u : Bool) : metadataField v ≠ NewField (.ReferenceType g k) c u := by
  simp [metadataField, NewField]

theorem hasPrefix_type : strings.HasPrefix "$type" "$" = true := by decide

theorem hasPrefix_extends : strings.HasPrefix "$extends" "$" = true := by decide

theorem ExtendGenerator_get (name : String) (parent : Generator) (pkey : Option PrimaryKey)
    (dm : Bool) (k : String) :
    FieldSet.get (ExtendGenerator name parent pkey dm).fields k =
      match FieldSet.get (extendedFields name parent (extendedKey parent pkey) dm) k with
      | some f => some f
      | none => inherited parent parent.fields k := by
  rw [ExtendGenerator_shape, inheritFields_get]
  rfl

theorem ExtendGenerator_pkey (name : String) (parent : Generator) (pkey : Option PrimaryKey)
    (dm : Bool) : (ExtendGenerator name parent pkey dm).pkey = extendedKey parent pkey := by
  rw [ExtendGenerator_shape]
  exact (inheritFields_frame parent parent.fields _).2.2.2.2

/-- The entries of an extended generator, with the inherited ones as `NewField` builds
them. -/
theorem ExtendGenerator_entries (name : String) (parent : Generator)
    (pkey : Option PrimaryKey) (disableMetadata : Bool) (k : String) :
    ((∃ f, FieldSet.get parent.fields k = some f ∧
          FieldSet.get (ExtendGenerator name parent pkey disableMetadata).fields k =
            some (NewField (.ReferenceType parent k) f.count false)) ↔
        (parent.HasField k = true ∧ strings.HasPrefix k "$" = false ∧
          k ≠ parent.PrimaryKeyName ∧
          k ≠ (ExtendGenerator name parent pkey disableMetadata).PrimaryKeyName)) ∧
      (∀ f, FieldSet.get (ExtendGenerator name parent pkey disableMetadata).fields k = some f →
        k = (ExtendGenerator name parent pkey disableMetadata).PrimaryKeyName ∨
        (disableMetadata = false ∧ (k = "$type" ∨ k = "$extends")) ∨
        (∃ pf, FieldSet.get parent.fields k = some pf ∧
          f = NewField (.ReferenceType parent k) pf.count false)) := by
  have hget := ExtendGenerator_get name parent pkey disableMetadata k
  have hbase := extendedFields_get name parent (extendedKey parent pkey) disableMetadata k
  simp only [Generator.PrimaryKeyName, ExtendGenerator_pkey]
  constructor
  · constructor
    · rintro ⟨f, hf, hc⟩
      rw [hget, hbase] at hc
      by_cases h1 : disableMetadata = false ∧ k = "$type"
      · rw [if_pos h1] at hc
        simp only [Option.some.injEq] at hc
        exact absurd hc (metadataField_not_reference _ _ _ _ _)
      · rw [if_neg h1] at hc
        by_cases h2 : disableMetadata = false ∧ k = "$extends"
        · rw [if_pos h2] at hc
          simp only [Option.some.injEq] at hc
          exact absurd hc (metadataField_not_reference _ _ _ _ _)
        · rw [if_neg h2] at hc
          by_cases h3 : k = (extendedKey parent pkey).name
          · rw [if_pos h3] at hc
            simp only [Option.some.injEq] at hc
            exact absurd hc (idField_not_reference _ _ _ _ _)
          · rw [if_neg h3] at hc
            simp only [inherited, hf] at hc
            by_cases h4 : strings.HasPrefix k "$" = false ∧ k ≠ parent.PrimaryKeyName
            · exact ⟨by simp [Generator.HasField, hf], h4.1, h4.2, h3⟩
            · rw [if_neg h4] at hc
              exact absurd hc (by simp)
    · rintro ⟨hp, hd, hk, hc⟩
      have h1 : ¬ (disableMetadata = false ∧ k = "$type") := by
        rintro ⟨_, rfl⟩
        rw [hasPrefix_type] at hd
        exact absurd hd (by simp)
      have h2 : ¬ (disableMetadata = false ∧ k = "$extends") := by
        rintro ⟨_, rfl⟩
        rw [hasPrefix_extends] at hd
        exact absurd hd (by simp)
      cases hf : FieldSet.get parent.fields k with
      | none => simp [Generator.HasField, hf] at hp
      | some f =>
        refine ⟨f, rfl, ?_⟩
        rw [hget, hbase, if_neg h1, if_neg h2, if_neg hc]
        simp only [inherited, hf]
        rw [if_pos ⟨hd, hk⟩]
  · intro f hc
    rw [hget, hbase] at hc
    by_cases h1 : disableMetadata = false ∧ k = "$type"
    · exact Or.inr (Or.inl ⟨h1.1, Or.inl h1.2⟩)
    · by_cases h2 : disableMetadata = false ∧ k = "$extends"
      · exact Or.inr (Or.inl ⟨h2.1, Or.inr h2.2⟩)
      · by_cases h3 : k = (extendedKey parent pkey).name
        · exact Or.inl h3
        · rw [if_neg h1, if_neg h2, if_neg h3] at hc
          simp only [inherited] at hc
          cases hf : FieldSet.get parent.fields k with
          | none => simp [hf] at hc
          | some pf =>
            simp only [hf] at hc
            by_cases h4 : strings.HasPrefix k "$" = false ∧ k ≠ parent.PrimaryKeyName
            · rw [if_pos h4] at hc
              simp only [Option.some.injEq] at hc
              exact Or.inr (Or.inr ⟨pf, rfl, hc.symm⟩)
            · rw [if_neg h4] at hc
              exact absurd hc (by simp)

/-- C2: after `child = ExtendGenerator(name, parent, pkey, disableMetadata)`, for every key
k: the parent has a field at k, with some type, count range c and flag, and the entry of k in
the child is the field whose type is the Reference to (parent, k), whose count range is that
same c and whose `UniqueValue` is false, exactly when k is a field of the parent, k does not
start with "$", k is not the name of the parent's primary key and k is not the name of the
child's primary key; and every entry of the child is its primary-key field, a metadata field
(`$type`, `$extends`, present only when metadata is enabled) or such a Reference field: its
`fieldType` is the Reference to (parent, k), its `count` is the `count` of the parent's field
at k and its `UniqueValue` is false. -/
theorem ExtendGenerator_inherits (name : String) (parent : Generator)
    (pkey : Option PrimaryKey) (disableMetadata : Bool) (k : String) :
    ((∃ t c u, FieldSet.get parent.fields k = some (Field.mk t c u) ∧
          FieldSet.get (ExtendGenerator name parent pkey disableMetadata).fields k =
            some (Field.mk (.ReferenceType parent k) c false)) ↔
        (parent.HasField k = true ∧ strings.HasPrefix k "$" = false ∧
          k ≠ parent.PrimaryKeyName ∧
          k ≠ (ExtendGenerator name parent pkey disableMetadata).PrimaryKeyName)) ∧
      (∀ e, FieldSet.get (ExtendGenerator name parent pkey disableMetadata).fields k = some e →
        k = (ExtendGenerator name parent pkey disableMetadata).PrimaryKeyName ∨
        (disableMetadata = false ∧ (k = "$type" ∨ k = "$extends")) ∨
        (∃ pf, FieldSet.get parent.fields k = some pf ∧
          e.fieldType = .ReferenceType parent k ∧ e.count = pf.count ∧
          e.UniqueValue = false ∧
          ∀ t c u, pf = Field.mk t c u → e = Field.mk (.ReferenceType parent k) c false)) := by
  obtain ⟨h1, h2⟩ := ExtendGenerator_entries name parent pkey disableMetadata k
  refine ⟨⟨?_, ?_⟩, ?_⟩
  · rintro ⟨t, c, u, hp, hc⟩
    exact h1.mp ⟨Field.mk t c u, hp, hc⟩
  · intro hconds
    obtain ⟨f, hf, hc⟩ := h1.mpr hconds
    cases f with
    | mk t c u => exact ⟨t, c, u, hf, hc⟩
  · intro e he
    rcases h2 e he with hk | hm | ⟨pf, hpf, hep⟩
    · exact Or.inl hk
    · exact Or.inr (Or.inl hm)
    · refine Or.inr (Or.inr ⟨pf, hpf, ?_, ?_, ?_, ?_⟩)
      · rw [hep]; rfl
      · rw [hep]; rfl
      · rw [hep]; rfl
      · intro t c u hmk
        rw [hep, hmk]
        rfl

/-! ## EnsureGeneratable -/

/-- The loop of `EnsureGeneratable` returns an error exactly for a field that is uniquable,
flagged unique and short of possibilities, and the error is built for such a field. -/
theorem EnsureGeneratable_error_field (numberOfPossibilities : Field → Int) (g : Generator)
    (N : Int) :
    ((g.EnsureGeneratable numberOfPossibilities N).isSome ↔
        ∃ name field, (name, field) ∈ g.fields ∧ field.Uniquable = true ∧
          field.UniqueValue = true ∧
          numberOfPossibilities field ≠ -1 ∧ numberOfPossibilities field < N) ∧
      (∀ msg, g.EnsureGeneratable numberOfPossibilities N = some msg →
        ∃ name field, (name, field) ∈ g.fields ∧ field.Uniquable = true ∧
          field.UniqueValue = true ∧
          numberOfPossibilities field ≠ -1 ∧ numberOfPossibilities field < N ∧
          msg = notEnoughUniqueValues name (numberOfPossibilities field) N) := by
  unfold Generator.EnsureGeneratable
  generalize g.fields = fs
  induction fs with
  | nil => simp [ensureFields]
  | cons hd rest ih =>
    obtain ⟨name, field⟩ := hd
    obtain ⟨ih1, ih2⟩ := ih
    by_cases hu : (field.Uniquable && field.UniqueValue) = true
    · by_cases hn : numberOfPossibilities field ≠ -1 ∧ numberOfPossibilities field < N
      · have hu2 : field.Uniquable = true ∧ field.UniqueValue = true := by
          simpa [Bool.and_eq_true] using hu
        have hstep : ensureFields numberOfPossibilities N ((name, field) :: rest)
            = some (notEnoughUniqueValues name (numberOfPossibilities field) N) := by
          simp only [ensureFields]
          rw [if_pos hu, if_pos hn]
        rw [hstep]
        constructor
        · simp only [Option.isSome_some, true_iff]
          exact ⟨name, field, List.mem_cons_self _ _, hu2.1, hu2.2, hn.1, hn.2⟩
        · intro msg hmsg
          simp only [Option.some.injEq] at hmsg
          exact ⟨name, field, List.mem_cons_self _ _, hu2.1, hu2.2, hn.1, hn.2, hmsg.symm⟩
      · have hstep : ensureFields numberOfPossibilities N ((name, field) :: rest)
            = ensureFields numberOfPossibilities N rest := by
          simp only [ensureFields]
          rw [if_pos hu, if_neg hn]
        rw [hstep]
        constructor
        · rw [ih1]
          constructor
          · rintro ⟨n, f, hm, h⟩
            exact ⟨n, f, List.mem_cons_of_mem _ hm, h⟩
          · rintro ⟨n, f, hm, h1, h2, h3, h4⟩
            rcases List.mem_cons.mp hm with heq | hm
            · cases heq
              exact absurd ⟨h3, h4⟩ hn
            · exact ⟨n, f, hm, h1, h2, h3, h4⟩
        · intro msg hmsg
          obtain ⟨n, f, hm, h⟩ := ih2 msg hmsg
          exact ⟨n, f, List.mem_cons_of_mem _ hm, h⟩
    · have hstep : ensureFields numberOfPossibilities N ((name, field) :: rest)
          = ensureFields numberOfPossibilities N rest := by
        simp only [ensureFields]
        rw [if_neg hu]
      rw [hstep]
      constructor
      · rw [ih1]
        constructor
        · rintro ⟨n, f, hm, h⟩
          exact ⟨n, f, List.mem_cons_of_mem _ hm, h⟩
        · rintro ⟨n, f, hm, h1, h2, h3, h4⟩
          rcases List.mem_cons.mp hm with heq | hm
          · cases heq
            exact absurd (by simp [h1, h2]) hu
          · exact ⟨n, f, hm, h1, h2, h3, h4⟩
      · intro msg hmsg
        obtain ⟨n, f, hm, h⟩ := ih2 msg hmsg
        exact ⟨n, f, List.mem_cons_of_mem _ hm, h⟩

/-- C1: `EnsureGeneratable(N)` returns an error exactly when some field of the generator is
uniquable, flagged unique, and has a number of possibilities that is not -1 and is less than
N.  The message of the error then reads `Not enough unique values for field \x27<name>\x27:
There are only <p> unique values available for the \x27<name>\x27 field, and you\x27re trying to
generate <N> entities`, with the name of such a field, its number of possibilities p in
decimal digits and N in decimal digits.  This holds for every generator (every visiting order
of its fields) and every way of counting possibilities.  For the unique enum `color` of 3
values and N = 4 the message names `color`, 3 and 4. -/
theorem EnsureGeneratable_error_iff (numberOfPossibilities : Field → Int) (g : Generator)
    (N : Int) :
    ((g.EnsureGeneratable numberOfPossibilities N).isSome ↔
        ∃ name field, (name, field) ∈ g.fields ∧ field.Uniquable = true ∧
          field.UniqueValue = true ∧
          numberOfPossibilities field ≠ -1 ∧ numberOfPossibilities field < N) ∧
      (∀ msg, g.EnsureGeneratable numberOfPossibilities N = some msg →
        ∃ name field, (name, field) ∈ g.fields ∧ field.Uniquable = true ∧
          field.UniqueValue = true ∧
          numberOfPossibilities field ≠ -1 ∧ numberOfPossibilities field < N ∧
          msg = "Not enough unique values for field \x27" ++ name ++ "\x27: There are only "
            ++ toString (numberOfPossibilities field)
            ++ " unique values available for the \x27" ++ name
            ++ "\x27 field, and you\x27re trying to generate " ++ toString N ++ " entities") ∧
      (FieldSet.get colorSample.fields "color" =
          some (Field.mk (.EnumType [Value.str "red", Value.str "green", Value.str "blue"] 3)
            none true) ∧
        colorSample.EnsureGeneratable enumSize 3 = none ∧
        colorSample.EnsureGeneratable enumSize 4 = some "Not enough unique values for field \x27color\x27: There are only 3 unique values available for the \x27color\x27 field, and you\x27re trying to generate 4 entities") := by
  refine ⟨(EnsureGeneratable_error_field numberOfPossibilities g N).1, ?_, by rfl, by rfl,
    by decide⟩
  intro msg hmsg
  obtain ⟨name, field, hm, h1, h2, h3, h4, h5⟩ :=
    (EnsureGeneratable_error_field numberOfPossibilities g N).2 msg hmsg
  refine ⟨name, field, hm, h1, h2, h3, h4, ?_⟩
  rw [h5]
  unfold notEnoughUniqueValues
  rfl

/-- The message for the field `color` with 3 possible values and 4 requested entities. -/
theorem notEnoughUniqueValues_color : notEnoughUniqueValues "color" 3 4 = "Not enough unique values for field \x27color\x27: There are only 3 unique values available for the \x27color\x27 field, and you\x27re trying to generate 4 entities" := by
  decide

/-! ## Construction and extension -/

theorem storedName_ne (name : String) : storedName name ≠ "" := by
  unfold storedName
  split
  · decide
  · assumption

theorem NewGenerator_Type (name : String) (pkey : Option PrimaryKey) (dm : Bool) :
    (NewGenerator name pkey dm).Type = storedName name := by
  rw [NewGenerator_shape]; rfl

theorem ExtendGenerator_Type (name : String) (parent : Generator) (pkey : Option PrimaryKey)
    (dm : Bool) : (ExtendGenerator name parent pkey dm).Type = extendedType name parent := by
  rw [ExtendGenerator_shape]
  exact (inheritFields_frame parent parent.fields _).2.2.1

theorem ExtendGenerator_extends (name : String) (parent : Generator) (pkey : Option PrimaryKey)
    (dm : Bool) : (ExtendGenerator name parent pkey dm).extends_ = parent.Type := by
  rw [ExtendGenerator_shape]
  exact (inheritFields_frame parent parent.fields _).2.1

/-- Every generator that `NewGenerator` returns has a non-empty declared type. -/
theorem NewGenerator_Type_ne (name : String) (pkey : Option PrimaryKey) (dm : Bool) :
    (NewGenerator name pkey dm).Type ≠ "" := by
  rw [NewGenerator_Type]; exact storedName_ne name

/-- Every generator that `ExtendGenerator` returns has a non-empty declared type. -/
theorem ExtendGenerator_Type_ne (name : String) (parent : Generator) (pkey : Option PrimaryKey)
    (dm : Bool) : (ExtendGenerator name parent pkey dm).Type ≠ "" := by
  rw [ExtendGenerator_Type]
  unfold extendedType
  split
  · rename_i h
    simp only [Bool.and_eq_true, bne_iff_ne, ne_eq] at h
    exact h.2
  · exact storedName_ne name

theorem hasPrefix_dollar : strings.HasPrefix "$" "$" = true := by decide

/-- C3: the declared type follows the naming rule.  After `NewGenerator(name, ...)` the type is
the name, "$" for the empty name.  After `ExtendGenerator(name, parent, ...)` the type is the
type of the parent when the name is empty or begins with "$", and the name otherwise; the
`extends` member is the type of the parent.  The parent is any generator with a non-empty
type, which every generator returned by `NewGenerator` or `ExtendGenerator` has
(`NewGenerator_Type_ne`, `ExtendGenerator_Type_ne`). -/
theorem declaredType_naming (name : String) (parent : Generator) (pkey : Option PrimaryKey)
    (disableMetadata : Bool) (hparent : parent.Type ≠ "") :
    (NewGenerator name pkey disableMetadata).Type = (if name = "" then "$" else name) ∧
    ((name = "" ∨ strings.HasPrefix name "$" = true) →
      (ExtendGenerator name parent pkey disableMetadata).Type = parent.Type) ∧
    (¬ (name = "" ∨ strings.HasPrefix name "$" = true) →
      (ExtendGenerator name parent pkey disableMetadata).Type = name) ∧
    (ExtendGenerator name parent pkey disableMetadata).extends_ = parent.Type := by
  refine ⟨?_, ?_, ?_, ExtendGenerator_extends name parent pkey disableMetadata⟩
  · rw [NewGenerator_Type]; rfl
  · intro h
    rw [ExtendGenerator_Type]
    unfold extendedType
    have hpre : strings.HasPrefix (storedName name) "$" = true := by
      unfold storedName
      rcases h with h | h
      · rw [if_pos h]; exact hasPrefix_dollar
      · by_cases hn : name = ""
        · rw [if_pos hn]; exact hasPrefix_dollar
        · rw [if_neg hn]; exact h
    have hne : (parent.Type != "") = true := by simpa using hparent
    simp [hpre, hne]
  · intro h
    rw [ExtendGenerator_Type]
    unfold extendedType
    have h1 : name ≠ "" := fun e => h (Or.inl e)
    have h2 : strings.HasPrefix name "$" = false := by
      cases hp : strings.HasPrefix name "$" with
      | false => rfl
      | true => exact absurd (Or.inr hp) h
    simp [storedName, h1, h2]

/-- The naming rule at the anonymous extension `$1::Cat` of the generator `Cat`. -/
theorem declaredType_naming_witness :
    (NewGenerator "Cat" none false).Type ≠ "" ∧
    ((NewGenerator "$1::Cat" none false).Type = (if "$1::Cat" = "" then "$" else "$1::Cat") ∧
    (("$1::Cat" = "" ∨ strings.HasPrefix "$1::Cat" "$" = true) →
      (ExtendGenerator "$1::Cat" (NewGenerator "Cat" none false) none false).Type
        = (NewGenerator "Cat" none false).Type) ∧
    (¬ ("$1::Cat" = "" ∨ strings.HasPrefix "$1::Cat" "$" = true) →
      (ExtendGenerator "$1::Cat" (NewGenerator "Cat" none false) none false).Type = "$1::Cat") ∧
    (ExtendGenerator "$1::Cat" (NewGenerator "Cat" none false) none false).extends_
      = (NewGenerator "Cat" none false).Type) :=
  ⟨by decide, declaredType_naming "$1::Cat" (NewGenerator "Cat" none false) none false (by decide)⟩

/-! ## The loops of One -/

theorem EntityResult.set_set (e : EntityResult) (k : String) (v : Value) :
    (e.set k v).set k v = e.set k v := by
  funext j
  simp only [EntityResult.set]
  split <;> rfl

theorem SetSymbol_transient (scope : Option Scope) (e : EntityResult) (k : String) (v : Value) :
    ((TransientScope scope e).SetSymbol k v).symbols = e.set k v := rfl

theorem lookupGenerate_eq (lib : Library) (fs : FieldSet) (k : String) (p : Value)
    (em : Emitter) (s : Scope) (w : World) :
    lookupGenerate lib fs k p em s w =
      match FieldSet.get fs k with
      | some f => f.GenerateValue lib p em s w
      | none => none := by
  induction fs with
  | nil => rw [lookupGenerate]; rfl
  | cons hd rest ih =>
    obtain ⟨k0, f0⟩ := hd
    rw [lookupGenerate]
    by_cases h : k0 = k
    · simp [FieldSet.get, h]
    · simp [FieldSet.get, h, ih]

theorem One_eq (lib : Library) (g : Generator) (parentId : Value) (em : Emitter)
    (scope : Option Scope) (w : World) :
    g.One lib parentId em scope w =
      match lookupGenerate lib g.fields g.PrimaryKeyName Value.nil em
          (TransientScope scope EntityResult.empty) w with
      | none => none
      | some (id, w1) =>
        match nonDeferredFields lib g.fields g.PrimaryKeyName id em scope
            (initialEntity g.PrimaryKeyName id parentId) w1 with
        | none => none
        | some (e1, w2) =>
          match deferredFields lib g.fields id em scope e1 w2 with
          | none => none
          | some (e2, w3) => some (e2, em.Emit e2 g.Type w3) := by
  cases g with
  | mk n x d fs dm pk =>
    rw [Generator.One]
    rfl

theorem One_inv (lib : Library) (g : Generator) (parentId : Value) (em : Emitter)
    (scope : Option Scope) (w : World) (rec : EntityResult) (w' : World)
    (h : g.One lib parentId em scope w = some (rec, w')) :
    ∃ f id w1 e1 w2 w3,
      FieldSet.get g.fields g.PrimaryKeyName = some f ∧
      f.GenerateValue lib Value.nil em (TransientScope scope EntityResult.empty) w
        = some (id, w1) ∧
      nonDeferredFields lib g.fields g.PrimaryKeyName id em scope
        (initialEntity g.PrimaryKeyName id parentId) w1 = some (e1, w2) ∧
      deferredFields lib g.fields id em scope e1 w2 = some (rec, w3) ∧
      w' = em.Emit rec g.Type w3 := by
  rw [One_eq, lookupGenerate_eq] at h
  cases hf : FieldSet.get g.fields g.PrimaryKeyName with
  | none => simp [hf] at h
  | some f =>
    simp only [hf] at h
    cases h1 : f.GenerateValue lib Value.nil em (TransientScope scope EntityResult.empty) w with
    | none => simp [h1] at h
    | some r1 =>
      obtain ⟨id, w1⟩ := r1
      simp only [h1] at h
      cases h2 : nonDeferredFields lib g.fields g.PrimaryKeyName id em scope
          (initialEntity g.PrimaryKeyName id parentId) w1 with
      | none => simp [h2] at h
      | some r2 =>
        obtain ⟨e1, w2⟩ := r2
        simp only [h2] at h
        cases h3 : deferredFields lib g.fields id em scope e1 w2 with
        | none => simp [h3] at h
        | some r3 =>
          obtain ⟨e2, w3⟩ := r3
          simp only [h3, Option.some.injEq, Prod.mk.injEq] at h
          obtain ⟨rfl, rfl⟩ := h
          exact ⟨f, id, w1, e1, w2, w3, rfl, h1, h2, h3, rfl⟩

theorem nonDeferredFields_nil (lib : Library) (idKey : String) (id : Value) (em : Emitter)
    (scope : Option Scope) (e : EntityResult) (w : World) :
    nonDeferredFields lib [] idKey id em scope e w = some (e, w) := by
  rw [nonDeferredFields]

theorem nonDeferredFields_cons (lib : Library) (name : String) (field : Field)
    (rest : FieldSet) (idKey : String) (id : Value) (em : Emitter) (scope : Option Scope)
    (e : EntityResult) (w : World) :
    nonDeferredFields lib ((name, field) :: rest) idKey id em scope e w =
      if field.isDeferred = true ∨ name = idKey then
        nonDeferredFields lib rest idKey id em scope e w
      else
        match field.GenerateValue lib id (em.NextEmitter e name (field.MultiValue lib))
            (TransientScope scope e) w with
        | none => none
        | some (v, w1) =>
          nonDeferredFields lib rest idKey id em scope
            (if (e name).isSome then e else e.set name v) w1 := by
  rw [nonDeferredFields]
  by_cases hd : field.isDeferred = true
  · have : (field.fieldType.Type != "deferred") = false := by
      simpa [Field.isDeferred] using hd
    simp [this, hd]
  · have hd2 : (field.fieldType.Type != "deferred") = true := by
      simpa [Field.isDeferred] using hd
    by_cases hn : name = idKey
    · simp [hd2, hn]
    · have hn2 : (name != idKey) = true := by simpa using hn
      simp only [hd2, hn2, if_true, hd, hn, or_self, if_false, Bool.false_eq_true]
      cases field.GenerateValue lib id (em.NextEmitter e name (field.MultiValue lib))
          (TransientScope scope e) w with
      | none => rfl
      | some r =>
        obtain ⟨v, w1⟩ := r
        simp only [SetSymbol_transient, EntityResult.set_set]
        split <;> rfl

theorem deferredFields_nil (lib : Library) (id : Value) (em : Emitter)
    (scope : Option Scope) (e : EntityResult) (w : World) :
    deferredFields lib [] id em scope e w = some (e, w) := by
  rw [deferredFields]

theorem valueOf_set_self (e : EntityResult) (k : String) (v : Value) :
    valueOf ((e.set k v) k) = v := by
  simp [EntityResult.set, valueOf]

theorem deferredFields_cons (lib : Library) (name : String) (field : Field)
    (rest : FieldSet) (id : Value) (em : Emitter) (scope : Option Scope)
    (e : EntityResult) (w : World) :
    deferredFields lib ((name, field) :: rest) id em scope e w =
      if field.isDeferred = true then
        match field.GenerateValue lib id (em.NextEmitter e name (field.MultiValue lib))
            (TransientScope scope e) w with
        | none => none
        | some (v, w1) => deferredFields lib rest id em scope (e.set name v) w1
      else deferredFields lib rest id em scope e w := by
  rw [deferredFields]
  by_cases hd : field.isDeferred = true
  · have hd2 : (field.fieldType.Type == "deferred") = true := by
      simpa [Field.isDeferred] using hd
    simp only [hd2, hd, if_true]
    cases field.GenerateValue lib id (em.NextEmitter e name (field.MultiValue lib))
        (TransientScope scope e) w with
    | none => rfl
    | some r =>
      obtain ⟨v, w1⟩ := r
      simp only [SetSymbol_transient, valueOf_set_self, EntityResult.set_set]
  · have hd2 : (field.fieldType.Type == "deferred") = false := by
      simpa [Field.isDeferred] using hd
    simp [hd2, hd]

/-- The first loop never changes an entry that is set. -/
theorem nonDeferredFields_keeps (lib : Library) (fs : FieldSet) (idKey : String) (id : Value)
    (em : Emitter) (scope : Option Scope) (e : EntityResult) (w : World) (e' : EntityResult)
    (w' : World) (h : nonDeferredFields lib fs idKey id em scope e w = some (e', w'))
    (k : String) (v : Value) (hk : e k = some v) : e' k = some v := by
  induction fs generalizing e w with
  | nil =>
    rw [nonDeferredFields_nil] at h
    simp only [Option.some.injEq, Prod.mk.injEq] at h
    rw [← h.1]; exact hk
  | cons hd rest ih =>
    obtain ⟨name, field⟩ := hd
    rw [nonDeferredFields_cons] at h
    split at h
    · exact ih e w h hk
    · cases hg : field.GenerateValue lib id (em.NextEmitter e name (field.MultiValue lib))
          (TransientScope scope e) w with
      | none => simp [hg] at h
      | some r =>
        obtain ⟨v1, w1⟩ := r
        simp only [hg] at h
        refine ih _ w1 h ?_
        split
        · exact hk
        · rename_i hs
          have hne : k ≠ name := by
            rintro rfl
            simp [hk] at hs
          simp [EntityResult.set, hne, hk]

/-- The first loop changes no entry but those named by a visited field that is not deferred
and is not the primary key. -/
theorem nonDeferredFields_frame (lib : Library) (fs : FieldSet) (idKey : String) (id : Value)
    (em : Emitter) (scope : Option Scope) (e : EntityResult) (w : World) (e' : EntityResult)
    (w' : World) (h : nonDeferredFields lib fs idKey id em scope e w = some (e', w'))
    (k : String) (hk : ∀ f, (k, f) ∈ fs → f.isDeferred = true ∨ k = idKey) : e' k = e k := by
  induction fs generalizing e w with
  | nil =>
    rw [nonDeferredFields_nil] at h
    simp only [Option.some.injEq, Prod.mk.injEq] at h
    rw [← h.1]
  | cons hd rest ih =>
    obtain ⟨name, field⟩ := hd
    have hrest : ∀ f, (k, f) ∈ rest → f.isDeferred = true ∨ k = idKey :=
      fun f hf => hk f (List.mem_cons_of_mem _ hf)
    rw [nonDeferredFields_cons] at h
    split at h
    · exact ih e w h hrest
    · rename_i hc
      cases hg : field.GenerateValue lib id (em.NextEmitter e name (field.MultiValue lib))
          (TransientScope scope e) w with
      | none => simp [hg] at h
      | some r =>
        obtain ⟨v1, w1⟩ := r
        simp only [hg] at h
        rw [ih _ w1 h hrest]
        have hne : k ≠ name := by
          rintro rfl
          have := hk field (List.mem_cons_self _ _)
          rcases this with h1 | h1
          · exact hc (Or.inl h1)
          · exact hc (Or.inr h1)
        split
        · rfl
        · simp [EntityResult.set, hne]

/-- The first loop leaves every visited field that is not deferred and is not the primary key
with an entry in the record. -/
theorem nonDeferredFields_written (lib : Library) (fs : FieldSet) (idKey : String) (id : Value)
    (em : Emitter) (scope : Option Scope) (e : EntityResult) (w : World) (e' : EntityResult)
    (w' : World) (h : nonDeferredFields lib fs idKey id em scope e w = some (e', w'))
    (k : String) (f : Field) (hm : (k, f) ∈ fs) (hd : f.isDeferred = false) (hk : k ≠ idKey) :
    (e' k).isSome = true := by
  induction fs generalizing e w with
  | nil => simp at hm
  | cons hd0 rest ih =>
    obtain ⟨name, field⟩ := hd0
    rw [nonDeferredFields_cons] at h
    rcases List.mem_cons.mp hm with heq | hm'
    · simp only [Prod.mk.injEq] at heq
      obtain ⟨rfl, rfl⟩ := heq
      have hc : ¬ (f.isDeferred = true ∨ k = idKey) := by
        rintro (h1 | h1)
        · rw [hd] at h1; exact absurd h1 (by simp)
        · exact hk h1
      rw [if_neg hc] at h
      cases hg : f.GenerateValue lib id (em.NextEmitter e k (f.MultiValue lib))
          (TransientScope scope e) w with
      | none => simp [hg] at h
      | some r =>
        obtain ⟨v1, w1⟩ := r
        simp only [hg] at h
        cases hek : e k with
        | some v0 =>
          rw [nonDeferredFields_keeps lib rest idKey id em scope _ w1 e' w' h k v0
            (by simp [hek])]
          rfl
        | none =>
          rw [nonDeferredFields_keeps lib rest idKey id em scope _ w1 e' w' h k v1
            (by simp [hek, EntityResult.set])]
          rfl
    · split at h
      · exact ih e w h hm'
      · cases hg : field.GenerateValue lib id (em.NextEmitter e name (field.MultiValue lib))
            (TransientScope scope e) w with
        | none => simp [hg] at h
        | some r =>
          obtain ⟨v1, w1⟩ := r
          simp only [hg] at h
          exact ih _ w1 h hm'

/-- The second loop changes no entry but those named by a visited deferred field. -/
theorem deferredFields_frame (lib : Library) (fs : FieldSet) (id : Value)
    (em : Emitter) (scope : Option Scope) (e : EntityResult) (w : World) (e' : EntityResult)
    (w' : World) (h : deferredFields lib fs id em scope e w = some (e', w'))
    (k : String) (hk : ∀ f, (k, f) ∈ fs → f.isDeferred = false) : e' k = e k := by
  induction fs generalizing e w with
  | nil =>
    rw [deferredFields_nil] at h
    simp only [Option.some.injEq, Prod.mk.injEq] at h
    rw [← h.1]
  | cons hd rest ih =>
    obtain ⟨name, field⟩ := hd
    have hrest : ∀ f, (k, f) ∈ rest → f.isDeferred = false :=
      fun f hf => hk f (List.mem_cons_of_mem _ hf)
    rw [deferredFields_cons] at h
    split at h
    · rename_i hc
      cases hg : field.GenerateValue lib id (em.NextEmitter e name (field.MultiValue lib))
          (TransientScope scope e) w with
      | none => simp [hg] at h
      | some r =>
        obtain ⟨v1, w1⟩ := r
        simp only [hg] at h
        rw [ih _ w1 h hrest]
        have hne : k ≠ name := by
          rintro rfl
          have := hk field (List.mem_cons_self _ _)
          rw [this] at hc
          exact absurd hc (by simp)
        simp [EntityResult.set, hne]
    · exact ih e w h hrest

/-- The second loop does nothing when no visited field is deferred. -/
theorem deferredFields_none (lib : Library) (fs : FieldSet) (id : Value)
    (em : Emitter) (scope : Option Scope) (e : EntityResult) (w : World)
    (hfs : ∀ k f, (k, f) ∈ fs → f.isDeferred = false) :
    deferredFields lib fs id em scope e w = some (e, w) := by
  induction fs with
  | nil => rw [deferredFields_nil]
  | cons hd rest ih =>
    obtain ⟨name, field⟩ := hd
    rw [deferredFields_cons]
    have h1 := hfs name field (List.mem_cons_self _ _)
    rw [if_neg (by rw [h1]; simp)]
    exact ih (fun k f hf => hfs k f (List.mem_cons_of_mem _ hf))

/-- The first loop visits the fields that are not deferred, in their order. -/
theorem nonDeferredFields_filter (lib : Library) (fs : FieldSet) (idKey : String) (id : Value)
    (em : Emitter) (scope : Option Scope) (e : EntityResult) (w : World) :
    nonDeferredFields lib fs idKey id em scope e w =
      nonDeferredFields lib (fs.filter (fun x => !x.2.isDeferred)) idKey id em scope e w := by
  induction fs generalizing e w with
  | nil => rfl
  | cons hd rest ih =>
    obtain ⟨name, field⟩ := hd
    by_cases hd : field.isDeferred = true
    · rw [nonDeferredFields_cons, if_pos (Or.inl hd)]
      simp only [List.filter, hd, Bool.not_true]
      exact ih e w
    · have hf : field.isDeferred = false := by simpa using hd
      simp only [List.filter, hf, Bool.not_false]
      rw [nonDeferredFields_cons, nonDeferredFields_cons]
      split
      · exact ih e w
      · cases field.GenerateValue lib id (em.NextEmitter e name (field.MultiValue lib))
            (TransientScope scope e) w with
        | none => rfl
        | some r =>
          obtain ⟨v1, w1⟩ := r
          exact ih _ w1

/-- The second loop visits the deferred fields, in their order. -/
theorem deferredFields_filter (lib : Library) (fs : FieldSet) (id : Value)
    (em : Emitter) (scope : Option Scope) (e : EntityResult) (w : World) :
    deferredFields lib fs id em scope e w =
      deferredFields lib (fs.filter (fun x => x.2.isDeferred)) id em scope e w := by
  induction fs generalizing e w with
  | nil => rfl
  | cons hd rest ih =>
    obtain ⟨name, field⟩ := hd
    by_cases hd : field.isDeferred = true
    · simp only [List.filter, hd]
      rw [deferredFields_cons, deferredFields_cons, if_pos hd, if_pos hd]
      cases field.GenerateValue lib id (em.NextEmitter e name (field.MultiValue lib))
          (TransientScope scope e) w with
      | none => rfl
      | some r =>
        obtain ⟨v1, w1⟩ := r
        exact ih _ w1
    · have hf : field.isDeferred = false := by simpa using hd
      simp only [List.filter, hf]
      rw [deferredFields_cons, if_neg hd]
      exact ih e w

/-! ## One -/

theorem FieldSet.get_none_not_mem (fs : FieldSet) (k : String)
    (h : FieldSet.get fs k = none) (f : Field) : (k, f) ∉ fs := by
  induction fs with
  | nil => simp
  | cons hd rest ih =>
    obtain ⟨k0, f0⟩ := hd
    by_cases hk : k0 = k
    · simp [FieldSet.get, hk] at h
    · simp only [FieldSet.get, hk, if_false] at h
      intro hm
      rcases List.mem_cons.mp hm with heq | hm'
      · simp only [Prod.mk.injEq] at heq
        exact hk heq.1.symm
      · exact ih h hm'

theorem FieldSet.isMap_cons (k : String) (f : Field) (rest : FieldSet)
    (h : FieldSet.isMap ((k, f) :: rest)) :
    (∀ f', (k, f') ∉ rest) ∧ FieldSet.isMap rest := by
  unfold FieldSet.isMap at h
  simp only [List.map_cons, List.nodup_cons] at h
  refine ⟨fun f' hm => h.1 ?_, h.2⟩
  exact List.mem_map.mpr ⟨(k, f'), hm, rfl⟩

theorem FieldSet.isMap_get_of_mem (fs : FieldSet) (h : FieldSet.isMap fs) (k : String)
    (f : Field) (hm : (k, f) ∈ fs) : FieldSet.get fs k = some f := by
  induction fs with
  | nil => simp at hm
  | cons hd rest ih =>
    obtain ⟨k0, f0⟩ := hd
    obtain ⟨h1, h2⟩ := FieldSet.isMap_cons k0 f0 rest h
    rcases List.mem_cons.mp hm with heq | hm'
    · simp only [Prod.mk.injEq] at heq
      obtain ⟨rfl, rfl⟩ := heq
      simp [FieldSet.get]
    · have hne : k0 ≠ k := by
        rintro rfl
        exact h1 f hm'
      simp only [FieldSet.get, hne, if_false]
      exact ih h2 hm'

/-- In a field map the second loop stores, under the name of each deferred field, the value
that the field produced in a scope over a record that agrees with the record at the start of
the loop on every name that no deferred field bears. -/
theorem deferredFields_value (lib : Library) (fs : FieldSet) (hmap : FieldSet.isMap fs)
    (id : Value) (em : Emitter) (scope : Option Scope) (e : EntityResult) (w : World)
    (e' : EntityResult) (w' : World)
    (h : deferredFields lib fs id em scope e w = some (e', w'))
    (k : String) (f : Field) (hm : (k, f) ∈ fs) (hd : f.isDeferred = true) :
    ∃ e₁ w₁ v w₂,
      f.GenerateValue lib id (em.NextEmitter e₁ k (f.MultiValue lib)) (TransientScope scope e₁) w₁
        = some (v, w₂) ∧
      e' k = some v ∧
      ∀ j, (∀ f', (j, f') ∈ fs → f'.isDeferred = false) → e₁ j = e j := by
  induction fs generalizing e w with
  | nil => simp at hm
  | cons hd0 rest ih =>
    obtain ⟨name, field⟩ := hd0
    obtain ⟨h1, h2⟩ := FieldSet.isMap_cons name field rest hmap
    rw [deferredFields_cons] at h
    rcases List.mem_cons.mp hm with heq | hm'
    · simp only [Prod.mk.injEq] at heq
      obtain ⟨rfl, rfl⟩ := heq
      rw [if_pos hd] at h
      cases hg : f.GenerateValue lib id (em.NextEmitter e k (f.MultiValue lib))
          (TransientScope scope e) w with
      | none => simp [hg] at h
      | some r =>
        obtain ⟨v1, w1⟩ := r
        simp only [hg] at h
        refine ⟨e, w, v1, w1, hg, ?_, fun j _ => rfl⟩
        rw [deferredFields_frame lib rest id em scope _ w1 e' w' h k
          (fun f' hf' => absurd hf' (h1 f'))]
        simp [EntityResult.set]
    · split at h
      · rename_i hc
        cases hg : field.GenerateValue lib id (em.NextEmitter e name (field.MultiValue lib))
            (TransientScope scope e) w with
        | none => simp [hg] at h
        | some r =>
          obtain ⟨v1, w1⟩ := r
          simp only [hg] at h
          obtain ⟨e₁, w₁, v, w₂, ha, hb, hc'⟩ := ih h2 _ w1 h hm'
          refine ⟨e₁, w₁, v, w₂, ha, hb, fun j hj => ?_⟩
          rw [hc' j (fun f' hf' => hj f' (List.mem_cons_of_mem _ hf'))]
          have hne : j ≠ name := by
            rintro rfl
            have := hj field (List.mem_cons_self _ _)
            rw [this] at hc
            exact absurd hc (by simp)
          simp [EntityResult.set, hne]
      · obtain ⟨e₁, w₁, v, w₂, ha, hb, hc'⟩ := ih h2 e w h hm'
        exact ⟨e₁, w₁, v, w₂, ha, hb,
          fun j hj => hc' j (fun f' hf' => hj f' (List.mem_cons_of_mem _ hf'))⟩

theorem initialEntity_id (idKey : String) (id parentId : Value) (h : idKey ≠ "$parent") :
    initialEntity idKey id parentId idKey = some id := by
  unfold initialEntity
  split <;> simp [EntityResult.set, h]

theorem initialEntity_parent (idKey : String) (id parentId : Value) (h : idKey ≠ "$parent") :
    (parentId.isNil = false → initialEntity idKey id parentId "$parent" = some parentId) ∧
    (parentId.isNil = true → initialEntity idKey id parentId "$parent" = none) := by
  have h2 : ¬ "$parent" = idKey := fun e => h e.symm
  unfold initialEntity
  constructor
  · intro hn
    simp [hn, EntityResult.set]
  · intro hn
    simp [hn, EntityResult.set, EntityResult.empty, h2]

/-- C5: for every generator (a field map) that defines no field named `$parent`, and every call
of `One` that returns a record: the record holds under the primary-key name the value that the
primary-key field produced, and it holds `$parent` equal to the parent id when that is not nil
and no `$parent` entry when it is nil.  The primary-key field is generated first, with a nil
parent id and the empty record in scope; when that field is not deferred its value stays in the
record; when it is deferred the second loop generates it again and the record holds the value
produced then. -/
theorem One_primaryKey_and_parent (lib : Library) (g : Generator) (parentId : Value)
    (emitter : Emitter) (scope : Option Scope) (w : World) (record : EntityResult) (w' : World)
    (hmap : FieldSet.isMap g.fields) (hparent : g.HasField "$parent" = false)
    (hone : g.One lib parentId emitter scope w = some (record, w')) :
    ∃ f id w₁,
      FieldSet.get g.fields g.PrimaryKeyName = some f ∧
      f.GenerateValue lib Value.nil emitter (TransientScope scope EntityResult.empty) w
        = some (id, w₁) ∧
      (f.isDeferred = false → record g.PrimaryKeyName = some id) ∧
      (f.isDeferred = true → ∃ e₂ w₂ v w₃,
        f.GenerateValue lib id (emitter.NextEmitter e₂ g.PrimaryKeyName (f.MultiValue lib))
          (TransientScope scope e₂) w₂ = some (v, w₃) ∧
        record g.PrimaryKeyName = some v) ∧
      (parentId.isNil = false → record "$parent" = some parentId) ∧
      (parentId.isNil = true → record "$parent" = none) := by
  obtain ⟨f, id, w1, e1, w2, w3, hf, hid, hp1, hp2, _⟩ :=
    One_inv lib g parentId emitter scope w record w' hone
  have hnone : FieldSet.get g.fields "$parent" = none := by
    cases hg : FieldSet.get g.fields "$parent" with
    | none => rfl
    | some x => simp [Generator.HasField, hg] at hparent
  have hpk : g.PrimaryKeyName ≠ "$parent" := by
    intro heq
    rw [heq, hnone] at hf
    exact absurd hf (by simp)
  have hnomem : ∀ f', ("$parent", f') ∉ g.fields := FieldSet.get_none_not_mem _ _ hnone
  have hpar : record "$parent" = initialEntity g.PrimaryKeyName id parentId "$parent" := by
    rw [deferredFields_frame lib g.fields id emitter scope e1 w2 record w3 hp2 "$parent"
      (fun f' hf' => absurd hf' (hnomem f'))]
    exact nonDeferredFields_frame lib g.fields g.PrimaryKeyName id emitter scope _ w1 e1 w2 hp1
      "$parent" (fun f' hf' => absurd hf' (hnomem f'))
  refine ⟨f, id, w1, hf, hid, ?_, ?_, ?_, ?_⟩
  · intro hd
    rw [deferredFields_frame lib g.fields id emitter scope e1 w2 record w3 hp2 g.PrimaryKeyName]
    · exact nonDeferredFields_keeps lib g.fields g.PrimaryKeyName id emitter scope _ w1 e1 w2 hp1
        g.PrimaryKeyName id (initialEntity_id _ _ _ hpk)
    · intro f' hf'
      have := FieldSet.isMap_get_of_mem g.fields hmap _ _ hf'
      rw [hf] at this
      simp only [Option.some.injEq] at this
      rw [← this]; exact hd
  · intro hd
    obtain ⟨e₂, w₂, v, w₃, ha, hb, _⟩ := deferredFields_value lib g.fields hmap id emitter scope
      e1 w2 record w3 hp2 g.PrimaryKeyName f (FieldSet.get_some_mem _ _ _ hf) hd
    exact ⟨e₂, w₂, v, w₃, ha, hb⟩
  · intro hn
    rw [hpar]
    exact (initialEntity_parent _ _ _ hpk).1 hn
  · intro hn
    rw [hpar]
    exact (initialEntity_parent _ _ _ hpk).2 hn

theorem ResolveSymbol_transient_some (scope : Option Scope) (e : EntityResult) (k : String)
    (v : Value) (h : e k = some v) : (TransientScope scope e).ResolveSymbol k = v := by
  cases scope with
  | none => simp [TransientScope, Scope.ResolveSymbol, h]
  | some p => simp [TransientScope, Scope.ResolveSymbol, h]

theorem initialEntity_id_isSome (idKey : String) (id parentId : Value) :
    (initialEntity idKey id parentId idKey).isSome = true := by
  unfold initialEntity
  split
  · simp [EntityResult.set]
  · simp only [EntityResult.set]
    split <;> simp

/-- When the two loops have run, every field that is not deferred has the entry in the record
that the first loop left. -/
theorem loops_nonDeferred_entry (lib : Library) (fs : FieldSet) (hmap : FieldSet.isMap fs)
    (idKey : String) (id parentId : Value) (em : Emitter) (scope : Option Scope)
    (w1 : World) (e1 : EntityResult) (w2 : World) (record : EntityResult) (w3 : World)
    (hp1 : nonDeferredFields lib fs idKey id em scope (initialEntity idKey id parentId) w1
      = some (e1, w2))
    (hp2 : deferredFields lib fs id em scope e1 w2 = some (record, w3))
    (j : String) (fj : Field) (hm : (j, fj) ∈ fs) (hd : fj.isDeferred = false) :
    (∀ f', (j, f') ∈ fs → f'.isDeferred = false) ∧
      (e1 j).isSome = true ∧ record j = e1 j := by
  have hnd : ∀ f', (j, f') ∈ fs → f'.isDeferred = false := by
    intro f' hm'
    have h1 := FieldSet.isMap_get_of_mem fs hmap _ _ hm
    have h2 := FieldSet.isMap_get_of_mem fs hmap _ _ hm'
    rw [h1] at h2
    simp only [Option.some.injEq] at h2
    rw [← h2]; exact hd
  refine ⟨hnd, ?_, deferredFields_frame lib fs id em scope e1 w2 record w3 hp2 j hnd⟩
  by_cases hj : j = idKey
  · cases hi : initialEntity idKey id parentId idKey with
    | none =>
      have := initialEntity_id_isSome idKey id parentId
      rw [hi] at this
      exact absurd this (by simp)
    | some v0 =>
      rw [hj, nonDeferredFields_keeps lib fs idKey id em scope _ w1 e1 w2 hp1 idKey v0 hi]
      rfl
  · exact nonDeferredFields_written lib fs idKey id em scope _ w1 e1 w2 hp1 j fj hm hd hj

/-- When the two loops have run, the record holds under the name of each deferred field the
value that the field produced in a scope that resolves the name of every field that is not
deferred to its value in the record. -/
theorem loops_deferred_scope (lib : Library) (fs : FieldSet) (hmap : FieldSet.isMap fs)
    (idKey : String) (id parentId : Value) (em : Emitter) (scope : Option Scope)
    (w1 : World) (e1 : EntityResult) (w2 : World) (record : EntityResult) (w3 : World)
    (hp1 : nonDeferredFields lib fs idKey id em scope (initialEntity idKey id parentId) w1
      = some (e1, w2))
    (hp2 : deferredFields lib fs id em scope e1 w2 = some (record, w3))
    (k : String) (fk : Field) (hm : (k, fk) ∈ fs) (hd : fk.isDeferred = true) :
    ∃ e₂ w₃ v w₄,
      fk.GenerateValue lib id (em.NextEmitter e₂ k (fk.MultiValue lib))
        (TransientScope scope e₂) w₃ = some (v, w₄) ∧
      record k = some v ∧
      ∀ j fj, (j, fj) ∈ fs → fj.isDeferred = false →
        (TransientScope scope e₂).ResolveSymbol j = valueOf (record j) ∧
        (record j).isSome = true := by
  obtain ⟨e₂, w₃, v, w₄, ha, hb, hc⟩ := deferredFields_value lib fs hmap id em scope
    e1 w2 record w3 hp2 k fk hm hd
  refine ⟨e₂, w₃, v, w₄, ha, hb, ?_⟩
  intro j fj hmj hdj
  obtain ⟨hnd, h1, h2⟩ := loops_nonDeferred_entry lib fs hmap idKey id parentId em scope w1 e1
    w2 record w3 hp1 hp2 j fj hmj hdj
  have h3 : e₂ j = record j := by rw [hc j hnd, h2]
  refine ⟨?_, by rw [h2]; exact h1⟩
  cases hr : record j with
  | none => rw [← h2, hr] at h1; exact absurd h1 (by simp)
  | some vj =>
    rw [hr] at h3
    rw [ResolveSymbol_transient_some scope e₂ j vj h3]
    rfl

theorem GenerateValue_deferred (lib : Library) (closure : Scope → Option Value) (u : Bool)
    (p : Value) (e : Emitter) (s : Scope) (w : World) :
    (NewField (.DeferredType closure) none u).GenerateValue lib p e s w =
      match closure s with
      | none => none
      | some value => some (value, w) := by
  rw [NewField, Field.GenerateValue, FieldType.One]

/-- The scenario of the deferred sibling reference, for every generator (a field map) with
fields `first` and `last` that are not deferred and the deferred field
`full: first + " " + last`: every record that `One` returns has strings under `first` and
`last` and their join under `full`. -/
theorem One_fullName (lib : Library) (g : Generator) (parentId : Value) (emitter : Emitter)
    (scope : Option Scope) (w : World) (record : EntityResult) (w' : World)
    (hmap : FieldSet.isMap g.fields) (u : Bool) (f1 f2 : Field)
    (hfull : ("full", NewField (.DeferredType fullName) none u) ∈ g.fields)
    (hfirst : ("first", f1) ∈ g.fields) (hd1 : f1.isDeferred = false)
    (hlast : ("last", f2) ∈ g.fields) (hd2 : f2.isDeferred = false)
    (hone : g.One lib parentId emitter scope w = some (record, w')) :
    ∃ a b, record "first" = some (Value.str a) ∧ record "last" = some (Value.str b) ∧
      record "full" = some (Value.str (a ++ " " ++ b)) := by
  obtain ⟨f, id, w1, e1, w2, w3, _, _, hp1, hp2, _⟩ :=
    One_inv lib g parentId emitter scope w record w' hone
  obtain ⟨e₂, w₃, v, w₄, ha, hb, hc⟩ := loops_deferred_scope lib g.fields hmap _ id parentId
    emitter scope w1 e1 w2 record w3 hp1 hp2 "full" _ hfull rfl
  obtain ⟨hr1, hs1⟩ := hc "first" f1 hfirst hd1
  obtain ⟨hr2, hs2⟩ := hc "last" f2 hlast hd2
  rw [GenerateValue_deferred] at ha
  cases hfn : fullName (TransientScope scope e₂) with
  | none => simp [hfn] at ha
  | some x =>
    simp only [hfn, Option.some.injEq, Prod.mk.injEq] at ha
    obtain ⟨hx, _⟩ := ha
    subst hx
    unfold fullName at hfn
    rw [hr1, hr2] at hfn
    cases h1 : record "first" with
    | none => rw [h1] at hs1; exact absurd hs1 (by simp)
    | some v1 =>
      cases h2 : record "last" with
      | none => rw [h2] at hs2; exact absurd hs2 (by simp)
      | some v2 =>
        rw [h1, h2] at hfn
        simp only [valueOf] at hfn
        cases v1 <;> cases v2 <;> simp at hfn
        rename_i a b
        exact ⟨a, b, rfl, rfl, by rw [hb, hfn]⟩

/-- C6: two-phase evaluation in `One`.  For every generator (a field map) whose primary-key
field is not deferred, and every call of `One` that returns a record: the call generates the
primary key, then runs the first loop over the fields that are not deferred, then the second
loop over the deferred fields from the record `e₁` that the first loop left.  Every field that
is not deferred has an entry in `e₁`, and the returned record holds the same entry.  Every
deferred field is evaluated in a scope that resolves the name of every field that is not
deferred to the value of that name in the returned record, and the record holds the value so
produced under the name of the deferred field. -/
theorem One_two_phase (lib : Library) (g : Generator) (parentId : Value)
    (emitter : Emitter) (scope : Option Scope) (w : World) (record : EntityResult) (w' : World)
    (hmap : FieldSet.isMap g.fields)
    (hpk : ∀ f, FieldSet.get g.fields g.PrimaryKeyName = some f → f.isDeferred = false)
    (hone : g.One lib parentId emitter scope w = some (record, w')) :
    ∃ f id w₀ e₁ w₁ w₂,
      FieldSet.get g.fields g.PrimaryKeyName = some f ∧ f.isDeferred = false ∧
      f.GenerateValue lib Value.nil emitter (TransientScope scope EntityResult.empty) w
        = some (id, w₀) ∧
      nonDeferredFields lib (g.fields.filter (fun x => !x.2.isDeferred)) g.PrimaryKeyName id
        emitter scope (initialEntity g.PrimaryKeyName id parentId) w₀ = some (e₁, w₁) ∧
      deferredFields lib (g.fields.filter (fun x => x.2.isDeferred)) id emitter scope e₁ w₁
        = some (record, w₂) ∧
      (∀ j fj, (j, fj) ∈ g.fields → fj.isDeferred = false →
        (e₁ j).isSome = true ∧ record j = e₁ j) ∧
      (∀ k fk, (k, fk) ∈ g.fields → fk.isDeferred = true →
        ∃ e₂ w₃ v w₄,
          fk.GenerateValue lib id (emitter.NextEmitter e₂ k (fk.MultiValue lib))
            (TransientScope scope e₂) w₃ = some (v, w₄) ∧
          record k = some v ∧
          ∀ j fj, (j, fj) ∈ g.fields → fj.isDeferred = false →
            (TransientScope scope e₂).ResolveSymbol j = valueOf (record j) ∧
            (record j).isSome = true) := by
  obtain ⟨f, id, w1, e1, w2, w3, hf, hid, hp1, hp2, _⟩ :=
    One_inv lib g parentId emitter scope w record w' hone
  refine ⟨f, id, w1, e1, w2, w3, hf, hpk f hf, hid, ?_, ?_, ?_, ?_⟩
  · rw [← nonDeferredFields_filter]; exact hp1
  · rw [← deferredFields_filter]; exact hp2
  · intro j fj hm hd
    exact (loops_nonDeferred_entry lib g.fields hmap _ id parentId emitter scope w1 e1 w2
      record w3 hp1 hp2 j fj hm hd).2
  · intro k fk hm hd
    exact loops_deferred_scope lib g.fields hmap _ id parentId emitter scope w1 e1 w2 record w3
      hp1 hp2 k fk hm hd

/-- The record of `person`: the deferred `full` is the join of `first` and `last`. -/
theorem person_full :
    person.One sampleLibrary (Value.int 7) rootEmitter none freshWorld = some personRun ∧
    personRun.1 "first" = some (Value.str "bbb") ∧
    personRun.1 "last" = some (Value.str "cccc") ∧
    personRun.1 "full" = some (Value.str "bbb cccc") := by
  refine ⟨by rfl, by rfl, by rfl, by rfl⟩

/-- The primary key and the parent entry of the record of `person`, generated for the parent
id 7. -/
theorem One_primaryKey_and_parent_witness :
    (FieldSet.isMap person.fields ∧ person.HasField "$parent" = false ∧
      person.One sampleLibrary (Value.int 7) rootEmitter none freshWorld
        = some (personRun.1, personRun.2)) ∧
    ∃ f id w₁,
      FieldSet.get person.fields person.PrimaryKeyName = some f ∧
      f.GenerateValue sampleLibrary Value.nil rootEmitter
        (TransientScope none EntityResult.empty) freshWorld = some (id, w₁) ∧
      (f.isDeferred = false → personRun.1 person.PrimaryKeyName = some id) ∧
      (f.isDeferred = true → ∃ e₂ w₂ v w₃,
        f.GenerateValue sampleLibrary id
          (rootEmitter.NextEmitter e₂ person.PrimaryKeyName (f.MultiValue sampleLibrary))
          (TransientScope none e₂) w₂ = some (v, w₃) ∧
        personRun.1 person.PrimaryKeyName = some v) ∧
      ((Value.int 7).isNil = false → personRun.1 "$parent" = some (Value.int 7)) ∧
      ((Value.int 7).isNil = true → personRun.1 "$parent" = none) :=
  ⟨⟨by decide, by decide, by rfl⟩,
    One_primaryKey_and_parent sampleLibrary person (Value.int 7) rootEmitter none freshWorld
      personRun.1 personRun.2 (by decide) (by decide) (by rfl)⟩

theorem person_primaryKey_field (f : Field)
    (h : FieldSet.get person.fields person.PrimaryKeyName = some f) : f.isDeferred = false := by
  have h2 : FieldSet.get person.fields person.PrimaryKeyName = some DEFAULT_PK_CONFIG.idField :=
    rfl
  rw [h2] at h
  cases h
  rfl

/-- The two phases of `One` on `person`, generated for the parent id 7. -/
theorem One_two_phase_witness :
    (FieldSet.isMap person.fields ∧
      (∀ f, FieldSet.get person.fields person.PrimaryKeyName = some f → f.isDeferred = false) ∧
      person.One sampleLibrary (Value.int 7) rootEmitter none freshWorld
        = some (personRun.1, personRun.2)) ∧
    ∃ f id w₀ e₁ w₁ w₂,
      FieldSet.get person.fields person.PrimaryKeyName = some f ∧ f.isDeferred = false ∧
      f.GenerateValue sampleLibrary Value.nil rootEmitter
        (TransientScope none EntityResult.empty) freshWorld = some (id, w₀) ∧
      nonDeferredFields sampleLibrary (person.fields.filter (fun x => !x.2.isDeferred))
        person.PrimaryKeyName id rootEmitter none
        (initialEntity person.PrimaryKeyName id (Value.int 7)) w₀ = some (e₁, w₁) ∧
      deferredFields sampleLibrary (person.fields.filter (fun x => x.2.isDeferred)) id
        rootEmitter none e₁ w₁ = some (personRun.1, w₂) ∧
      (∀ j fj, (j, fj) ∈ person.fields → fj.isDeferred = false →
        (e₁ j).isSome = true ∧ personRun.1 j = e₁ j) ∧
      (∀ k fk, (k, fk) ∈ person.fields → fk.isDeferred = true →
        ∃ e₂ w₃ v w₄,
          fk.GenerateValue sampleLibrary id
            (rootEmitter.NextEmitter e₂ k (fk.MultiValue sampleLibrary))
            (TransientScope none e₂) w₃ = some (v, w₄) ∧
          personRun.1 k = some v ∧
          ∀ j fj, (j, fj) ∈ person.fields → fj.isDeferred = false →
            (TransientScope none e₂).ResolveSymbol j = valueOf (personRun.1 j) ∧
            (personRun.1 j).isSome = true) :=
  ⟨⟨by decide, person_primaryKey_field, by rfl⟩,
    One_two_phase sampleLibrary person (Value.int 7) rootEmitter none freshWorld
      personRun.1 personRun.2 (by decide) person_primaryKey_field (by rfl)⟩

theorem FieldSet.get_eq_none (fs : FieldSet) (k : String) (h : ∀ f, (k, f) ∉ fs) :
    FieldSet.get fs k = none := by
  cases hg : FieldSet.get fs k with
  | none => rfl
  | some f => exact absurd (FieldSet.get_some_mem fs k f hg) (h f)

theorem FieldSet.get_perm (fs fs' : FieldSet) (hmap : FieldSet.isMap fs) (hp : fs.Perm fs')
    (k : String) : FieldSet.get fs' k = FieldSet.get fs k := by
  have hmap' : FieldSet.isMap fs' := by
    unfold FieldSet.isMap at hmap ⊢
    exact (hp.map Prod.fst).nodup_iff.mp hmap
  cases hg : FieldSet.get fs k with
  | none =>
    apply FieldSet.get_eq_none
    intro f hf
    exact FieldSet.get_none_not_mem fs k hg f (hp.mem_iff.mpr hf)
  | some f =>
    exact FieldSet.isMap_get_of_mem fs' hmap' k f (hp.mem_iff.mp (FieldSet.get_some_mem fs k f hg))

/-- The claim C7 fails: the generator with the deferred fields `a: b` and `b: 1` yields
`a = nil` when `a` is visited first and `a = 1` when `b` is visited first, from the same state,
so two visiting orders of one field map do not always give equal records. -/
theorem One_order_counterexample :
    ¬ ∀ (lib : Library) (g g' : Generator) (parentId : Value) (emitter : Emitter)
        (scope : Option Scope) (w : World), FieldSet.isMap g.fields → g.sameMap g' →
        (g.One lib parentId emitter scope w).map (fun r => r.1) =
          (g'.One lib parentId emitter scope w).map (fun r => r.1) := by
  intro h
  have hsame : aliasFirst.sameMap aliasLast :=
    ⟨rfl, rfl, rfl, rfl, rfl, List.Perm.cons _ (List.Perm.cons _ (List.Perm.swap _ _ _))⟩
  have h1 := h sampleLibrary aliasFirst aliasLast Value.nil rootEmitter none freshWorld
    (by decide) hsame
  have h2 : (aliasFirst.One sampleLibrary Value.nil rootEmitter none freshWorld).map
      (fun r => r.1 "a") = some (some Value.nil) := rfl
  have h3 : (aliasLast.One sampleLibrary Value.nil rootEmitter none freshWorld).map
      (fun r => r.1 "a") = some (some (Value.int 1)) := rfl
  have h4 : (aliasFirst.One sampleLibrary Value.nil rootEmitter none freshWorld).map
      (fun r => r.1 "a") =
      (aliasLast.One sampleLibrary Value.nil rootEmitter none freshWorld).map
      (fun r => r.1 "a") := by
    have := congrArg (Option.map (fun (r : EntityResult) => r "a")) h1
    simpa [Option.map_map, Function.comp] using this
  rw [h2, h3] at h4
  simp at h4

/-- C7, as amended: for a fixed generator, state and parent scope, `One` gives the same result
(record, emissions and final state) for any two visiting orders of the field map that visit
the fields that are not deferred in the same relative order and the deferred fields in the
same relative order.  How the two kinds of fields are interleaved in the map does not matter;
the order within a phase does. -/
theorem One_order_within_phases (lib : Library) (g g' : Generator) (parentId : Value)
    (emitter : Emitter) (scope : Option Scope) (w : World)
    (hmap : FieldSet.isMap g.fields) (hsame : g.sameMap g')
    (hfirst : g'.fields.filter (fun x => !x.2.isDeferred)
      = g.fields.filter (fun x => !x.2.isDeferred))
    (hsecond : g'.fields.filter (fun x => x.2.isDeferred)
      = g.fields.filter (fun x => x.2.isDeferred)) :
    g'.One lib parentId emitter scope w = g.One lib parentId emitter scope w := by
  obtain ⟨_, _, hd, _, hpk, hperm⟩ := hsame
  have hname : g'.PrimaryKeyName = g.PrimaryKeyName := by
    simp only [Generator.PrimaryKeyName, hpk]
  have htype : g'.Type = g.Type := by
    simp only [Generator.Type, hd]
  rw [One_eq, One_eq, lookupGenerate_eq, lookupGenerate_eq, hname, htype,
    FieldSet.get_perm g.fields g'.fields hmap hperm]
  cases FieldSet.get g.fields g.PrimaryKeyName with
  | none => rfl
  | some f =>
    simp only []
    cases f.GenerateValue lib Value.nil emitter (TransientScope scope EntityResult.empty) w with
    | none => rfl
    | some r =>
      obtain ⟨id, w1⟩ := r
      simp only []
      rw [nonDeferredFields_filter lib g'.fields, nonDeferredFields_filter lib g.fields, hfirst]
      cases nonDeferredFields lib (g.fields.filter (fun x => !x.2.isDeferred)) g.PrimaryKeyName
          id emitter scope (initialEntity g.PrimaryKeyName id parentId) w1 with
      | none => rfl
      | some r2 =>
        obtain ⟨e1, w2⟩ := r2
        simp only []
        rw [deferredFields_filter lib g'.fields, deferredFields_filter lib g.fields, hsecond]

/-- The generator `person` gives one result whether `full` is visited before or after `first`. -/
theorem One_order_within_phases_witness :
    (FieldSet.isMap person.fields ∧ person.sameMap personReordered ∧
      personReordered.fields.filter (fun x => !x.2.isDeferred)
        = person.fields.filter (fun x => !x.2.isDeferred) ∧
      personReordered.fields.filter (fun x => x.2.isDeferred)
        = person.fields.filter (fun x => x.2.isDeferred)) ∧
    personReordered.One sampleLibrary (Value.int 7) rootEmitter none freshWorld
      = person.One sampleLibrary (Value.int 7) rootEmitter none freshWorld :=
  ⟨⟨by decide,
      ⟨rfl, rfl, rfl, rfl, rfl, List.Perm.cons _ (List.Perm.cons _ (List.Perm.swap _ _ _))⟩,
      by rfl, by rfl⟩,
    One_order_within_phases sampleLibrary person personReordered (Value.int 7) rootEmitter none
      freshWorld (by decide)
      ⟨rfl, rfl, rfl, rfl, rfl, List.Perm.cons _ (List.Perm.cons _ (List.Perm.swap _ _ _))⟩
      (by rfl) (by rfl)⟩

/-! ## Generate -/

theorem List.set_length_append_cons (done : List Value) (x v : Value) (tl : List Value) :
    (done ++ x :: tl).set done.length v = done ++ v :: tl := by
  induction done with
  | nil => rfl
  | cons a rest ih => simp [List.set, ih]

theorem generateLoop_eq (lib : Library) (g : Generator) (emitter : Emitter)
    (scope : Option Scope) (remaining : Nat) (done : List Value) (w : World) :
    generateLoop lib g emitter scope remaining done.length
        (done ++ List.replicate remaining Value.nil) w =
      (oneCalls lib g emitter scope remaining w).map
        (fun r => (done ++ r.1.map (fun record => valueOf (record g.PrimaryKeyName)), r.2)) := by
  induction remaining generalizing done w with
  | zero => simp [generateLoop, oneCalls]
  | succ n ih =>
    simp only [generateLoop, oneCalls, List.replicate_succ]
    cases g.One lib Value.nil emitter scope w with
    | none => rfl
    | some r =>
      obtain ⟨record, w1⟩ := r
      simp only []
      rw [List.set_length_append_cons]
      have h := ih (done ++ [valueOf (record g.PrimaryKeyName)]) w1
      simp only [List.length_append, List.length_singleton, List.append_assoc,
        List.singleton_append] at h
      rw [h]
      cases oneCalls lib g emitter scope n w1 with
      | none => rfl
      | some r2 => simp

theorem oneCalls_length (lib : Library) (g : Generator) (emitter : Emitter)
    (scope : Option Scope) (n : Nat) (w : World) (records : List EntityResult) (w' : World)
    (h : oneCalls lib g emitter scope n w = some (records, w')) : records.length = n := by
  induction n generalizing w records w' with
  | zero =>
    simp only [oneCalls, Option.some.injEq, Prod.mk.injEq] at h
    rw [← h.1]; rfl
  | succ n ih =>
    simp only [oneCalls] at h
    cases h1 : g.One lib Value.nil emitter scope w with
    | none => simp [h1] at h
    | some r =>
      obtain ⟨record, w1⟩ := r
      simp only [h1] at h
      cases h2 : oneCalls lib g emitter scope n w1 with
      | none => simp [h2] at h
      | some r2 =>
        obtain ⟨rs, w2⟩ := r2
        simp only [h2, Option.some.injEq, Prod.mk.injEq] at h
        rw [← h.1, List.length_cons, ih w1 rs w2 h2]

/-- C10: for every count that is not negative, `Generate(count, emitter, scope)` is `count`
successive calls of `One` with a nil parent id, each from the state the call before it left:
it returns when those calls return, with the final state of the last call, and its result is
the list of the primary-key values of the records of those calls, in the order of the calls;
the list has exactly `count` elements, the i-th being the primary-key value of the i-th
record. -/
theorem Generate_calls_One (lib : Library) (g : Generator) (count : Int) (emitter : Emitter)
    (scope : Option Scope) (w : World) (hcount : 0 ≤ count) :
    g.Generate lib count emitter scope w =
        (oneCalls lib g emitter scope count.toNat w).map
          (fun r => (r.1.map (fun record => valueOf (record g.PrimaryKeyName)), r.2)) ∧
      ∀ ids w', g.Generate lib count emitter scope w = some (ids, w') →
        (ids.length : Int) = count ∧
        ∃ records, oneCalls lib g emitter scope count.toNat w = some (records, w') ∧
          (records.length : Int) = count ∧
          ∀ i, i < count.toNat →
            ids[i]? = (records[i]?).map (fun record => valueOf (record g.PrimaryKeyName)) := by
  have heq : g.Generate lib count emitter scope w =
      (oneCalls lib g emitter scope count.toNat w).map
        (fun r => (r.1.map (fun record => valueOf (record g.PrimaryKeyName)), r.2)) := by
    unfold Generator.Generate
    rw [if_neg (not_lt.mpr hcount)]
    have h := generateLoop_eq lib g emitter scope count.toNat [] w
    simpa using h
  refine ⟨heq, ?_⟩
  intro ids w' hg
  rw [heq] at hg
  cases hc : oneCalls lib g emitter scope count.toNat w with
  | none => simp [hc] at hg
  | some r =>
    obtain ⟨records, w1⟩ := r
    simp only [hc, Option.map_some', Option.some.injEq, Prod.mk.injEq] at hg
    obtain ⟨rfl, rfl⟩ := hg
    have hlen := oneCalls_length lib g emitter scope count.toNat w records w1 hc
    refine ⟨?_, records, rfl, ?_, ?_⟩
    · rw [List.length_map, hlen]; exact Int.toNat_of_nonneg hcount
    · rw [hlen]; exact Int.toNat_of_nonneg hcount
    · intro i _
      simp [List.getElem?_map]

/-- Two records of `person`: `Generate` returns the two primary keys, in the order of the
calls. -/
theorem Generate_calls_One_witness :
    (0 : Int) ≤ 2 ∧
    (person.Generate sampleLibrary 2 rootEmitter none freshWorld =
        (oneCalls sampleLibrary person rootEmitter none (2 : Int).toNat freshWorld).map
          (fun r => (r.1.map (fun record => valueOf (record person.PrimaryKeyName)), r.2)) ∧
      ∀ ids w', person.Generate sampleLibrary 2 rootEmitter none freshWorld = some (ids, w') →
        (ids.length : Int) = 2 ∧
        ∃ records, oneCalls sampleLibrary person rootEmitter none (2 : Int).toNat freshWorld
            = some (records, w') ∧
          (records.length : Int) = 2 ∧
          ∀ i, i < (2 : Int).toNat →
            ids[i]? = (records[i]?).map
              (fun record => valueOf (record person.PrimaryKeyName))) :=
  ⟨by decide, Generate_calls_One sampleLibrary person 2 rootEmitter none freshWorld (by decide)⟩

/-- The two primary keys that `Generate` returns for `person` from the fresh world. -/
theorem person_Generate :
    (person.Generate sampleLibrary 2 rootEmitter none freshWorld).map (fun r => r.1.length)
      = some 2 := by
  rfl

/-! ## The sink only grows -/

theorem Grows.refl (w : World) : Grows w w := ⟨[], by simp⟩

theorem Grows.trans {a b c : World} (h1 : Grows a b) (h2 : Grows b c) : Grows a c := by
  obtain ⟨l1, h1⟩ := h1
  obtain ⟨l2, h2⟩ := h2
  exact ⟨l1 ++ l2, by rw [h2, h1, List.append_assoc]⟩

theorem Grows.rng (w : World) (r : Nat) : Grows w { w with rng := r } := ⟨[], by simp⟩

theorem Grows.emit (em : Emitter) (record : EntityResult) (tag : String) (w : World) :
    Grows w (em.Emit record tag w) := ⟨[(record, tag)], rfl⟩

theorem repeatOne_grows (one : Value → Emitter → Scope → World → Option (Value × World))
    (h : RunnerGrows one) (n : Nat) (p : Value) (e : Emitter) (s : Scope) (w : World)
    (vs : List Value) (w' : World) (hr : repeatOne one n p e s w = some (vs, w')) :
    Grows w w' := by
  induction n generalizing w vs w' with
  | zero =>
    simp only [repeatOne, Option.some.injEq, Prod.mk.injEq] at hr
    rw [← hr.2]
    exact Grows.refl w
  | succ n ih =>
    simp only [repeatOne] at hr
    cases h1 : one p e s w with
    | none => simp [h1] at hr
    | some r1 =>
      obtain ⟨v1, w1⟩ := r1
      simp only [h1] at hr
      cases h2 : repeatOne one n p e s w1 with
      | none => simp [h2] at hr
      | some r2 =>
        obtain ⟨vs2, w2⟩ := r2
        simp only [h2, Option.some.injEq, Prod.mk.injEq] at hr
        rw [← hr.2]
        exact Grows.trans (h _ _ _ _ _ _ h1) (ih _ _ _ h2)

theorem leaf_grows (x : Value × Nat) (w : World) (v : Value) (w' : World)
    (h : some (x.1, { w with rng := x.2 }) = some (v, w')) : Grows w w' := by
  simp only [Option.some.injEq, Prod.mk.injEq] at h
  rw [← h.2]
  exact Grows.rng w _

theorem lookupGenerate_grows (lib : Library) (fs : FieldSet)
    (hfs : ∀ k f, (k, f) ∈ fs → RunnerGrows (f.GenerateValue lib)) (k : String) :
    RunnerGrows (lookupGenerate lib fs k) := by
  intro p e s w v w' h
  rw [lookupGenerate_eq] at h
  cases hg : FieldSet.get fs k with
  | none => simp [hg] at h
  | some f =>
    simp only [hg] at h
    exact hfs k f (FieldSet.get_some_mem fs k f hg) _ _ _ _ _ _ h

theorem nonDeferredFields_grows (lib : Library) (fs : FieldSet)
    (hfs : ∀ k f, (k, f) ∈ fs → RunnerGrows (f.GenerateValue lib))
    (idKey : String) (id : Value) (em : Emitter) (scope : Option Scope) (e : EntityResult)
    (w : World) (e' : EntityResult) (w' : World)
    (h : nonDeferredFields lib fs idKey id em scope e w = some (e', w')) : Grows w w' := by
  induction fs generalizing e w with
  | nil =>
    rw [nonDeferredFields_nil] at h
    simp only [Option.some.injEq, Prod.mk.injEq] at h
    rw [← h.2]; exact Grows.refl w
  | cons hd rest ih =>
    obtain ⟨name, field⟩ := hd
    have hrest : ∀ k f, (k, f) ∈ rest → RunnerGrows (f.GenerateValue lib) :=
      fun k f hf => hfs k f (List.mem_cons_of_mem _ hf)
    rw [nonDeferredFields_cons] at h
    split at h
    · exact ih hrest e w h
    · cases hg : field.GenerateValue lib id (em.NextEmitter e name (field.MultiValue lib))
          (TransientScope scope e) w with
      | none => simp [hg] at h
      | some r =>
        obtain ⟨v1, w1⟩ := r
        simp only [hg] at h
        exact Grows.trans (hfs name field (List.mem_cons_self _ _) _ _ _ _ _ _ hg)
          (ih hrest _ w1 h)

theorem deferredFields_grows (lib : Library) (fs : FieldSet)
    (hfs : ∀ k f, (k, f) ∈ fs → RunnerGrows (f.GenerateValue lib))
    (id : Value) (em : Emitter) (scope : Option Scope) (e : EntityResult)
    (w : World) (e' : EntityResult) (w' : World)
    (h : deferredFields lib fs id em scope e w = some (e', w')) : Grows w w' := by
  induction fs generalizing e w with
  | nil =>
    rw [deferredFields_nil] at h
    simp only [Option.some.injEq, Prod.mk.injEq] at h
    rw [← h.2]; exact Grows.refl w
  | cons hd rest ih =>
    obtain ⟨name, field⟩ := hd
    have hrest : ∀ k f, (k, f) ∈ rest → RunnerGrows (f.GenerateValue lib) :=
      fun k f hf => hfs k f (List.mem_cons_of_mem _ hf)
    rw [deferredFields_cons] at h
    split at h
    · cases hg : field.GenerateValue lib id (em.NextEmitter e name (field.MultiValue lib))
          (TransientScope scope e) w with
      | none => simp [hg] at h
      | some r =>
        obtain ⟨v1, w1⟩ := r
        simp only [hg] at h
        exact Grows.trans (hfs name field (List.mem_cons_self _ _) _ _ _ _ _ _ hg)
          (ih hrest _ w1 h)
    · exact ih hrest e w h

/-- A call of `One` delivers its record last: the sink holds what it held, then the records of
the sub-entities, then the record of the call under the type of the generator. -/
theorem One_emits_last (lib : Library) (g : Generator)
    (hfs : ∀ k f, (k, f) ∈ g.fields → RunnerGrows (f.GenerateValue lib))
    (parentId : Value) (em : Emitter) (scope : Option Scope) (w : World) (record : EntityResult)
    (w' : World) (h : g.One lib parentId em scope w = some (record, w')) :
    ∃ l, w'.emitted = w.emitted ++ l ++ [(record, g.Type)] := by
  obtain ⟨f, id, w1, e1, w2, w3, hf, hid, hp1, hp2, hw⟩ :=
    One_inv lib g parentId em scope w record w' h
  have h1 : Grows w w1 := hfs _ f (FieldSet.get_some_mem _ _ _ hf) _ _ _ _ _ _ hid
  have h2 : Grows w1 w2 := nonDeferredFields_grows lib g.fields hfs _ _ _ _ _ _ _ _ hp1
  have h3 : Grows w2 w3 := deferredFields_grows lib g.fields hfs _ _ _ _ _ _ _ hp2
  obtain ⟨l, hl⟩ := Grows.trans h1 (Grows.trans h2 h3)
  refine ⟨l, ?_⟩
  rw [hw]
  simp only [Emitter.Emit, hl]

theorem Generator_grows (lib : Library) (g : Generator) :
    (∀ k f, (k, f) ∈ g.fields → RunnerGrows (f.GenerateValue lib)) := by
  refine @Generator.rec
    (fun ft => RunnerGrows (FieldType.One lib ft))
    (fun f => RunnerGrows (f.GenerateValue lib))
    (fun g => ∀ k f, (k, f) ∈ g.fields → RunnerGrows (f.GenerateValue lib))
    (fun bins => ∀ idx, RunnerGrows (binGenerate lib bins idx))
    (fun fs => ∀ k f, (k, f) ∈ fs → RunnerGrows (f.GenerateValue lib))
    (fun x => RunnerGrows (x.2.GenerateValue lib))
    ?_ ?_ ?_ ?_ ?_ ?_ ?_ ?_ ?_ ?_ ?_ ?_ ?_ ?_ ?_ ?_ ?_ ?_ ?_ ?_ ?_ g
  · intro length p e s w v w' h
    rw [FieldType.One] at h
    exact leaf_grows _ w v w' h
  · intro min max p e s w v w' h
    rw [FieldType.One] at h
    exact leaf_grows _ w v w' h
  · intro min max p e s w v w' h
    rw [FieldType.One] at h
    exact leaf_grows _ w v w' h
  · intro min max format p e s w v w' h
    rw [FieldType.One] at h
    exact leaf_grows _ w v w' h
  · intro p e s w v w' h
    rw [FieldType.One] at h
    exact leaf_grows _ w v w' h
  · intro category p e s w v w' h
    rw [FieldType.One] at h
    exact leaf_grows _ w v w' h
  · intro values size p e s w v w' h
    rw [FieldType.One] at h
    exact leaf_grows _ w v w' h
  · intro p e s w v w' h
    rw [FieldType.One] at h
    exact leaf_grows _ w v w' h
  · intro counter p e s w v w' h
    rw [FieldType.One] at h
    simp only [Option.some.injEq, Prod.mk.injEq] at h
    rw [← h.2]
    exact ⟨[], by simp⟩
  · intro value p e s w v w' h
    rw [FieldType.One] at h
    simp only [Option.some.injEq, Prod.mk.injEq] at h
    rw [← h.2]
    exact Grows.refl w
  · intro child ih p e s w v w' h
    rw [FieldType.One] at h
    cases h1 : child.One lib p e (some s) w with
    | none => simp [h1] at h
    | some r =>
      obtain ⟨record, w1⟩ := r
      simp only [h1, Option.some.injEq, Prod.mk.injEq] at h
      rw [← h.2]
      obtain ⟨l, hl⟩ := One_emits_last lib child ih p e (some s) w record w1 h1
      exact ⟨l ++ [(record, child.Type)], by rw [hl, List.append_assoc]⟩
  · intro referred fieldName ih p e s w v w' h
    rw [FieldType.One] at h
    cases referred with
    | mk n x d fs dm pk =>
      rw [referredGenerate] at h
      exact lookupGenerate_grows lib fs ih fieldName p e s w v w' h
  · intro closure p e s w v w' h
    rw [FieldType.One] at h
    cases h1 : closure s with
    | none => simp [h1] at h
    | some x =>
      simp only [h1, Option.some.injEq, Prod.mk.injEq] at h
      rw [← h.2]
      exact Grows.refl w
  · intro bins dist ih p e s w v w' h
    rw [FieldType.One] at h
    exact Grows.trans (Grows.rng w _) (ih _ p e s _ v w' h)
  · intro ft count u ih p e s w v w' h
    cases count with
    | none =>
      rw [Field.GenerateValue] at h
      exact ih p e s w v w' h
    | some c =>
      rw [Field.GenerateValue] at h
      split at h
      · cases h1 : repeatOne (FieldType.One lib ft) (lib.count c w.rng).1 p e s
            { w with rng := (lib.count c w.rng).2 } with
        | none => simp [h1] at h
        | some r =>
          obtain ⟨vs, w1⟩ := r
          simp only [h1, Option.some.injEq, Prod.mk.injEq] at h
          rw [← h.2]
          exact Grows.trans (Grows.rng w _) (repeatOne_grows _ ih _ _ _ _ _ _ _ h1)
      · exact ih p e s w v w' h
  · intro n x d fs dm pk ih
    exact ih
  · intro idx p e s w v w' h
    rw [binGenerate] at h
    exact absurd h (by simp)
  · intro head tail ih1 ih2 idx p e s w v w' h
    cases idx with
    | zero =>
      rw [binGenerate] at h
      exact ih1 p e s w v w' h
    | succ i =>
      rw [binGenerate] at h
      exact ih2 i p e s w v w' h
  · intro k f hm
    simp at hm
  · intro head tail ih1 ih2 k f hm
    rcases List.mem_cons.mp hm with heq | hm'
    · rw [← heq] at ih1
      exact ih1
    · exact ih2 k f hm'
  · intro k f ih
    exact ih

/-- Generating a value only adds records to the sink. -/
theorem GenerateValue_grows (lib : Library) (f : Field) : RunnerGrows (f.GenerateValue lib) :=
  Generator_grows lib (Generator.mk "" "" "" [("", f)] false DEFAULT_PK_CONFIG) "" f
    (List.mem_singleton_self _)

/-- A call of `One` delivers its record last, after the records of its sub-entities. -/
theorem One_emitted (lib : Library) (g : Generator) (parentId : Value) (em : Emitter)
    (scope : Option Scope) (w : World) (record : EntityResult) (w' : World)
    (h : g.One lib parentId em scope w = some (record, w')) :
    ∃ l, w'.emitted = w.emitted ++ l ++ [(record, g.Type)] :=
  One_emits_last lib g (fun _ f _ => GenerateValue_grows lib f) parentId em scope w record w' h

/-- The first loop stores, under the name of a field that is not deferred, is not the primary
key and has no entry yet, the value that the field produces when the loop reaches it. -/
theorem nonDeferredFields_value (lib : Library) (fs : FieldSet) (idKey : String) (id : Value)
    (em : Emitter) (scope : Option Scope) (e : EntityResult) (w : World) (e' : EntityResult)
    (w' : World) (h : nonDeferredFields lib fs idKey id em scope e w = some (e', w'))
    (k : String) (f : Field) (hget : FieldSet.get fs k = some f) (hd : f.isDeferred = false)
    (hk : k ≠ idKey) (hek : e k = none) :
    ∃ e₁ w₁ v w₂,
      f.GenerateValue lib id (em.NextEmitter e₁ k (f.MultiValue lib)) (TransientScope scope e₁) w₁
        = some (v, w₂) ∧
      e' k = some v ∧ (∀ j x, e j = some x → e₁ j = some x) ∧ Grows w w₁ ∧ Grows w₂ w' := by
  induction fs generalizing e w with
  | nil => simp [FieldSet.get] at hget
  | cons hd0 rest ih =>
    obtain ⟨name, field⟩ := hd0
    rw [nonDeferredFields_cons] at h
    by_cases hn : name = k
    · subst hn
      simp only [FieldSet.get, if_true, Option.some.injEq] at hget
      subst hget
      have hc : ¬ (field.isDeferred = true ∨ name = idKey) := by
        rintro (h1 | h1)
        · rw [hd] at h1; exact absurd h1 (by simp)
        · exact hk h1
      rw [if_neg hc] at h
      cases hg : field.GenerateValue lib id (em.NextEmitter e name (field.MultiValue lib))
          (TransientScope scope e) w with
      | none => simp [hg] at h
      | some r =>
        obtain ⟨v1, w1⟩ := r
        simp only [hg, hek, Option.isSome_none, Bool.false_eq_true, if_false] at h
        refine ⟨e, w, v1, w1, hg, ?_, fun _ _ hx => hx, Grows.refl w, ?_⟩
        · exact nonDeferredFields_keeps lib rest idKey id em scope _ w1 e' w' h name v1
            (by simp [EntityResult.set])
        · exact nonDeferredFields_grows lib rest (fun _ f _ => GenerateValue_grows lib f)
            _ _ _ _ _ _ _ _ h
    · simp only [FieldSet.get, hn, if_false] at hget
      split at h
      · exact ih e w h hget hek
      · cases hg : field.GenerateValue lib id (em.NextEmitter e name (field.MultiValue lib))
            (TransientScope scope e) w with
        | none => simp [hg] at h
        | some r =>
          obtain ⟨v1, w1⟩ := r
          simp only [hg] at h
          have hne : k ≠ name := fun x => hn x.symm
          have hek' : (if (e name).isSome then e else e.set name v1) k = none := by
            split
            · exact hek
            · simp [EntityResult.set, hne, hek]
          obtain ⟨e₁, w₁, v, w₂, ha, hb, hc, hd1, hd2⟩ := ih _ w1 h hget hek'
          refine ⟨e₁, w₁, v, w₂, ha, hb, ?_, ?_, hd2⟩
          · intro j x hx
            apply hc
            split
            · exact hx
            · rename_i hs
              have hjn : j ≠ name := by
                rintro rfl
                simp [hx] at hs
              simp [EntityResult.set, hjn, hx]
          · exact Grows.trans (GenerateValue_grows lib field _ _ _ _ _ _ hg) hd1

/-! ## Metadata -/

theorem GenerateValue_literal (lib : Library) (value : Value) (u : Bool) (p : Value)
    (e : Emitter) (s : Scope) (w : World) :
    (NewField (.LiteralType value) none u).GenerateValue lib p e s w = some (value, w) := by
  rw [NewField, Field.GenerateValue, FieldType.One]

theorem FieldSet.mem_set (fs : FieldSet) (k0 : String) (f0 : Field) (k : String) (f : Field)
    (h : (k, f) ∈ FieldSet.set fs k0 f0) : (k = k0 ∧ f = f0) ∨ (k, f) ∈ fs := by
  induction fs with
  | nil =>
    simp only [FieldSet.set, List.mem_singleton, Prod.mk.injEq] at h
    exact Or.inl h
  | cons hd rest ih =>
    obtain ⟨k1, f1⟩ := hd
    simp only [FieldSet.set] at h
    split at h
    · rename_i hk
      rcases List.mem_cons.mp h with heq | hm
      · simp only [Prod.mk.injEq] at heq
        exact Or.inl ⟨heq.1.trans hk, heq.2⟩
      · exact Or.inr (List.mem_cons_of_mem _ hm)
    · rcases List.mem_cons.mp h with heq | hm
      · exact Or.inr (by rw [heq]; exact List.mem_cons_self _ _)
      · rcases ih hm with h1 | h1
        · exact Or.inl h1
        · exact Or.inr (List.mem_cons_of_mem _ h1)

theorem inheritFields_mem (parent : Generator) (fs : FieldSet) (gen : Generator) (k : String)
    (f : Field) (h : (k, f) ∈ (inheritFields parent fs gen).fields) :
    (k, f) ∈ gen.fields ∨ ∃ c, f = NewField (.ReferenceType parent k) c false := by
  induction fs generalizing gen with
  | nil => exact Or.inl h
  | cons hd rest ih =>
    obtain ⟨key, f0⟩ := hd
    simp only [inheritFields] at h
    split at h
    · rcases ih _ h with h1 | h1
      · rw [Generator.fields_setField] at h1
        rcases FieldSet.mem_set _ _ _ _ _ h1 with ⟨hk, hf⟩ | h2
        · exact Or.inr ⟨f0.count, by rw [hf, hk]⟩
        · exact Or.inl h2
      · exact Or.inr h1
    · exact ih _ h

theorem idField_isDeferred (pk : PrimaryKey) : pk.idField.isDeferred = false := by
  unfold PrimaryKey.idField
  split <;> rfl

theorem newFields_isDeferred (name : String) (pk : PrimaryKey) (dm : Bool) (k : String)
    (f : Field) (h : (k, f) ∈ newFields name pk dm) : f.isDeferred = false := by
  unfold newFields at h
  rcases FieldSet.mem_set _ _ _ _ _ h with ⟨_, hf⟩ | h1
  · rw [hf]; exact idField_isDeferred pk
  · cases dm
    · simp only [Bool.false_eq_true, if_false, List.mem_singleton, Prod.mk.injEq] at h1
      rw [h1.2]; rfl
    · simp at h1

theorem extendedFields_isDeferred (name : String) (parent : Generator) (pk : PrimaryKey)
    (dm : Bool) (k : String) (f : Field) (h : (k, f) ∈ extendedFields name parent pk dm) :
    f.isDeferred = false := by
  unfold extendedFields at h
  cases dm
  · simp only [Bool.false_eq_true, if_false] at h
    rcases FieldSet.mem_set _ _ _ _ _ h with ⟨_, hf⟩ | h1
    · rw [hf]; rfl
    · rcases FieldSet.mem_set _ _ _ _ _ h1 with ⟨_, hf⟩ | h2
      · rw [hf]; rfl
      · exact newFields_isDeferred name pk false k f h2
  · simp only [if_true] at h
    exact newFields_isDeferred name pk true k f h

/-- No field of a generator that `ExtendGenerator` returns is deferred. -/
theorem ExtendGenerator_isDeferred (name : String) (parent : Generator)
    (pkey : Option PrimaryKey) (dm : Bool) (k : String) (f : Field)
    (h : (k, f) ∈ (ExtendGenerator name parent pkey dm).fields) : f.isDeferred = false := by
  rw [ExtendGenerator_shape] at h
  rcases inheritFields_mem parent parent.fields _ k f h with h1 | ⟨c, hc⟩
  · exact extendedFields_isDeferred name parent _ dm k f h1
  · rw [hc]; rfl

/-- A record holds the value of a literal field under the name of the field, when no field of
that name is deferred and the name is not `$parent`. -/
theorem One_literal (lib : Library) (g : Generator) (k : String) (value : Value) (u : Bool)
    (hget : FieldSet.get g.fields k = some (NewField (.LiteralType value) none u))
    (hnd : ∀ f, (k, f) ∈ g.fields → f.isDeferred = false) (hk : k ≠ "$parent")
    (parentId : Value) (em : Emitter) (scope : Option Scope) (w : World) (record : EntityResult)
    (w' : World) (h : g.One lib parentId em scope w = some (record, w')) :
    record k = some value := by
  obtain ⟨f, id, w1, e1, w2, w3, hf, hid, hp1, hp2, _⟩ :=
    One_inv lib g parentId em scope w record w' h
  rw [deferredFields_frame lib g.fields id em scope e1 w2 record w3 hp2 k hnd]
  by_cases hpk : k = g.PrimaryKeyName
  · rw [← hpk, hget] at hf
    simp only [Option.some.injEq] at hf
    rw [← hf, GenerateValue_literal] at hid
    simp only [Option.some.injEq, Prod.mk.injEq] at hid
    have hi : initialEntity g.PrimaryKeyName id parentId k = some value := by
      rw [hpk, ← hid.1]
      exact initialEntity_id _ _ _ (hpk ▸ hk)
    exact nonDeferredFields_keeps lib g.fields g.PrimaryKeyName id em scope _ w1 e1 w2 hp1 k
      value hi
  · have hi : initialEntity g.PrimaryKeyName id parentId k = none := by
      have h1 : ¬ k = g.PrimaryKeyName := hpk
      unfold initialEntity
      split <;> simp [EntityResult.set, EntityResult.empty, h1, hk]
    obtain ⟨e₁, w₁, v, w₂, ha, hb, _⟩ := nonDeferredFields_value lib g.fields g.PrimaryKeyName
      id em scope _ w1 e1 w2 hp1 k _ hget rfl hpk hi
    rw [GenerateValue_literal] at ha
    simp only [Option.some.injEq, Prod.mk.injEq] at ha
    rw [hb, ha.1]

theorem NewGenerator_pkey (name : String) (pkey : Option PrimaryKey) (dm : Bool) :
    (NewGenerator name pkey dm).pkey = attachedKey pkey := by
  rw [NewGenerator_shape]; rfl

theorem NewGenerator_fields (name : String) (pkey : Option PrimaryKey) (dm : Bool) :
    (NewGenerator name pkey dm).fields = newFields name (attachedKey pkey) dm := by
  rw [NewGenerator_shape]; rfl

theorem FieldSet.keys_set (fs : FieldSet) (k : String) (f : Field) :
    (FieldSet.set fs k f).map Prod.fst =
      if k ∈ fs.map Prod.fst then fs.map Prod.fst else fs.map Prod.fst ++ [k] := by
  induction fs with
  | nil => simp [FieldSet.set]
  | cons hd rest ih =>
    obtain ⟨k0, f0⟩ := hd
    by_cases h : k0 = k
    · simp [FieldSet.set, h]
    · have h2 : ¬ k = k0 := fun e => h e.symm
      simp only [FieldSet.set, h, if_false, List.map_cons, ih, List.mem_cons, h2, false_or]
      split <;> simp

/-- Writing an entry keeps a field set a map. -/
theorem FieldSet.isMap_set (fs : FieldSet) (h : FieldSet.isMap fs) (k : String) (f : Field) :
    FieldSet.isMap (FieldSet.set fs k f) := by
  unfold FieldSet.isMap at h ⊢
  rw [FieldSet.keys_set]
  split
  · exact h
  · rename_i hk
    rw [List.nodup_append]
    refine ⟨h, List.nodup_singleton k, ?_⟩
    intro a ha hb
    rw [List.mem_singleton] at hb
    exact hk (hb ▸ ha)

theorem inheritFields_isMap (parent : Generator) (fs : FieldSet) (gen : Generator)
    (h : FieldSet.isMap gen.fields) : FieldSet.isMap (inheritFields parent fs gen).fields := by
  induction fs generalizing gen with
  | nil => exact h
  | cons hd rest ih =>
    obtain ⟨key, f⟩ := hd
    simp only [inheritFields]
    split
    · apply ih
      rw [Generator.fields_setField]
      exact FieldSet.isMap_set _ h _ _
    · exact ih gen h

theorem newFields_isMap (name : String) (pk : PrimaryKey) (dm : Bool) :
    FieldSet.isMap (newFields name pk dm) := by
  unfold newFields
  apply FieldSet.isMap_set
  cases dm <;> simp [FieldSet.isMap]

/-- The fields of a generator that `NewGenerator` returns are a map. -/
theorem NewGenerator_isMap (name : String) (pkey : Option PrimaryKey) (dm : Bool) :
    FieldSet.isMap (NewGenerator name pkey dm).fields := by
  rw [NewGenerator_fields]
  exact newFields_isMap _ _ _

/-- The fields of a generator that `ExtendGenerator` returns are a map. -/
theorem ExtendGenerator_isMap (name : String) (parent : Generator) (pkey : Option PrimaryKey)
    (dm : Bool) : FieldSet.isMap (ExtendGenerator name parent pkey dm).fields := by
  rw [ExtendGenerator_shape]
  apply inheritFields_isMap
  simp only [Generator.fields, extendedFields]
  cases dm
  · simp only [Bool.false_eq_true, if_false]
    exact FieldSet.isMap_set _ (FieldSet.isMap_set _ (newFields_isMap _ _ _) _ _) _ _
  · simp only [if_true]
    exact newFields_isMap _ _ _

/-- A literal field gives its value to the record whatever the order in which the field map
is visited. -/
theorem One_literal_sameMap (lib : Library) (g g' : Generator) (hmap : FieldSet.isMap g.fields)
    (hsame : g.sameMap g') (k : String) (value : Value) (u : Bool)
    (hget : FieldSet.get g.fields k = some (NewField (.LiteralType value) none u))
    (hnd : ∀ f, (k, f) ∈ g.fields → f.isDeferred = false) (hk : k ≠ "$parent")
    (parentId : Value) (em : Emitter) (scope : Option Scope) (w : World) (record : EntityResult)
    (w' : World) (h : g'.One lib parentId em scope w = some (record, w')) :
    record k = some value := by
  obtain ⟨_, _, _, _, _, hperm⟩ := hsame
  refine One_literal lib g' k value u ?_ ?_ hk parentId em scope w record w' h
  · rw [FieldSet.get_perm g.fields g'.fields hmap hperm]
    exact hget
  · intro f hf
    exact hnd f (hperm.mem_iff.mpr hf)

/-- Where the metadata fields are left by the constructors.  With metadata enabled,
`NewGenerator` leaves a literal field `$type` that holds the declared type of the generator
provided its primary key is not named `$type`, and then every record that `One` returns for
that generator, in whatever order its field map is visited, has `$type` equal to the declared
type.  With metadata enabled, `ExtendGenerator` leaves a literal `$type` that holds the
(recomputed) declared type of the child and a literal `$extends` that holds the declared type
of the parent, and every record that `One` returns for the child, in whatever order its field
map is visited, has `$type` and `$extends` equal to them.  With metadata disabled, neither
constructor leaves an entry `$type` or `$extends`, except the primary-key field when the
primary key bears that name. -/
theorem metadata_fields (lib : Library) (name : String) (parent : Generator)
    (pkey : Option PrimaryKey) :
    ((NewGenerator name pkey false).PrimaryKeyName ≠ "$type" →
      FieldSet.get (NewGenerator name pkey false).fields "$type" =
        some (NewField (.LiteralType (.str (NewGenerator name pkey false).Type)) none false) ∧
      ∀ g parentId emitter scope w record w', (NewGenerator name pkey false).sameMap g →
        g.One lib parentId emitter scope w = some (record, w') →
        record "$type" = some (Value.str (NewGenerator name pkey false).Type)) ∧
    (FieldSet.get (ExtendGenerator name parent pkey false).fields "$type" =
        some (NewField (.LiteralType (.str (ExtendGenerator name parent pkey false).Type))
          none false) ∧
      FieldSet.get (ExtendGenerator name parent pkey false).fields "$extends" =
        some (NewField (.LiteralType (.str parent.Type)) none false) ∧
      ∀ g parentId emitter scope w record w',
        (ExtendGenerator name parent pkey false).sameMap g →
        g.One lib parentId emitter scope w = some (record, w') →
        record "$type" = some (Value.str (ExtendGenerator name parent pkey false).Type) ∧
        record "$extends" = some (Value.str parent.Type)) ∧
    (∀ k, k = "$type" ∨ k = "$extends" →
      (k ≠ (NewGenerator name pkey true).PrimaryKeyName →
        FieldSet.get (NewGenerator name pkey true).fields k = none) ∧
      (k ≠ (ExtendGenerator name parent pkey true).PrimaryKeyName →
        FieldSet.get (ExtendGenerator name parent pkey true).fields k = none)) := by
  have hx1 : ¬ ("$extends" = "$type") := by decide
  have hx2 : "$type" ≠ "$parent" := by decide
  have hx3 : "$extends" ≠ "$parent" := by decide
  refine ⟨?_, ?_, ?_⟩
  · intro hpk
    have hpk' : ¬ "$type" = (attachedKey pkey).name := by
      intro h
      apply hpk
      rw [Generator.PrimaryKeyName, NewGenerator_pkey]
      exact h.symm
    have hget : FieldSet.get (NewGenerator name pkey false).fields "$type" =
        some (NewField (.LiteralType (.str (NewGenerator name pkey false).Type)) none false) := by
      rw [NewGenerator_fields, newFields_get, NewGenerator_Type]
      simp [hpk', metadataField]
    refine ⟨hget, ?_⟩
    intro g parentId emitter scope w record w' hsame hone
    refine One_literal_sameMap lib _ g (NewGenerator_isMap _ _ _) hsame "$type" _ false hget ?_
      hx2 parentId emitter scope w record w' hone
    intro f hf
    rw [NewGenerator_fields] at hf
    exact newFields_isDeferred _ _ _ _ f hf
  · have hget1 : FieldSet.get (ExtendGenerator name parent pkey false).fields "$type" =
        some (NewField (.LiteralType (.str (ExtendGenerator name parent pkey false).Type))
          none false) := by
      rw [ExtendGenerator_get, extendedFields_get, ExtendGenerator_Type]
      simp [metadataField]
    have hget2 : FieldSet.get (ExtendGenerator name parent pkey false).fields "$extends" =
        some (NewField (.LiteralType (.str parent.Type)) none false) := by
      rw [ExtendGenerator_get, extendedFields_get]
      simp [metadataField, hx1]
    refine ⟨hget1, hget2, ?_⟩
    intro g parentId emitter scope w record w' hsame hone
    exact ⟨One_literal_sameMap lib _ g (ExtendGenerator_isMap _ _ _ _) hsame "$type" _ false
        hget1 (fun f hf => ExtendGenerator_isDeferred _ _ _ _ _ f hf) hx2 parentId emitter
        scope w record w' hone,
      One_literal_sameMap lib _ g (ExtendGenerator_isMap _ _ _ _) hsame "$extends" _ false
        hget2 (fun f hf => ExtendGenerator_isDeferred _ _ _ _ _ f hf) hx3 parentId emitter
        scope w record w' hone⟩
  · intro k hk
    constructor
    · intro hne
      rw [Generator.PrimaryKeyName, NewGenerator_pkey] at hne
      rw [NewGenerator_fields, newFields_get]
      simp [hne]
    · intro hne
      rw [Generator.PrimaryKeyName, ExtendGenerator_pkey] at hne
      rw [ExtendGenerator_get, extendedFields_get]
      have hpre : strings.HasPrefix k "$" = true := by
        rcases hk with rfl | rfl
        · exact hasPrefix_type
        · exact hasPrefix_extends
      simp only [Bool.true_eq_false, false_and, if_false, hne]
      simp only [inherited]
      cases FieldSet.get parent.fields k with
      | none => rfl
      | some pf => simp [hpre]

/-- The metadata of the generator `Cat` with the default primary key. -/
theorem metadata_fields_witness :
    (NewGenerator "Cat" none false).PrimaryKeyName ≠ "$type" ∧
    (FieldSet.get (NewGenerator "Cat" none false).fields "$type" =
        some (NewField (.LiteralType (.str (NewGenerator "Cat" none false).Type)) none false) ∧
      ∀ g parentId emitter scope w record w', (NewGenerator "Cat" none false).sameMap g →
        g.One sampleLibrary parentId emitter scope w = some (record, w') →
        record "$type" = some (Value.str (NewGenerator "Cat" none false).Type)) :=
  ⟨by decide, (metadata_fields sampleLibrary "Cat" person none).1 (by decide)⟩

/-! ## Sub-entities -/

theorem Value.eq_nil_of_isNil (v : Value) (h : v.isNil = true) : v = Value.nil := by
  cases v <;> simp [Value.isNil] at h ⊢

/-- The record of a generator that defines no field named `$parent` has the parent id under
`$parent`: the entry is missing exactly for the nil parent id. -/
theorem One_parent_value (lib : Library) (g : Generator) (hparent : g.HasField "$parent" = false)
    (parentId : Value) (em : Emitter) (scope : Option Scope) (w : World) (record : EntityResult)
    (w' : World) (h : g.One lib parentId em scope w = some (record, w')) :
    valueOf (record "$parent") = parentId := by
  obtain ⟨f, id, w1, e1, w2, w3, hf, hid, hp1, hp2, _⟩ :=
    One_inv lib g parentId em scope w record w' h
  have hnone : FieldSet.get g.fields "$parent" = none := by
    cases hg : FieldSet.get g.fields "$parent" with
    | none => rfl
    | some x => simp [Generator.HasField, hg] at hparent
  have hpk : g.PrimaryKeyName ≠ "$parent" := by
    intro heq
    rw [heq, hnone] at hf
    exact absurd hf (by simp)
  have hnomem : ∀ f', ("$parent", f') ∉ g.fields := FieldSet.get_none_not_mem _ _ hnone
  rw [deferredFields_frame lib g.fields id em scope e1 w2 record w3 hp2 "$parent"
      (fun f' hf' => absurd hf' (hnomem f')),
    nonDeferredFields_frame lib g.fields g.PrimaryKeyName id em scope _ w1 e1 w2 hp1
      "$parent" (fun f' hf' => absurd hf' (hnomem f'))]
  cases hn : parentId.isNil with
  | true =>
    rw [(initialEntity_parent _ id parentId hpk).2 hn, Value.eq_nil_of_isNil parentId hn]
    rfl
  | false =>
    rw [(initialEntity_parent _ id parentId hpk).1 hn]
    rfl

theorem GenerateValue_entity (lib : Library) (child : Generator) (u : Bool) (p : Value)
    (e : Emitter) (s : Scope) (w : World) :
    (NewField (.EntityType child) none u).GenerateValue lib p e s w =
      match child.One lib p e (some s) w with
      | none => none
      | some (record, w1) => some (valueOf (record child.PrimaryKeyName), w1) := by
  rw [NewField, Field.GenerateValue, FieldType.One]

/-- C8 fails on the code for a child generator that defines a deferred field named
`$parent`: the owner has the id 0 and calls `One` of the pet with that parent id, `One` of the
pet sets `$parent` to 0, and its second loop assigns the deferred field over it, so the
record of the pet, emitted first, has `$parent` equal to "x".  The first loop leaves an entry
that is already set: for a child whose field `$parent` is a literal, the record of the pet has
`$parent` equal to the id 0 of the owner. -/
theorem One_parent_overwritten :
    (FieldSet.get strayPet.fields "$parent").map Field.isDeferred = some true ∧
    (strayOwner.One sampleLibrary Value.nil rootEmitter none freshWorld).map
      (fun r => (r.1 "$id", r.2.emitted.map (fun x => (x.1 "$parent", x.2)))) =
      some (some (Value.int 0), [(some (Value.str "x"), "Pet"), (none, "Owner")]) ∧
    Value.str "x" ≠ Value.int 0 ∧
    (FieldSet.get guardedPet.fields "$parent").map Field.isDeferred = some false ∧
    (guardedOwner.One sampleLibrary Value.nil rootEmitter none freshWorld).map
      (fun r => (r.1 "$id", r.2.emitted.map (fun x => (x.1 "$parent", x.2)))) =
      some (some (Value.int 0), [(some (Value.int 0), "Pet"), (none, "Owner")]) := by
  refine ⟨by rfl, by rfl, by simp, by rfl, by rfl⟩

/-- Sub-entity linkage and emission order.  Let a containing generator (a
field map with no field named `$parent`) have a single-valued Entity field that is not its
primary-key field, and let `One` return a record for it.  Then the first loop calls `One` of
the child generator with the parent id `id`, the primary-key value that the containing call
generated first and that the record under construction `e₁` already holds; the record of the
child is emitted before the record of the containing call, which is emitted last; the entry of
the Entity field in the containing record is the primary-key value of the child record; and,
provided the child generator defines no field named `$parent`, the child record has `$parent`
equal to `id`. -/
theorem One_entity_field (lib : Library) (g child : Generator) (name : String) (u : Bool)
    (parentId : Value) (emitter : Emitter) (scope : Option Scope) (w : World)
    (record : EntityResult) (w' : World)
    (hmap : FieldSet.isMap g.fields)
    (hfield : (name, NewField (.EntityType child) none u) ∈ g.fields)
    (hname : name ≠ g.PrimaryKeyName)
    (hparent : g.HasField "$parent" = false)
    (hchild : child.HasField "$parent" = false)
    (hone : g.One lib parentId emitter scope w = some (record, w')) :
    ∃ f id w₀ e₁ w₁ childRecord w₂ before between,
      FieldSet.get g.fields g.PrimaryKeyName = some f ∧
      f.GenerateValue lib Value.nil emitter (TransientScope scope EntityResult.empty) w
        = some (id, w₀) ∧
      e₁ g.PrimaryKeyName = some id ∧
      child.One lib id (emitter.NextEmitter e₁ name false) (some (TransientScope scope e₁)) w₁
        = some (childRecord, w₂) ∧
      valueOf (childRecord "$parent") = id ∧
      record name = some (valueOf (childRecord child.PrimaryKeyName)) ∧
      w'.emitted = before ++ [(childRecord, child.Type)] ++ between ++ [(record, g.Type)] := by
  obtain ⟨f, id, w1, e1, w2, w3, hf, hid, hp1, hp2, hw⟩ :=
    One_inv lib g parentId emitter scope w record w' hone
  have hnone : FieldSet.get g.fields "$parent" = none := by
    cases hg : FieldSet.get g.fields "$parent" with
    | none => rfl
    | some x => simp [Generator.HasField, hg] at hparent
  have hpk : g.PrimaryKeyName ≠ "$parent" := by
    intro heq
    rw [heq, hnone] at hf
    exact absurd hf (by simp)
  have hnp : name ≠ "$parent" := by
    rintro rfl
    exact FieldSet.get_none_not_mem _ _ hnone _ hfield
  have hget := FieldSet.isMap_get_of_mem g.fields hmap _ _ hfield
  have hi : initialEntity g.PrimaryKeyName id parentId name = none := by
    unfold initialEntity
    split <;> simp [EntityResult.set, EntityResult.empty, hname, hnp]
  obtain ⟨e₁, w₁, v, w₂, ha, hb, hc, hd1, hd2⟩ := nonDeferredFields_value lib g.fields
    g.PrimaryKeyName id emitter scope _ w1 e1 w2 hp1 name _ hget rfl hname hi
  rw [GenerateValue_entity] at ha
  have hmv : (NewField (.EntityType child) none u).MultiValue lib = false := rfl
  rw [hmv] at ha
  cases hch : child.One lib id (emitter.NextEmitter e₁ name false)
      (some (TransientScope scope e₁)) w₁ with
  | none => simp [hch] at ha
  | some r =>
    obtain ⟨childRecord, wc⟩ := r
    simp only [hch, Option.some.injEq, Prod.mk.injEq] at ha
    obtain ⟨hv, hwc⟩ := ha
    subst hwc
    obtain ⟨l, hl⟩ := One_emitted lib child id _ _ w₁ childRecord wc hch
    obtain ⟨l2, hl2⟩ := hd2
    obtain ⟨l3, hl3⟩ := deferredFields_grows lib g.fields
      (fun _ f _ => GenerateValue_grows lib f) _ _ _ _ _ _ _ hp2
    refine ⟨f, id, w1, e₁, w₁, childRecord, wc, w₁.emitted ++ l, l2 ++ l3, hf, hid, ?_, hch,
      ?_, ?_, ?_⟩
    · exact hc _ _ (initialEntity_id _ _ _ hpk)
    · exact One_parent_value lib child hchild id _ _ w₁ childRecord wc hch
    · rw [deferredFields_frame lib g.fields id emitter scope e1 w2 record w3 hp2 name, hb, hv]
      intro f' hf'
      have := FieldSet.isMap_get_of_mem g.fields hmap _ _ hf'
      rw [hget] at this
      simp only [Option.some.injEq] at this
      rw [← this]; rfl
    · rw [hw]
      simp only [Emitter.Emit, hl3, hl2, hl, List.append_assoc]

/-- The owner and its pet: the record of the pet is emitted before the record of the owner,
with the id of the owner under `$parent`. -/
theorem One_entity_field_witness :
    (FieldSet.isMap owner.fields ∧
      ("pet", NewField (.EntityType pet) none false) ∈ owner.fields ∧
      "pet" ≠ owner.PrimaryKeyName ∧ owner.HasField "$parent" = false ∧
      pet.HasField "$parent" = false ∧
      owner.One sampleLibrary Value.nil rootEmitter none freshWorld
        = some (ownerRun.1, ownerRun.2)) ∧
    ∃ f id w₀ e₁ w₁ childRecord w₂ before between,
      FieldSet.get owner.fields owner.PrimaryKeyName = some f ∧
      f.GenerateValue sampleLibrary Value.nil rootEmitter
        (TransientScope none EntityResult.empty) freshWorld = some (id, w₀) ∧
      e₁ owner.PrimaryKeyName = some id ∧
      pet.One sampleLibrary id (rootEmitter.NextEmitter e₁ "pet" false)
        (some (TransientScope none e₁)) w₁ = some (childRecord, w₂) ∧
      valueOf (childRecord "$parent") = id ∧
      ownerRun.1 "pet" = some (valueOf (childRecord pet.PrimaryKeyName)) ∧
      ownerRun.2.emitted
        = before ++ [(childRecord, pet.Type)] ++ between ++ [(ownerRun.1, owner.Type)] :=
  ⟨⟨by decide, List.mem_cons_of_mem _ (List.mem_cons_of_mem _ (List.mem_cons_self _ _)),
      by decide, by decide, by decide, by rfl⟩,
    One_entity_field sampleLibrary owner pet "pet" false Value.nil rootEmitter none freshWorld
      ownerRun.1 ownerRun.2 (by decide)
      (List.mem_cons_of_mem _ (List.mem_cons_of_mem _ (List.mem_cons_self _ _)))
      (by decide) (by decide) (by decide) (by rfl)⟩

/-- The emissions of the owner and its pet, as the spec gives them: the pet first, with the id
of the owner as `$parent`; then the owner, with the id of the pet as `pet`. -/
theorem owner_emissions :
    (owner.One sampleLibrary Value.nil rootEmitter none freshWorld).map
      (fun r => r.2.emitted.map (fun x => (x.1 "$id", x.1 "$parent", x.1 "pet", x.2))) =
      some [(some (Value.int 1), some (Value.int 0), none, "Pet"),
        (some (Value.int 0), none, some (Value.int 1), "Owner")] := by
  rfl

/-! ## Serial primary keys -/

theorem GenerateValue_serial (lib : Library) (counter : Nat) (p : Value)
    (e : Emitter) (s : Scope) (w : World) :
    (NewField (.SerialType counter) none false).GenerateValue lib p e s w =
      some (Value.int (w.serial counter + 1),
        { w with serial := fun c => if c = counter then w.serial counter + 1 else w.serial c })
    := by
  rw [NewField, Field.GenerateValue, FieldType.One]

theorem idField_serial (pk : PrimaryKey) (h : pk.kind = "serial") :
    pk.idField = NewField (.SerialType pk.counter) none false := by
  unfold PrimaryKey.idField
  rw [if_pos h]

theorem nonDeferredFields_keepsCounter (lib : Library) (c : Nat) (fs : FieldSet)
    (idKey : String)
    (hfs : ∀ k f, (k, f) ∈ fs → k ≠ idKey → KeepsCounter lib c f)
    (id : Value) (em : Emitter) (scope : Option Scope) (e : EntityResult) (w : World) :
    ∃ e' w', nonDeferredFields lib fs idKey id em scope e w = some (e', w') ∧
      w'.serial c = w.serial c := by
  induction fs generalizing e w with
  | nil => exact ⟨e, w, nonDeferredFields_nil _ _ _ _ _ _ _, rfl⟩
  | cons hd rest ih =>
    obtain ⟨name, field⟩ := hd
    have hrest : ∀ k f, (k, f) ∈ rest → k ≠ idKey → KeepsCounter lib c f :=
      fun k f hf => hfs k f (List.mem_cons_of_mem _ hf)
    rw [nonDeferredFields_cons]
    split
    · exact ih hrest e w
    · rename_i hc
      have hk : name ≠ idKey := fun h => hc (Or.inr h)
      obtain ⟨v, w1, hg, hs⟩ := hfs name field (List.mem_cons_self _ _) hk id
        (em.NextEmitter e name (field.MultiValue lib)) (TransientScope scope e) w
      rw [hg]
      obtain ⟨e', w', h1, h2⟩ := ih hrest (if (e name).isSome then e else e.set name v) w1
      exact ⟨e', w', h1, h2.trans hs⟩

theorem deferredFields_keepsCounter (lib : Library) (c : Nat) (fs : FieldSet)
    (hfs : ∀ k f, (k, f) ∈ fs → f.isDeferred = true → KeepsCounter lib c f)
    (id : Value) (em : Emitter) (scope : Option Scope) (e : EntityResult) (w : World) :
    ∃ e' w', deferredFields lib fs id em scope e w = some (e', w') ∧
      w'.serial c = w.serial c := by
  induction fs generalizing e w with
  | nil => exact ⟨e, w, deferredFields_nil _ _ _ _ _ _, rfl⟩
  | cons hd rest ih =>
    obtain ⟨name, field⟩ := hd
    have hrest : ∀ k f, (k, f) ∈ rest → f.isDeferred = true → KeepsCounter lib c f :=
      fun k f hf => hfs k f (List.mem_cons_of_mem _ hf)
    rw [deferredFields_cons]
    split
    · rename_i hc
      obtain ⟨v, w1, hg, hs⟩ := hfs name field (List.mem_cons_self _ _) hc id
        (em.NextEmitter e name (field.MultiValue lib)) (TransientScope scope e) w
      rw [hg]
      obtain ⟨e', w', h1, h2⟩ := ih hrest (e.set name v) w1
      exact ⟨e', w', h1, h2.trans hs⟩
    · exact ih hrest e w

/-- One call of `One`, with a nil parent id, on a generator whose primary-key field is the
serial field of a counter that the other fields leave alone: the call returns, the record has
the next number as its primary key, and the counter has advanced by one. -/
theorem One_serial (lib : Library) (g : Generator) (c : Nat)
    (hid : FieldSet.get g.fields g.PrimaryKeyName = some (NewField (.SerialType c) none false))
    (hnd : ∀ f, (g.PrimaryKeyName, f) ∈ g.fields → f.isDeferred = false)
    (hothers : ∀ k f, (k, f) ∈ g.fields → k ≠ g.PrimaryKeyName → KeepsCounter lib c f)
    (em : Emitter) (scope : Option Scope) (w : World) :
    ∃ record w', g.One lib Value.nil em scope w = some (record, w') ∧
      record g.PrimaryKeyName = some (Value.int (w.serial c + 1)) ∧
      w'.serial c = w.serial c + 1 := by
  obtain ⟨e1, w1, h1, hs1⟩ := nonDeferredFields_keepsCounter lib c g.fields g.PrimaryKeyName
    hothers (Value.int (w.serial c + 1)) em scope
    (initialEntity g.PrimaryKeyName (Value.int (w.serial c + 1)) Value.nil)
    { w with serial := fun c' => if c' = c then w.serial c + 1 else w.serial c' }
  have hdef : ∀ k f, (k, f) ∈ g.fields → f.isDeferred = true → KeepsCounter lib c f := by
    intro k f hm hd
    apply hothers k f hm
    rintro rfl
    rw [hnd f hm] at hd
    exact absurd hd (by simp)
  obtain ⟨e2, w2, h2, hs2⟩ := deferredFields_keepsCounter lib c g.fields hdef
    (Value.int (w.serial c + 1)) em scope e1 w1
  refine ⟨e2, em.Emit e2 g.Type w2, ?_, ?_, ?_⟩
  · rw [One_eq, lookupGenerate_eq, hid]
    simp only [GenerateValue_serial, h1, h2]
  · rw [deferredFields_frame lib g.fields _ em scope e1 w1 e2 w2 h2 g.PrimaryKeyName hnd]
    apply nonDeferredFields_keeps lib g.fields g.PrimaryKeyName _ em scope _ _ e1 w1 h1
    simp [initialEntity, Value.isNil, EntityResult.set]
  · simp only [Emitter.Emit]
    rw [hs2, hs1]
    simp

theorem oneCalls_serial (lib : Library) (g : Generator) (c : Nat)
    (hid : FieldSet.get g.fields g.PrimaryKeyName = some (NewField (.SerialType c) none false))
    (hnd : ∀ f, (g.PrimaryKeyName, f) ∈ g.fields → f.isDeferred = false)
    (hothers : ∀ k f, (k, f) ∈ g.fields → k ≠ g.PrimaryKeyName → KeepsCounter lib c f)
    (em : Emitter) (scope : Option Scope) (n : Nat) (w : World) :
    ∃ records w', oneCalls lib g em scope n w = some (records, w') ∧
      records.map (fun record => valueOf (record g.PrimaryKeyName)) =
        (List.range n).map (fun (i : Nat) => Value.int (w.serial c + (i : Int) + 1)) ∧
      w'.serial c = w.serial c + n := by
  induction n generalizing w with
  | zero => exact ⟨[], w, rfl, rfl, by simp⟩
  | succ n ih =>
    obtain ⟨record, w1, h1, hr, hs⟩ := One_serial lib g c hid hnd hothers em scope w
    obtain ⟨records, w2, h2, hrs, hs2⟩ := ih w1
    refine ⟨record :: records, w2, ?_, ?_, ?_⟩
    · simp only [oneCalls, h1, h2]
    · rw [List.map_cons, hrs, hr, List.range_succ_eq_map, List.map_cons, List.map_map]
      simp only [valueOf, Nat.cast_zero, add_zero, List.cons.injEq, true_and]
      apply List.map_congr_left
      intro i _
      simp only [Function.comp, hs, Nat.cast_succ]
      congr 1
      ring
    · rw [hs2, hs]
      push_cast
      ring

theorem Generate_eq_oneCalls (lib : Library) (g : Generator) (n : Nat) (em : Emitter)
    (scope : Option Scope) (w : World) :
    g.Generate lib (n : Int) em scope w =
      (oneCalls lib g em scope n w).map
        (fun r => (r.1.map (fun record => valueOf (record g.PrimaryKeyName)), r.2)) := by
  unfold Generator.Generate
  rw [if_neg (by omega)]
  have h := generateLoop_eq lib g em scope n [] w
  simpa using h

/-- Generating n records, from a nil parent id, with a generator whose primary-key field is
the serial field of a counter that the other fields leave alone: the ids continue the counter,
which has then advanced by n. -/
theorem Generate_serial (lib : Library) (g : Generator) (c : Nat)
    (hid : FieldSet.get g.fields g.PrimaryKeyName = some (NewField (.SerialType c) none false))
    (hnd : ∀ f, (g.PrimaryKeyName, f) ∈ g.fields → f.isDeferred = false)
    (hothers : ∀ k f, (k, f) ∈ g.fields → k ≠ g.PrimaryKeyName → KeepsCounter lib c f)
    (em : Emitter) (scope : Option Scope) (n : Nat) (w : World) :
    ∃ ids w', g.Generate lib (n : Int) em scope w = some (ids, w') ∧
      ids = (List.range n).map (fun (i : Nat) => Value.int (w.serial c + (i : Int) + 1)) ∧
      w'.serial c = w.serial c + n := by
  obtain ⟨records, w', h1, h2, h3⟩ := oneCalls_serial lib g c hid hnd hothers em scope n w
  refine ⟨_, w', ?_, h2, h3⟩
  rw [Generate_eq_oneCalls, h1]
  rfl

theorem inheritFields_mem_reference (parent : Generator) (fs : FieldSet) (gen : Generator)
    (k : String) (f : Field) (h : (k, f) ∈ (inheritFields parent fs gen).fields) :
    (k, f) ∈ gen.fields ∨
      ∃ pf, (k, pf) ∈ fs ∧ k ≠ parent.PrimaryKeyName ∧
        f = NewField (.ReferenceType parent k) pf.count false := by
  induction fs generalizing gen with
  | nil => exact Or.inl h
  | cons hd rest ih =>
    obtain ⟨key, f0⟩ := hd
    simp only [inheritFields] at h
    split at h
    · rename_i hc
      simp only [Bool.and_eq_true, Bool.not_eq_true', bne_iff_ne, ne_eq] at hc
      rcases ih _ h with h1 | ⟨pf, h1, h2, h3⟩
      · rw [Generator.fields_setField] at h1
        rcases FieldSet.mem_set _ _ _ _ _ h1 with ⟨hk, hf⟩ | h2
        · refine Or.inr ⟨f0, ?_, ?_, ?_⟩
          · rw [hk]; exact List.mem_cons_self _ _
          · rw [hk]; exact hc.2
          · rw [hf, hk]
        · exact Or.inl h2
      · exact Or.inr ⟨pf, List.mem_cons_of_mem _ h1, h2, h3⟩
    · rcases ih _ h with h1 | ⟨pf, h1, h2, h3⟩
      · exact Or.inl h1
      · exact Or.inr ⟨pf, List.mem_cons_of_mem _ h1, h2, h3⟩

theorem newFields_mem (name : String) (pk : PrimaryKey) (dm : Bool) (k : String)
    (f : Field) (h : (k, f) ∈ newFields name pk dm) :
    (∃ v, f = metadataField v) ∨ (k = pk.name ∧ f = pk.idField) := by
  unfold newFields at h
  rcases FieldSet.mem_set _ _ _ _ _ h with h0 | h1
  · exact Or.inr h0
  · cases dm
    · simp only [Bool.false_eq_true, if_false, List.mem_singleton, Prod.mk.injEq] at h1
      exact Or.inl ⟨_, h1.2⟩
    · simp at h1

theorem extendedFields_mem (name : String) (parent : Generator) (pk : PrimaryKey)
    (dm : Bool) (k : String) (f : Field) (h : (k, f) ∈ extendedFields name parent pk dm) :
    (∃ v, f = metadataField v) ∨ (k = pk.name ∧ f = pk.idField) := by
  unfold extendedFields at h
  cases dm
  · simp only [Bool.false_eq_true, if_false] at h
    rcases FieldSet.mem_set _ _ _ _ _ h with ⟨_, hf⟩ | h1
    · exact Or.inl ⟨_, hf⟩
    · rcases FieldSet.mem_set _ _ _ _ _ h1 with ⟨_, hf⟩ | h2
      · exact Or.inl ⟨_, hf⟩
      · exact newFields_mem name pk false k f h2
  · simp only [if_true] at h
    exact newFields_mem name pk true k f h

theorem repeatOne_keepsCounter (c : Nat)
    (one : Value → Emitter → Scope → World → Option (Value × World))
    (h : ∀ p e s w, ∃ v w', one p e s w = some (v, w') ∧ w'.serial c = w.serial c)
    (n : Nat) (p : Value) (e : Emitter) (s : Scope) (w : World) :
    ∃ vs w', repeatOne one n p e s w = some (vs, w') ∧ w'.serial c = w.serial c := by
  induction n generalizing w with
  | zero => exact ⟨[], w, rfl, rfl⟩
  | succ n ih =>
    obtain ⟨v, w1, h1, hs1⟩ := h p e s w
    obtain ⟨vs, w2, h2, hs2⟩ := ih w1
    refine ⟨v :: vs, w2, ?_, hs2.trans hs1⟩
    simp only [repeatOne, h1, h2]

theorem metadataField_keepsCounter (lib : Library) (c : Nat) (v : String) :
    KeepsCounter lib c (metadataField v) := by
  intro p e s w
  exact ⟨_, w, GenerateValue_literal lib _ false p e s w, rfl⟩

theorem reference_keepsCounter (lib : Library) (c : Nat) (parent : Generator) (k : String)
    (pf : Field) (hget : FieldSet.get parent.fields k = some pf)
    (hpf : KeepsCounter lib c pf) (count : Option CountRange) :
    KeepsCounter lib c (NewField (.ReferenceType parent k) count false) := by
  have hone : ∀ p e s w, ∃ v w',
      FieldType.One lib (.ReferenceType parent k) p e s w = some (v, w') ∧
      w'.serial c = w.serial c := by
    intro p e s w
    cases parent with
    | mk n x d fs dm pk =>
      rw [FieldType.One, referredGenerate, lookupGenerate_eq]
      simp only [Generator.fields] at hget
      rw [hget]
      exact hpf p e s w
  intro p e s w
  cases count with
  | none =>
    rw [NewField, Field.GenerateValue]
    exact hone p e s w
  | some cr =>
    rw [NewField, Field.GenerateValue]
    split
    · obtain ⟨vs, w', h1, h2⟩ := repeatOne_keepsCounter c _ hone (lib.count cr w.rng).1 p e s
        { w with rng := (lib.count cr w.rng).2 }
      rw [h1]
      exact ⟨_, w', rfl, h2⟩
    · exact hone p e s w

/-- C9 fails on the code for a serial primary key named `$extends` with metadata enabled:
`B = ExtendGenerator("B", A, nil, false)` has the primary key of `A`, but the extension
installs the literal `$extends` over the primary-key field of `B`, so after the ids 1, 2, 3 of
`A` the ids of `B` are the type "A" of the parent, not 4 and 5.  With metadata disabled no
literal is installed, and the ids of `B` are 4 and 5. -/
theorem serial_key_named_extends :
    extendsKeyed.pkey.kind = "serial" ∧ extendsKeyed.PrimaryKeyName = "$extends" ∧
    (ExtendGenerator "B" extendsKeyed none false).pkey = extendsKeyed.pkey ∧
    FieldSet.get (ExtendGenerator "B" extendsKeyed none false).fields "$extends" =
      some (Field.mk (.LiteralType (.str "A")) none false) ∧
    (extendsKeyed.Generate sampleLibrary 3 rootEmitter none freshWorld).bind
      (fun a => ((ExtendGenerator "B" extendsKeyed none false).Generate sampleLibrary 2
        rootEmitter none a.2).map (fun b => (a.1, b.1))) =
      some ([Value.int 1, Value.int 2, Value.int 3], [Value.str "A", Value.str "A"]) ∧
    [Value.str "A", Value.str "A"] ≠ [Value.int 4, Value.int 5] ∧
    (extendsKeyed.Generate sampleLibrary 3 rootEmitter none freshWorld).bind
      (fun a => ((ExtendGenerator "B" extendsKeyed none true).Generate sampleLibrary 2
        rootEmitter none a.2).map (fun b => (a.1, b.1))) =
      some ([Value.int 1, Value.int 2, Value.int 3], [Value.int 4, Value.int 5]) := by
  refine ⟨by rfl, by rfl, by rfl, by rfl, by rfl, by simp, by rfl⟩

/-- Serial continuation across extension.  Let the parent `A` (a field map)
have a serial primary key whose field is stored under the key's name, and let
`B = ExtendGenerator(name, A, nil, ...)`.  Then `B` has the primary key of `A`, with the same
counter.  If metadata is disabled or the key is not named `$type` or `$extends`, the counter
is fresh, and every other field of `A` produces a value without advancing that counter, then
generating m entities of `A` and after them n entities of `B` returns the ids 1..m for `A`
and m+1..m+n for `B`, in whatever order the field map of `B` is visited (`A` is any generator,
so any order of its fields). -/
theorem serial_continuation (lib : Library) (A : Generator) (name : String)
    (disableMetadata : Bool) (m n : Nat) (emitter : Emitter) (scope : Option Scope) (w : World)
    (hkind : A.pkey.kind = "serial")
    (hmap : FieldSet.isMap A.fields)
    (hid : FieldSet.get A.fields A.PrimaryKeyName = some A.pkey.idField)
    (hname : disableMetadata = true ∨
      (A.PrimaryKeyName ≠ "$type" ∧ A.PrimaryKeyName ≠ "$extends"))
    (hothers : ∀ k f, (k, f) ∈ A.fields → k ≠ A.PrimaryKeyName →
      KeepsCounter lib A.pkey.counter f)
    (hfresh : w.serial A.pkey.counter = 0) :
    (ExtendGenerator name A none disableMetadata).pkey = A.pkey ∧
    ∃ idsA w₁,
      A.Generate lib (m : Int) emitter scope w = some (idsA, w₁) ∧
      idsA = (List.range m).map (fun (i : Nat) => Value.int ((i : Int) + 1)) ∧
      ∀ B, (ExtendGenerator name A none disableMetadata).sameMap B →
        ∃ idsB w₂,
          B.Generate lib (n : Int) emitter scope w₁ = some (idsB, w₂) ∧
          idsB = (List.range n).map
            (fun (i : Nat) => Value.int ((m : Int) + (i : Int) + 1)) := by
  have hpkB : (ExtendGenerator name A none disableMetadata).pkey = A.pkey :=
    ExtendGenerator_pkey name A none disableMetadata
  have hnameB : (ExtendGenerator name A none disableMetadata).PrimaryKeyName
      = A.PrimaryKeyName := by
    simp only [Generator.PrimaryKeyName, hpkB]
  refine ⟨hpkB, ?_⟩
  rw [idField_serial _ hkind] at hid
  have hndA : ∀ f, (A.PrimaryKeyName, f) ∈ A.fields → f.isDeferred = false := by
    intro f hf
    have := FieldSet.isMap_get_of_mem A.fields hmap _ _ hf
    rw [hid] at this
    simp only [Option.some.injEq] at this
    rw [← this]; rfl
  obtain ⟨idsA, w₁, hA, hidsA, hsA⟩ := Generate_serial lib A A.pkey.counter hid hndA hothers
    emitter scope m w
  have hidB : FieldSet.get (ExtendGenerator name A none disableMetadata).fields
      (ExtendGenerator name A none disableMetadata).PrimaryKeyName
      = some (NewField (.SerialType A.pkey.counter) none false) := by
    rw [hnameB, ExtendGenerator_get, extendedFields_get]
    have hk : A.PrimaryKeyName = A.pkey.name := rfl
    rcases hname with hdm | ⟨h1, h2⟩
    · simp [hdm, hk, extendedKey, idField_serial _ hkind]
    · rw [hk] at h1 h2
      simp [h1, h2, hk, extendedKey, idField_serial _ hkind]
  have hndB : ∀ f, ((ExtendGenerator name A none disableMetadata).PrimaryKeyName, f) ∈
      (ExtendGenerator name A none disableMetadata).fields → f.isDeferred = false :=
    fun f hf => ExtendGenerator_isDeferred _ _ _ _ _ f hf
  have hothersB : ∀ k f, (k, f) ∈ (ExtendGenerator name A none disableMetadata).fields →
      k ≠ (ExtendGenerator name A none disableMetadata).PrimaryKeyName →
      KeepsCounter lib A.pkey.counter f := by
    intro k f hm hk
    rw [hnameB] at hk
    rw [ExtendGenerator_shape] at hm
    rcases inheritFields_mem_reference A A.fields _ k f hm with h1 | ⟨pf, h1, h2, h3⟩
    · rcases extendedFields_mem name A _ disableMetadata k f h1 with ⟨v, hv⟩ | ⟨h4, _⟩
      · rw [hv]; exact metadataField_keepsCounter lib _ v
      · exact absurd h4 hk
    · rw [h3]
      exact reference_keepsCounter lib _ A k pf (FieldSet.isMap_get_of_mem A.fields hmap _ _ h1)
        (hothers k pf h1 h2) pf.count
  refine ⟨idsA, w₁, hA, ?_, ?_⟩
  · rw [hidsA, hfresh]
    simp
  · intro B hsame
    obtain ⟨_, _, _, _, hpk, hperm⟩ := hsame
    have hnameBB : B.PrimaryKeyName
        = (ExtendGenerator name A none disableMetadata).PrimaryKeyName := by
      simp only [Generator.PrimaryKeyName, hpk]
    have hidBB : FieldSet.get B.fields B.PrimaryKeyName
        = some (NewField (.SerialType A.pkey.counter) none false) := by
      rw [hnameBB, FieldSet.get_perm _ B.fields (ExtendGenerator_isMap _ _ _ _) hperm]
      exact hidB
    have hndBB : ∀ f, (B.PrimaryKeyName, f) ∈ B.fields → f.isDeferred = false := by
      intro f hf
      rw [hnameBB] at hf
      exact hndB f (hperm.mem_iff.mpr hf)
    have hothersBB : ∀ k f, (k, f) ∈ B.fields → k ≠ B.PrimaryKeyName →
        KeepsCounter lib A.pkey.counter f := by
      intro k f hm hk
      rw [hnameBB] at hk
      exact hothersB k f (hperm.mem_iff.mpr hm) hk
    obtain ⟨idsB, w₂, hB, hidsB, _⟩ := Generate_serial lib B A.pkey.counter hidBB hndBB
      hothersBB emitter scope n w₁
    refine ⟨idsB, w₂, hB, ?_⟩
    rw [hidsB, hsA, hfresh]
    simp

theorem serialParent_others (k : String) (f : Field) (hm : (k, f) ∈ serialParent.fields)
    (hk : k ≠ serialParent.PrimaryKeyName) :
    KeepsCounter sampleLibrary serialParent.pkey.counter f := by
  have hfs : serialParent.fields = newFields "A" serialKey false := NewGenerator_fields _ _ _
  rw [hfs] at hm
  rcases newFields_mem _ _ _ _ _ hm with ⟨v, hv⟩ | ⟨h1, _⟩
  · rw [hv]; exact metadataField_keepsCounter _ _ v
  · exact absurd h1 hk

/-- The generator `A` with a serial key and its extension `B`: three records of `A` and then
two of `B` have the ids 1, 2, 3 and 4, 5. -/
theorem serial_continuation_witness :
    (serialParent.pkey.kind = "serial" ∧ FieldSet.isMap serialParent.fields ∧
      FieldSet.get serialParent.fields serialParent.PrimaryKeyName
        = some serialParent.pkey.idField ∧
      ((false : Bool) = true ∨
        (serialParent.PrimaryKeyName ≠ "$type" ∧ serialParent.PrimaryKeyName ≠ "$extends")) ∧
      (∀ k f, (k, f) ∈ serialParent.fields → k ≠ serialParent.PrimaryKeyName →
        KeepsCounter sampleLibrary serialParent.pkey.counter f) ∧
      freshWorld.serial serialParent.pkey.counter = 0) ∧
    ((ExtendGenerator "B" serialParent none false).pkey = serialParent.pkey ∧
    ∃ idsA w₁,
      serialParent.Generate sampleLibrary ((3 : Nat) : Int) rootEmitter none freshWorld
        = some (idsA, w₁) ∧
      idsA = (List.range 3).map (fun (i : Nat) => Value.int ((i : Int) + 1)) ∧
      ∀ B, (ExtendGenerator "B" serialParent none false).sameMap B →
        ∃ idsB w₂,
          B.Generate sampleLibrary ((2 : Nat) : Int) rootEmitter none w₁ = some (idsB, w₂) ∧
          idsB = (List.range 2).map
            (fun (i : Nat) => Value.int (((3 : Nat) : Int) + (i : Int) + 1))) :=
  ⟨⟨by decide, by decide, by rfl, Or.inr ⟨by decide, by decide⟩, serialParent_others, by rfl⟩,
    serial_continuation sampleLibrary serialParent "B" false 3 2 rootEmitter none freshWorld
      (by decide) (by decide) (by rfl) (Or.inr ⟨by decide, by decide⟩) serialParent_others
      (by rfl)⟩

/-- The ids of the scenario of the spec: `A` yields 1, 2, 3 and then `B` yields 4, 5. -/
theorem serial_scenario :
    (serialParent.Generate sampleLibrary 3 rootEmitter none freshWorld).bind
      (fun a => ((ExtendGenerator "B" serialParent none false).Generate sampleLibrary 2
        rootEmitter none a.2).map (fun b => (a.1, b.1))) =
      some ([Value.int 1, Value.int 2, Value.int 3], [Value.int 4, Value.int 5]) := by
  rfl

/-! ## WithField -/

theorem newFieldType_integer (fmt : Fmt) (cell : Nat) (g : Generator) (fieldName : String)
    (min max : Int) (countRange : Option CountRange) (uniqueValue : Bool) :
    g.newFieldType fmt cell fieldName "integer" (.int64Pair min max) countRange uniqueValue =
      if max < min then
        some (.error ("max " ++ toString max ++ " cannot be less than min " ++ toString min))
      else some (.ok (NewField (.IntegerType min max) countRange uniqueValue)) := by
  simp [Generator.newFieldType]

theorem newFieldType_date (fmt : Fmt) (cell : Nat) (g : Generator) (fieldName : String)
    (min max : Int) (format : String) (countRange : Option CountRange) (uniqueValue : Bool) :
    g.newFieldType fmt cell fieldName "date"
        (.slice [Value.time min, Value.time max, Value.str format]) countRange uniqueValue =
      if min < max then
        some (.ok (NewField (.DateType min max format) countRange uniqueValue))
      else some (.error ("max " ++ fmt.time max ++ " cannot be before min " ++ fmt.time min)) := by
  by_cases h : min < max <;> simp [Generator.newFieldType, DateType.ValidBounds, h]

theorem Generator.fields_get_setField (g : Generator) (key : String) (field : Field) :
    FieldSet.get (g.setField key field).fields key = some field := by
  cases g
  simp only [Generator.setField, Generator.fields]
  exact FieldSet.get_set_self _ _ _

/-- C11: `WithField` with the type tag "integer" and a pair of `int64` bounds returns an
error if and only if `max < min`; the error leaves the generator as it was; when
`min ≤ max` (equal bounds included) the call returns nil and `fields[name]` is the Integer
field with those bounds, the given count range and the given unique flag. -/
theorem WithField_integer (fmt : Fmt) (cell : Nat) (g : Generator) (fieldName : String)
    (min max : Int) (countRange : Option CountRange) (uniqueValue : Bool) :
    ((∃ g' err, g.WithField fmt cell fieldName "integer" (.int64Pair min max) countRange
        uniqueValue = some (g', some err)) ↔ max < min) ∧
    (max < min →
      g.WithField fmt cell fieldName "integer" (.int64Pair min max) countRange uniqueValue =
        some (g, some ("max " ++ toString max ++ " cannot be less than min "
          ++ toString min))) ∧
    (min ≤ max →
      ∃ g', g.WithField fmt cell fieldName "integer" (.int64Pair min max) countRange
          uniqueValue = some (g', none) ∧
        FieldSet.get g'.fields fieldName =
          some (NewField (.IntegerType min max) countRange uniqueValue) ∧
        g' = g.setField fieldName (NewField (.IntegerType min max) countRange uniqueValue)) := by
  have hW := newFieldType_integer fmt cell g fieldName min max countRange uniqueValue
  by_cases h : max < min
  · rw [if_pos h] at hW
    have hE : g.WithField fmt cell fieldName "integer" (.int64Pair min max) countRange
        uniqueValue = some (g, some ("max " ++ toString max ++ " cannot be less than min "
          ++ toString min)) := by
      rw [Generator.WithField, hW]
    refine ⟨⟨fun _ => h, fun _ => ⟨g, _, hE⟩⟩, fun _ => hE, fun hle => ?_⟩
    exact absurd h (not_lt.mpr hle)
  · rw [if_neg h] at hW
    have hS : g.WithField fmt cell fieldName "integer" (.int64Pair min max) countRange
        uniqueValue = some (g.setField fieldName
          (NewField (.IntegerType min max) countRange uniqueValue), none) := by
      rw [Generator.WithField, hW]
    refine ⟨⟨fun ⟨g', err, he⟩ => ?_, fun hlt => absurd hlt h⟩, fun hlt => absurd hlt h,
      fun _ => ⟨_, hS, Generator.fields_get_setField _ _ _, rfl⟩⟩
    rw [hS] at he
    simp at he

theorem WithField_integer_witness :
    ((5 : Int) ≤ 5) ∧
    ∃ g', person.WithField sampleFmt 0 "age" "integer" (.int64Pair 5 5) none true
        = some (g', none) ∧
      FieldSet.get g'.fields "age" = some (NewField (.IntegerType 5 5) none true) ∧
      g' = person.setField "age" (NewField (.IntegerType 5 5) none true) :=
  ⟨by decide, (WithField_integer sampleFmt 0 person "age" 5 5 none true).2.2 (by decide)⟩

/-- C12: `WithField` with the type tag "date" and the arguments `(min, max, format)` returns
an error whenever `max ≤ min` and returns nil exactly when `min` is strictly before `max`;
equal bounds are rejected, whereas the tags "integer" and "decimal" accept equal bounds. -/
theorem WithField_date (fmt : Fmt) (cell : Nat) (g : Generator) (fieldName : String)
    (min max : Int) (format : String) (countRange : Option CountRange)
    (uniqueValue : Bool) :
    (max ≤ min →
      g.WithField fmt cell fieldName "date"
        (.slice [Value.time min, Value.time max, Value.str format]) countRange uniqueValue =
        some (g, some ("max " ++ fmt.time max ++ " cannot be before min " ++ fmt.time min))) ∧
    ((∃ g', g.WithField fmt cell fieldName "date"
        (.slice [Value.time min, Value.time max, Value.str format]) countRange uniqueValue =
        some (g', none)) ↔ min < max) ∧
    (min < max →
      g.WithField fmt cell fieldName "date"
        (.slice [Value.time min, Value.time max, Value.str format]) countRange uniqueValue =
        some (g.setField fieldName (NewField (.DateType min max format) countRange
          uniqueValue), none)) ∧
    DateType.ValidBounds min max format = decide (min < max) ∧
    g.WithField fmt cell fieldName "date"
        (.slice [Value.time min, Value.time min, Value.str format]) countRange uniqueValue =
      some (g, some ("max " ++ fmt.time min ++ " cannot be before min " ++ fmt.time min)) ∧
    g.WithField fmt cell fieldName "integer" (.int64Pair min min) countRange uniqueValue =
      some (g.setField fieldName (NewField (.IntegerType min min) countRange uniqueValue),
        none) ∧
    (∀ x : Rat, g.WithField fmt cell fieldName "decimal" (.float64Pair x x) countRange
        uniqueValue =
      some (g.setField fieldName (NewField (.FloatType x x) countRange uniqueValue),
        none)) := by
  have hW := newFieldType_date fmt cell g fieldName min max format countRange uniqueValue
  have hE : ∀ a b : Int, b ≤ a → g.WithField fmt cell fieldName "date"
        (.slice [Value.time a, Value.time b, Value.str format]) countRange uniqueValue =
      some (g, some ("max " ++ fmt.time b ++ " cannot be before min " ++ fmt.time a)) := by
    intro a b hab
    rw [Generator.WithField, newFieldType_date, if_neg (not_lt.mpr hab)]
  have hS : min < max → g.WithField fmt cell fieldName "date"
        (.slice [Value.time min, Value.time max, Value.str format]) countRange uniqueValue =
        some (g.setField fieldName (NewField (.DateType min max format) countRange
          uniqueValue), none) := by
    intro hlt
    rw [Generator.WithField, hW, if_pos hlt]
  refine ⟨hE min max, ⟨fun ⟨g', hg⟩ => ?_, fun hlt => ⟨_, hS hlt⟩⟩, hS, rfl,
    hE min min (le_refl _), ?_, ?_⟩
  · by_contra hlt
    rw [hE min max (not_lt.mp hlt)] at hg
    simp at hg
  · rw [Generator.WithField, newFieldType_integer, if_neg (lt_irrefl _)]
  · intro x
    simp [Generator.WithField, Generator.newFieldType]

theorem WithField_date_witness :
    ((3 : Int) ≤ 3) ∧
    person.WithField sampleFmt 0 "born" "date"
        (.slice [Value.time 3, Value.time 3, Value.str "2006"]) none false =
      some (person, some ("max " ++ sampleFmt.time 3 ++ " cannot be before min "
        ++ sampleFmt.time 3)) :=
  ⟨by decide, (WithField_date sampleFmt 0 person "born" 3 3 "2006" none false).1 (by decide)⟩

/-- The claim C13 fails for the length 0 (and for a negative length): `newFieldType` tests
only that the argument is an `int64`, so `WithField` returns nil and installs a String field
of length 0 (of length -3). -/
theorem WithField_string_counterexample :
    person.WithField sampleFmt 0 "code" "string" (.int64 0) none false =
      some (person.setField "code" (NewField (.StringType 0) none false), none) ∧
    person.WithField sampleFmt 0 "code" "string" (.int64 (-3)) none false =
      some (person.setField "code" (NewField (.StringType (-3)) none false), none) ∧
    FieldSet.get (person.setField "code" (NewField (.StringType 0) none false)).fields "code" =
      some (NewField (.StringType 0) none false) ∧
    ¬ ∃ g' err, person.WithField sampleFmt 0 "code" "string" (.int64 0) none false =
      some (g', some err) := by
  refine ⟨by rfl, by rfl, by rfl, ?_⟩
  rintro ⟨g', err, h⟩
  have h0 : person.WithField sampleFmt 0 "code" "string" (.int64 0) none false =
      some (person.setField "code" (NewField (.StringType 0) none false), none) := by rfl
  rw [h0] at h
  simp at h

/-- C13, as amended: `WithField` with the type tag "string" accepts its argument exactly when
it is an `int64`, whatever its value (zero and negative lengths included), and then installs
a String field of that length; an argument of any other dynamic type is rejected with an
error and no field is installed. -/
theorem WithField_string (fmt : Fmt) (cell : Nat) (g : Generator) (fieldName : String)
    (countRange : Option CountRange) (uniqueValue : Bool) :
    (∀ ln : Int,
      g.WithField fmt cell fieldName "string" (.int64 ln) countRange uniqueValue =
        some (g.setField fieldName (NewField (.StringType ln) countRange uniqueValue), none) ∧
      FieldSet.get (g.setField fieldName
          (NewField (.StringType ln) countRange uniqueValue)).fields fieldName =
        some (NewField (.StringType ln) countRange uniqueValue)) ∧
    (∀ fieldArgs : FieldArgs, (∀ ln, fieldArgs ≠ .int64 ln) →
      g.WithField fmt cell fieldName "string" fieldArgs countRange uniqueValue =
        some (g, some ("expected field args to be of type \x27int\x27 for field "
          ++ fieldName ++ " (" ++ "string" ++ "), but got " ++ fmt.args fieldArgs))) ∧
    (∀ fieldArgs : FieldArgs,
      (∃ g' err, g.WithField fmt cell fieldName "string" fieldArgs countRange uniqueValue =
        some (g', some err)) ↔ ∀ ln, fieldArgs ≠ .int64 ln) := by
  have h1 : ∀ ln : Int,
      g.WithField fmt cell fieldName "string" (.int64 ln) countRange uniqueValue =
        some (g.setField fieldName (NewField (.StringType ln) countRange uniqueValue),
          none) := by
    intro ln
    simp [Generator.WithField, Generator.newFieldType]
  have h2 : ∀ fieldArgs : FieldArgs, (∀ ln, fieldArgs ≠ .int64 ln) →
      g.WithField fmt cell fieldName "string" fieldArgs countRange uniqueValue =
        some (g, some ("expected field args to be of type \x27int\x27 for field "
          ++ fieldName ++ " (" ++ "string" ++ "), but got " ++ fmt.args fieldArgs)) := by
    intro fieldArgs hne
    cases fieldArgs with
    | int64 ln => exact absurd rfl (hne ln)
    | _ => simp [Generator.WithField, Generator.newFieldType]
  refine ⟨fun ln => ⟨h1 ln, Generator.fields_get_setField _ _ _⟩, h2, fun fieldArgs => ?_⟩
  constructor
  · rintro ⟨g', err, he⟩ ln hln
    rw [hln, h1 ln] at he
    simp at he
  · intro hne
    exact ⟨g, _, h2 fieldArgs hne⟩

theorem WithField_string_witness :
    (∀ ln, FieldArgs.string "5" ≠ FieldArgs.int64 ln) ∧
    person.WithField sampleFmt 0 "code" "string" (.string "5") none false =
      some (person, some ("expected field args to be of type \x27int\x27 for field "
        ++ "code" ++ " (" ++ "string" ++ "), but got " ++ sampleFmt.args (.string "5"))) :=
  ⟨fun _ h => FieldArgs.noConfusion h,
    (WithField_string sampleFmt 0 person "code" none false).2.1 (.string "5")
      (fun _ h => FieldArgs.noConfusion h)⟩

/-- C14: `WithField` with the type tag "bool" and `unique = true` returns the error "boolean
fields cannot be unique" and leaves the generator as it was, for every count range and every
argument; with `unique = false` it returns nil and installs a Bool field with the given count
range. -/
theorem WithField_bool (fmt : Fmt) (cell : Nat) (g : Generator) (fieldName : String)
    (fieldArgs : FieldArgs) (countRange : Option CountRange) :
    g.WithField fmt cell fieldName "bool" fieldArgs countRange true =
      some (g, some "boolean fields cannot be unique") ∧
    g.WithField fmt cell fieldName "bool" fieldArgs countRange false =
      some (g.setField fieldName (NewField .BoolType countRange false), none) ∧
    FieldSet.get (g.setField fieldName (NewField .BoolType countRange false)).fields fieldName =
      some (NewField .BoolType countRange false) := by
  refine ⟨?_, ?_, Generator.fields_get_setField _ _ _⟩
  · simp [Generator.WithField, Generator.newFieldType]
  · simp [Generator.WithField, Generator.newFieldType]

theorem newFieldType_invalid (fmt : Fmt) (cell : Nat) (g : Generator)
    (fieldName fieldType : String) (fieldArgs : FieldArgs) (countRange : Option CountRange)
    (uniqueValue : Bool)
    (h : fieldType ∉
      ["string", "integer", "decimal", "date", "uid", "bool", "dict", "enum", "serial"]) :
    g.newFieldType fmt cell fieldName fieldType fieldArgs countRange uniqueValue =
      some (.error ("Invalid field type \x27" ++ fieldType ++ "\x27")) := by
  simp only [List.mem_cons, List.mem_singleton, List.not_mem_nil, or_false, not_or] at h
  unfold Generator.newFieldType
  split <;> first | rfl | (exfalso; simp_all)

/-- C15: for every type tag outside {string, integer, decimal, date, uid, bool, dict, enum,
serial} `WithField` returns the error "Invalid field type \x27tag\x27"; and whenever `WithField`
returns an error, for whatever reason, the generator (its field map included) is what it was
before the call. -/
theorem WithField_error (fmt : Fmt) (cell : Nat) (g : Generator)
    (fieldName fieldType : String) (fieldArgs : FieldArgs) (countRange : Option CountRange)
    (uniqueValue : Bool) :
    (fieldType ∉
        ["string", "integer", "decimal", "date", "uid", "bool", "dict", "enum", "serial"] →
      g.WithField fmt cell fieldName fieldType fieldArgs countRange uniqueValue =
        some (g, some ("Invalid field type \x27" ++ fieldType ++ "\x27"))) ∧
    (∀ g' err,
      g.WithField fmt cell fieldName fieldType fieldArgs countRange uniqueValue =
        some (g', some err) → g' = g ∧ g'.fields = g.fields) := by
  constructor
  · intro h
    rw [Generator.WithField, newFieldType_invalid fmt cell g fieldName fieldType fieldArgs
      countRange uniqueValue h]
  · intro g' err he
    rw [Generator.WithField] at he
    cases hn : g.newFieldType fmt cell fieldName fieldType fieldArgs countRange
        uniqueValue with
    | none => rw [hn] at he; simp at he
    | some r =>
      cases r with
      | error e =>
        rw [hn] at he
        simp only [Option.some.injEq, Prod.mk.injEq] at he
        exact ⟨he.1.symm, by rw [← he.1]⟩
      | ok f => rw [hn] at he; simp at he

theorem WithField_error_witness :
    ("colour" ∉
        ["string", "integer", "decimal", "date", "uid", "bool", "dict", "enum", "serial"]) ∧
    person.WithField sampleFmt 0 "code" "colour" (.int64 5) none false =
      some (person, some ("Invalid field type \x27" ++ "colour" ++ "\x27")) :=
  ⟨by decide, (WithField_error sampleFmt 0 person "code" "colour" (.int64 5) none false).1
    (by decide)⟩

/-! ## The operators of the deferred evaluator -/

/-! ## The operators of the deferred evaluator -/

theorem multByFloat_string (i : Interpreter) (op : String) (lhs : float64) (right : String)
    (scope : Scope) (deferred : Bool) :
    i.multByFloat op lhs (.string right) scope deferred =
      i.multByInt op (i.runtime.toInt64 lhs) (.string right) scope deferred := by
  rw [Interpreter.multByFloat, Interpreter.multByInt]

theorem int64.wrap_inRange (n : Int) : int64.inRange (int64.wrap n) := by
  unfold int64.inRange int64.wrap
  have h1 := Int.emod_nonneg (n + (2 : Int) ^ 63) (by norm_num : ((2 : Int) ^ 64) ≠ 0)
  have h2 := Int.emod_lt_of_pos (n + (2 : Int) ^ 63) (by norm_num : (0 : Int) < (2 : Int) ^ 64)
  constructor <;> omega

theorem int64.wrap_modEq (n : Int) : int64.wrap n ≡ n [ZMOD (2 : Int) ^ 64] := by
  unfold int64.wrap
  have h : (n + (2 : Int) ^ 63) % (2 : Int) ^ 64 ≡ n + (2 : Int) ^ 63 [ZMOD (2 : Int) ^ 64] :=
    Int.mod_modEq _ _
  have h2 := Int.ModEq.sub_right ((2 : Int) ^ 63) h
  simpa using h2

theorem int64.wrap_of_inRange (n : Int) (h : int64.inRange n) : int64.wrap n = n := by
  unfold int64.inRange at h
  unfold int64.wrap
  rw [Int.emod_eq_of_lt (by omega) (by omega)]
  omega

theorem strings.Join_cons (a : String) (l : List String) :
    strings.Join (a :: l) "" = a ++ strings.Join l "" := by
  cases l with
  | nil => simp [strings.Join]
  | cons b rest => simp [strings.Join]

theorem strings.Join_replicate_succ (n : Nat) (s : String) :
    strings.Join (List.replicate (n + 1) s) "" = s ++ strings.Join (List.replicate n s) "" := by
  rw [List.replicate_succ, strings.Join_cons]

theorem strings.Join_replicate_data (n : Nat) (s : String) :
    (strings.Join (List.replicate n s) "").data = (List.replicate n s.data).flatten := by
  induction n with
  | zero => rfl
  | succ n ih =>
    rw [strings.Join_replicate_succ, String.data_append, ih, List.replicate_succ,
      List.flatten_cons]

theorem strings.Join_replicate_length (n : Nat) (s : String) :
    (strings.Join (List.replicate n s) "").length = n * s.length := by
  induction n with
  | zero => simp [strings.Join]
  | succ n ih =>
    rw [strings.Join_replicate_succ, String.length_append, ih]
    ring

theorem String.utf8ByteSize_append_eq (s t : String) :
    (s ++ t).utf8ByteSize = s.utf8ByteSize + t.utf8ByteSize := by
  cases s with
  | mk a =>
    cases t with
    | mk b =>
      show String.utf8ByteSize (String.mk (a ++ b)) = _
      rw [String.utf8ByteSize_mk, String.utf8ByteSize_mk, String.utf8ByteSize_mk,
        String.utf8Len_append]

theorem strings.Join_replicate_bytes (n : Nat) (s : String) :
    (strings.Join (List.replicate n s) "").utf8ByteSize = n * s.utf8ByteSize := by
  induction n with
  | zero => simp [strings.Join, String.utf8ByteSize, String.utf8ByteSize.go]
  | succ n ih =>
    rw [strings.Join_replicate_succ, String.utf8ByteSize_append_eq, ih]
    ring

/-- C16: arithmetic on two `int64` operands.  `addToInt` with "+" returns the `int64` `a + b`
and with "-" the `int64` `a - b`, `multByInt` with "*" returns the `int64` `a * b`: each is the
value in the range of `int64` that is congruent to the mathematical result modulo 2^64, and is
the mathematical result when that is in the range.  `multByInt` with "/" returns the `float64`
`float64(a) / float64(b)`, never an `int64` and never an error, for every `b`, zero
included. -/
theorem int_arithmetic (i : Interpreter) (a b : Int) (scope : Scope) (deferred : Bool) :
    i.addToInt "+" a (.int64 b) scope deferred = .ok (.int64 (int64.wrap (a + b))) ∧
    i.addToInt "-" a (.int64 b) scope deferred = .ok (.int64 (int64.wrap (a - b))) ∧
    i.multByInt "*" a (.int64 b) scope deferred = .ok (.int64 (int64.wrap (a * b))) ∧
    i.multByInt "/" a (.int64 b) scope deferred =
      .ok (.float64 (i.runtime.fdiv (i.runtime.toFloat64 a) (i.runtime.toFloat64 b))) ∧
    i.multByInt "/" a (.int64 0) scope deferred =
      .ok (.float64 (i.runtime.fdiv (i.runtime.toFloat64 a) (.finite 0))) ∧
    (∀ n : Int, int64.inRange (int64.wrap n) ∧ int64.wrap n ≡ n [ZMOD (2 : Int) ^ 64]) ∧
    (int64.inRange (a + b) → i.addToInt "+" a (.int64 b) scope deferred = .ok (.int64 (a + b))) ∧
    (int64.inRange (a - b) → i.addToInt "-" a (.int64 b) scope deferred = .ok (.int64 (a - b))) ∧
    (int64.inRange (a * b) →
      i.multByInt "*" a (.int64 b) scope deferred = .ok (.int64 (a * b))) := by
  have h1 : i.addToInt "+" a (.int64 b) scope deferred = .ok (.int64 (int64.wrap (a + b))) := by
    rw [Interpreter.addToInt]; rfl
  have h2 : i.addToInt "-" a (.int64 b) scope deferred = .ok (.int64 (int64.wrap (a - b))) := by
    rw [Interpreter.addToInt]; rfl
  have h3 : i.multByInt "*" a (.int64 b) scope deferred =
      .ok (.int64 (int64.wrap (a * b))) := by
    rw [Interpreter.multByInt]; rfl
  have h4 : ∀ c : Int, i.multByInt "/" a (.int64 c) scope deferred =
      .ok (.float64 (i.runtime.fdiv (i.runtime.toFloat64 a) (i.runtime.toFloat64 c))) := by
    intro c
    rw [Interpreter.multByInt]; rfl
  refine ⟨h1, h2, h3, h4 b, h4 0, fun n => ⟨int64.wrap_inRange n, int64.wrap_modEq n⟩,
    fun h => ?_, fun h => ?_, fun h => ?_⟩
  · rw [h1, int64.wrap_of_inRange _ h]
  · rw [h2, int64.wrap_of_inRange _ h]
  · rw [h3, int64.wrap_of_inRange _ h]

theorem int_arithmetic_witness :
    int64.inRange (3 * 4) ∧
    sampleInterpreter.multByInt "*" 3 (.int64 4) emptyScope false = .ok (.int64 (3 * 4)) :=
  ⟨by unfold int64.inRange; decide,
    (int_arithmetic sampleInterpreter 3 4 emptyScope false).2.2.2.2.2.2.2.2
      (by unfold int64.inRange; decide)⟩

/-- An overflowing sum wraps around: the greatest `int64` plus one is the least `int64`. -/
theorem addToInt_overflow :
    sampleInterpreter.addToInt "+" 9223372036854775807 (.int64 1) emptyScope false =
      .ok (.int64 (-9223372036854775808)) := by
  rfl

/-- C17: with the operator "+" and a string on at least one side the result is the
concatenation of the renderings in operand order: `addToString(s, t)` is `s ++ t` for a
string `t`, `s ++ decimal(k)` for an `int64` `k`, `s ++ "true"` or `s ++ "false"` for a bool;
`addToInt(k, s)` is `decimal(k) ++ s`; `addToBool(b, s)` is `"true" ++ s` or `"false" ++ s`.
Here `decimal(k)` is `strconv.FormatInt(k, 10)`: the decimal digits of the absolute value,
after a `-` for a negative number. -/
theorem string_concatenation (i : Interpreter) (s t : String) (k : Int) (b : Bool)
    (scope : Scope) (deferred : Bool) :
    i.addToString "+" s (.string t) scope deferred = .ok (.string (s ++ t)) ∧
    i.addToString "+" s (.int64 k) scope deferred =
      .ok (.string (s ++ strconv.FormatInt k)) ∧
    i.addToString "+" s (.bool true) scope deferred = .ok (.string (s ++ "true")) ∧
    i.addToString "+" s (.bool false) scope deferred = .ok (.string (s ++ "false")) ∧
    i.addToInt "+" k (.string s) scope deferred = .ok (.string (strconv.FormatInt k ++ s)) ∧
    i.addToBool "+" true (.string s) scope deferred = .ok (.string ("true" ++ s)) ∧
    i.addToBool "+" false (.string s) scope deferred = .ok (.string ("false" ++ s)) ∧
    i.addToBool "+" b (.string s) scope deferred =
      .ok (.string (strconv.FormatBool b ++ s)) ∧
    strconv.FormatInt k =
      (if k < 0 then "-" ++ Nat.repr k.natAbs else Nat.repr k.natAbs) ∧
    strconv.FormatInt 1905 = "1905" ∧ strconv.FormatInt 0 = "0" ∧
    strconv.FormatInt (-42) = "-42" := by
  refine ⟨?_, ?_, ?_, ?_, ?_, ?_, ?_, ?_, rfl, by decide, by decide, by decide⟩
  · rw [Interpreter.addToString]; rfl
  · rw [Interpreter.addToString]; rfl
  · rw [Interpreter.addToString]; rfl
  · rw [Interpreter.addToString]; rfl
  · rw [Interpreter.addToInt]; rfl
  · rw [Interpreter.addToBool]; rfl
  · rw [Interpreter.addToBool]; rfl
  · rw [Interpreter.addToBool]; rfl

theorem multByInt_string (i : Interpreter) (op : String) (lhs : Int) (rhs : String)
    (scope : Scope) (deferred : Bool) :
    i.multByInt op lhs (.string rhs) scope deferred = i.multByIntString op lhs rhs := by
  rw [Interpreter.multByInt]

theorem multByString_int64 (i : Interpreter) (op : String) (lhs : String) (rhs : Int)
    (scope : Scope) (deferred : Bool) :
    i.multByString op lhs (.int64 rhs) scope deferred =
      i.multByInt op rhs (.string lhs) scope deferred := by
  rw [Interpreter.multByString]

theorem multByString_float64 (i : Interpreter) (op : String) (lhs : String) (right : float64)
    (scope : Scope) (deferred : Bool) :
    i.multByString op lhs (.float64 right) scope deferred =
      i.multByInt op (i.runtime.toInt64 right) (.string lhs) scope deferred := by
  rw [Interpreter.multByString]

theorem multByIntString_star (i : Interpreter) (lhs : Int) (rhs : String) :
    i.multByIntString "*" lhs rhs =
      if lhs < 0 then .error "Cannot multiply string by negative number"
      else .ok (.string (strings.Join (List.replicate lhs.toNat rhs) "")) := by
  rw [Interpreter.multByIntString, if_neg (by decide)]

/-- C18: replication of a string by an integer.  For every string `s` and `int64` `k`,
`multByInt("*", k, s)` and `multByString("*", s, k)` return the same result: an error when
`k < 0`, the empty string when `k = 0`, and for `k > 0` the string `s` repeated `k` times,
of length `k * len(s)` (in characters and in bytes). -/
theorem string_replication (i : Interpreter) (s : String) (k : Int) (scope : Scope)
    (deferred : Bool) :
    i.multByInt "*" k (.string s) scope deferred =
      i.multByString "*" s (.int64 k) scope deferred ∧
    (k < 0 → i.multByInt "*" k (.string s) scope deferred =
      .error "Cannot multiply string by negative number") ∧
    (k = 0 → i.multByInt "*" k (.string s) scope deferred = .ok (.string "")) ∧
    (0 < k → ∃ r : String,
      i.multByInt "*" k (.string s) scope deferred = .ok (.string r) ∧
      r = strings.Join (List.replicate k.toNat s) "" ∧
      r.data = (List.replicate k.toNat s.data).flatten ∧
      (r.length : Int) = k * s.length ∧
      (r.utf8ByteSize : Int) = k * s.utf8ByteSize) := by
  have hm := multByInt_string i "*" k s scope deferred
  rw [multByIntString_star] at hm
  refine ⟨(multByString_int64 i "*" s k scope deferred).symm, fun h => ?_, fun h => ?_,
    fun h => ?_⟩
  · rw [hm, if_pos h]
  · rw [hm, if_neg (by omega), h]
    rfl
  · rw [hm, if_neg (by omega)]
    refine ⟨_, rfl, rfl, strings.Join_replicate_data _ _, ?_, ?_⟩
    · rw [strings.Join_replicate_length]
      push_cast
      rw [Int.toNat_of_nonneg (by omega)]
    · rw [strings.Join_replicate_bytes]
      push_cast
      rw [Int.toNat_of_nonneg (by omega)]

theorem string_replication_witness :
    ((0 : Int) < 3) ∧
    ∃ r : String,
      sampleInterpreter.multByInt "*" 3 (.string "ab") emptyScope false = .ok (.string r) ∧
      r = strings.Join (List.replicate (3 : Int).toNat "ab") "" ∧
      r.data = (List.replicate (3 : Int).toNat "ab".data).flatten ∧
      (r.length : Int) = 3 * "ab".length ∧
      (r.utf8ByteSize : Int) = 3 * "ab".utf8ByteSize :=
  ⟨by decide, (string_replication sampleInterpreter "ab" 3 emptyScope false).2.2.2 (by decide)⟩

/-- The replication of "ab" by 3, by -1 and by 0. -/
theorem multByString_samples :
    sampleInterpreter.multByString "*" "ab" (.int64 3) emptyScope false =
      .ok (.string "ababab") ∧
    sampleInterpreter.multByString "*" "ab" (.int64 (-1)) emptyScope false =
      .error "Cannot multiply string by negative number" ∧
    sampleInterpreter.multByString "*" "ab" (.int64 0) emptyScope false = .ok (.string "") := by
  refine ⟨by rfl, by rfl, by rfl⟩

theorem toInt64_small_negative (rt : Runtime) (q : Rat) (h1 : -1 < q) (h2 : q < 0) :
    rt.toInt64 (.finite q) = 0 := by
  have hc : ⌈q⌉ = 0 := by
    rw [Int.ceil_eq_iff]
    constructor
    · simpa using h1
    · simpa using h2.le
  simp only [Runtime.toInt64, if_neg (not_le.mpr h2), hc]
  norm_num

theorem toInt64_negative (rt : Runtime) (q : Rat) (h1 : -(2 : Rat) ^ 63 ≤ q) (h2 : q ≤ -1) :
    rt.toInt64 (.finite q) = ⌈q⌉ ∧ ⌈q⌉ < 0 := by
  have hq : q < 0 := by linarith
  have hneg : ⌈q⌉ ≤ -1 := by
    rw [Int.ceil_le]
    simpa using h2
  have hlow : -(2 : Int) ^ 63 ≤ ⌈q⌉ := by
    have : ((-(2 : Int) ^ 63 : Int) : Rat) ≤ q := by
      push_cast
      exact h1
    exact Int.le_ceil_iff.mpr (by
      have h3 : (((-(2 : Int) ^ 63 : Int) : Rat) - 1) < q := by linarith
      simpa using h3)
  refine ⟨?_, by omega⟩
  simp only [Runtime.toInt64, if_neg (not_le.mpr hq)]
  rw [if_pos ⟨hlow, by omega⟩]

/-- The claim C19 fails for the multiplier -0.5: the conversion `int64(x)` discards the
fraction, the sign test of `multByInt` sees 0, and both calls return the empty string. -/
theorem negative_float_counterexample :
    float64.isNegative (.finite (-1 / 2)) = true ∧
    sampleInterpreter.multByString "*" "ab" (.float64 (.finite (-1 / 2))) emptyScope false =
      .ok (.string "") ∧
    sampleInterpreter.multByFloat "*" (.finite (-1 / 2)) (.string "ab") emptyScope false =
      .ok (.string "") := by
  have h0 : sampleInterpreter.runtime.toInt64 (.finite (-1 / 2)) = 0 :=
    toInt64_small_negative _ _ (by norm_num) (by norm_num)
  refine ⟨?_, ?_, ?_⟩
  · exact decide_eq_true (by norm_num)
  · rw [multByString_float64, h0]
    rfl
  · rw [multByFloat_string, h0]
    rfl

/-- C19, as amended: for every string `s` and every `float64` multiplier `x` with
`-2^63 ≤ x ≤ -1`, `multByString("*", s, x)` and `multByFloat("*", x, s)` return the error
"Cannot multiply string by negative number"; for `-1 < x < 0` the conversion to `int64`
gives 0 and both return the empty string.  For every `float64` `x` both calls return what
`multByInt("*", int64(x), s)` returns. -/
theorem negative_float_multiplier (i : Interpreter) (s : String) (q : Rat) (x : float64)
    (scope : Scope) (deferred : Bool) :
    (-(2 : Rat) ^ 63 ≤ q → q ≤ -1 →
      i.multByString "*" s (.float64 (.finite q)) scope deferred =
        .error "Cannot multiply string by negative number" ∧
      i.multByFloat "*" (.finite q) (.string s) scope deferred =
        .error "Cannot multiply string by negative number") ∧
    (-1 < q → q < 0 →
      i.multByString "*" s (.float64 (.finite q)) scope deferred = .ok (.string "") ∧
      i.multByFloat "*" (.finite q) (.string s) scope deferred = .ok (.string "")) ∧
    i.multByString "*" s (.float64 x) scope deferred =
      i.multByInt "*" (i.runtime.toInt64 x) (.string s) scope deferred ∧
    i.multByFloat "*" x (.string s) scope deferred =
      i.multByInt "*" (i.runtime.toInt64 x) (.string s) scope deferred := by
  refine ⟨?_, ?_, multByString_float64 i "*" s x scope deferred,
    multByFloat_string i "*" x s scope deferred⟩
  · intro h1 h2
    obtain ⟨_, hneg⟩ := toInt64_negative i.runtime q h1 h2
    have hlt : i.runtime.toInt64 (.finite q) < 0 := by
      rw [(toInt64_negative i.runtime q h1 h2).1]; exact hneg
    constructor
    · rw [multByString_float64, multByInt_string, multByIntString_star, if_pos hlt]
    · rw [multByFloat_string, multByInt_string, multByIntString_star, if_pos hlt]
  · intro h1 h2
    have h0 := toInt64_small_negative i.runtime q h1 h2
    constructor
    · rw [multByString_float64, multByInt_string, multByIntString_star, h0]
      rfl
    · rw [multByFloat_string, multByInt_string, multByIntString_star, h0]
      rfl

theorem negative_float_multiplier_witness :
    (-(2 : Rat) ^ 63 ≤ -5 / 2 ∧ (-5 / 2 : Rat) ≤ -1) ∧
    (sampleInterpreter.multByString "*" "ab" (.float64 (.finite (-5 / 2))) emptyScope false =
        .error "Cannot multiply string by negative number" ∧
      sampleInterpreter.multByFloat "*" (.finite (-5 / 2)) (.string "ab") emptyScope false =
        .error "Cannot multiply string by negative number") :=
  ⟨⟨by norm_num, by norm_num⟩,
    (negative_float_multiplier sampleInterpreter "ab" (-5 / 2) .NaN emptyScope false).1
      (by norm_num) (by norm_num)⟩

theorem incompatible_operators (rt : Runtime) :
    incompatible rt "+" = "Incompatible types for operator \x22+\x22" ∧
    incompatible rt "-" = "Incompatible types for operator \x22-\x22" ∧
    incompatible rt "*" = "Incompatible types for operator \x22*\x22" ∧
    incompatible rt "/" = "Incompatible types for operator \x22/\x22" := by
  refine ⟨by rfl, by rfl, by rfl, by rfl⟩

/-- C20: incompatible operands fail with the standard message.  With "-" and a string or a
bool on the left (whatever is on the right), with "-" and a string on the right of a number,
with "/" and a string on either side of a number, with "*" or "/" and strings on both sides,
and with "+", a bool on the left and an operand on the right that is neither a string nor a
deferred resolver, the function returns no value and the error whose message is
`Incompatible types for operator "op"`, the operator in double quotes. -/
theorem incompatible_operands (i : Interpreter) (s t : String) (b : Bool) (k : Int)
    (x : float64) (right : Operand) (scope : Scope) (deferred : Bool) :
    i.addToString "-" s right scope deferred =
      .error "Incompatible types for operator \x22-\x22" ∧
    i.addToBool "-" b right scope deferred =
      .error "Incompatible types for operator \x22-\x22" ∧
    i.addToInt "-" k (.string t) scope deferred =
      .error "Incompatible types for operator \x22-\x22" ∧
    i.addToFloat "-" x (.string t) scope deferred =
      .error "Incompatible types for operator \x22-\x22" ∧
    i.multByInt "/" k (.string t) scope deferred =
      .error "Incompatible types for operator \x22/\x22" ∧
    i.multByFloat "/" x (.string t) scope deferred =
      .error "Incompatible types for operator \x22/\x22" ∧
    i.multByString "/" s (.int64 k) scope deferred =
      .error "Incompatible types for operator \x22/\x22" ∧
    i.multByString "/" s (.float64 x) scope deferred =
      .error "Incompatible types for operator \x22/\x22" ∧
    i.multByString "*" s (.string t) scope deferred =
      .error "Incompatible types for operator \x22*\x22" ∧
    i.multByString "/" s (.string t) scope deferred =
      .error "Incompatible types for operator \x22/\x22" ∧
    ((∀ v, right ≠ .string v) → (∀ r, right ≠ .DeferredResolver r) →
      i.addToBool "+" b right scope deferred =
        .error "Incompatible types for operator \x22+\x22") ∧
    (∀ op : String, incompatible i.runtime op =
      "Incompatible types for operator " ++ strconv.Quote i.runtime op) := by
  obtain ⟨hp, hm, hs, hd⟩ := incompatible_operators i.runtime
  have hdiv : ∀ n : Int, i.multByInt "/" n (.string t) scope deferred =
      .error "Incompatible types for operator \x22/\x22" := by
    intro n
    rw [multByInt_string, Interpreter.multByIntString, if_pos rfl, hd]
  have hdiv2 : ∀ n : Int, i.multByInt "/" n (.string s) scope deferred =
      .error "Incompatible types for operator \x22/\x22" := by
    intro n
    rw [multByInt_string, Interpreter.multByIntString, if_pos rfl, hd]
  refine ⟨?_, ?_, ?_, ?_, hdiv k, ?_, ?_, ?_, ?_, ?_, ?_, fun _ => rfl⟩
  · cases right <;> simp [Interpreter.addToString, hm]
  · cases right <;> simp [Interpreter.addToBool, hm]
  · rw [Interpreter.addToInt, if_pos rfl, hm]
  · rw [Interpreter.addToFloat, if_pos rfl, hm]
  · rw [multByFloat_string]; exact hdiv _
  · rw [multByString_int64]; exact hdiv2 _
  · rw [multByString_float64]; exact hdiv2 _
  · simp [Interpreter.multByString, hs]
  · simp [Interpreter.multByString, hd]
  · intro h1 h2
    cases right with
    | string v => exact absurd rfl (h1 v)
    | DeferredResolver r => exact absurd rfl (h2 r)
    | _ => simp [Interpreter.addToBool, hp]

theorem incompatible_operands_witness :
    ((∀ v, Operand.int64 7 ≠ .string v) ∧ (∀ r, Operand.int64 7 ≠ .DeferredResolver r)) ∧
    sampleInterpreter.addToBool "+" true (.int64 7) emptyScope false =
      .error "Incompatible types for operator \x22+\x22" :=
  ⟨⟨fun _ h => Operand.noConfusion h, fun _ h => Operand.noConfusion h⟩,
    (incompatible_operands sampleInterpreter "a" "b" true 1 (.finite 0) (.int64 7) emptyScope
      false).2.2.2.2.2.2.2.2.2.2.1
      (fun _ h => Operand.noConfusion h) (fun _ h => Operand.noConfusion h)⟩

/-! ## Lazy combination -/

theorem handleDeferredRHS_apply (i : Interpreter) (op : String) (left : Operand)
    (right : DeferredResolver) (scope : Scope) :
    i.handleDeferredRHS op left right scope =
      match right scope with
      | .error err => .error err
      | .ok rhs => i.ApplyOperator op left rhs scope false := by
  rfl

/-- A resolver that fails on every scope. -/
theorem lazy_sample :
    sampleInterpreter.addToInt "+" 1 (.DeferredResolver (fun _ => .error "unbound")) emptyScope
        false = .error "unbound" ∧
    ∃ r, sampleInterpreter.addToInt "+" 1 (.DeferredResolver (fun _ => .error "unbound"))
        emptyScope true = .ok (.DeferredResolver r) ∧ r emptyScope = .error "unbound" := by
  refine ⟨by rfl, _, by rfl, by rfl⟩

/-- C21: lazy combination with a deferred operand.  For each of `addToInt`, `addToFloat`,
`addToString` and `addToBool` (operator other than "-"), `multByInt`, `multByFloat` and
`multByString`, when the right operand is a `DeferredResolver` and the deferred flag is true,
the call returns a new resolver and no error, whatever the operand would return (it is not
invoked); the returned resolver, invoked on a scope, returns the error of the operand if the
operand fails on that scope, and otherwise the result of
`ApplyOperator(op, left, resolvedRight, scope, false)`. -/
theorem lazy_combination (i : Interpreter) (op : String) (k : Int) (x : float64) (s : String)
    (b : Bool) (right : DeferredResolver) (scope : Scope) :
    i.addToInt op k (.DeferredResolver right) scope true =
      .ok (.DeferredResolver (i.handleDeferredRHS op (.int64 k) right)) ∧
    i.addToFloat op x (.DeferredResolver right) scope true =
      .ok (.DeferredResolver (i.handleDeferredRHS op (.float64 x) right)) ∧
    (op ≠ "-" → i.addToString op s (.DeferredResolver right) scope true =
      .ok (.DeferredResolver (i.handleDeferredRHS op (.string s) right))) ∧
    (op ≠ "-" → i.addToBool op b (.DeferredResolver right) scope true =
      .ok (.DeferredResolver (i.handleDeferredRHS op (.bool b) right))) ∧
    i.multByInt op k (.DeferredResolver right) scope true =
      .ok (.DeferredResolver (i.handleDeferredRHS op (.int64 k) right)) ∧
    i.multByFloat op x (.DeferredResolver right) scope true =
      .ok (.DeferredResolver (i.handleDeferredRHS op (.float64 x) right)) ∧
    i.multByString op s (.DeferredResolver right) scope true =
      .ok (.DeferredResolver (i.handleDeferredRHS op (.string s) right)) ∧
    (∀ (left : Operand) (scope' : Scope),
      (∀ err, right scope' = .error err →
        i.handleDeferredRHS op left right scope' = .error err) ∧
      (∀ resolvedRight, right scope' = .ok resolvedRight →
        i.handleDeferredRHS op left right scope' =
          i.ApplyOperator op left resolvedRight scope' false)) := by
  refine ⟨?_, ?_, ?_, ?_, ?_, ?_, ?_, ?_⟩
  · rw [Interpreter.addToInt]; rfl
  · rw [Interpreter.addToFloat]; rfl
  · intro h
    have h2 : ¬ ("-" = op) := fun e => h e.symm
    rw [Interpreter.addToString, if_neg h2]; rfl
  · intro h
    have h2 : ¬ ("-" = op) := fun e => h e.symm
    rw [Interpreter.addToBool, if_neg h2]; rfl
  · rw [Interpreter.multByInt]; rfl
  · rw [Interpreter.multByFloat]; rfl
  · rw [Interpreter.multByString]; rfl
  · intro left scope'
    constructor
    · intro err he
      rw [handleDeferredRHS_apply, he]
    · intro v hv
      rw [handleDeferredRHS_apply, hv]

theorem lazy_combination_witness :
    ("+" ≠ "-") ∧
    sampleInterpreter.addToString "+" "a" (.DeferredResolver (fun _ => .ok (.int64 1)))
        emptyScope true =
      .ok (.DeferredResolver (sampleInterpreter.handleDeferredRHS "+" (.string "a")
        (fun _ => .ok (.int64 1)))) :=
  ⟨by decide, (lazy_combination sampleInterpreter "+" 0 .NaN "a" true
    (fun _ => .ok (.int64 1)) emptyScope).2.2.1 (by decide)⟩

/-! ## Scope chains -/

theorem Scope.ResolveSymbol_mk (p : Option Scope) (symbols : SymbolTable) (name : String) :
    (Scope.mk p symbols).ResolveSymbol name =
      match symbols name with
      | some entry => entry
      | none =>
        match p with
        | some parent => parent.ResolveSymbol name
        | none => Value.nil := by
  cases p with
  | none => rw [Scope.ResolveSymbol]
  | some parent => rw [Scope.ResolveSymbol]

theorem Scope.ResolveSymbol_chain (s : Scope) (name : String) :
    s.ResolveSymbol name =
      match s.chain.find? (fun t => (t name).isSome) with
      | some t => valueOf (t name)
      | none => Value.nil := by
  induction s using Scope.rec (motive_2 := fun p => ∀ q, p = some q →
      q.ResolveSymbol name =
        match q.chain.find? (fun t => (t name).isSome) with
        | some t => valueOf (t name)
        | none => Value.nil) with
  | mk p symbols ih =>
    cases p with
    | none =>
      rw [Scope.ResolveSymbol, Scope.chain]
      cases h : symbols name <;> simp [List.find?, h, valueOf]
    | some parent =>
      rw [Scope.ResolveSymbol, Scope.chain]
      cases h : symbols name with
      | none => simp only [List.find?, h, Option.isSome_none]; exact ih parent rfl
      | some v => simp [List.find?, h, valueOf]
  | none => rename_i hq; cases hq
  | some q ih => rename_i hq; cases hq; exact ih

/-- C22: symbol resolution along a scope chain.  `ResolveSymbol(name)` returns the value bound
in the first symbol table of the chain (the receiver first, then along the parent links) that
defines the name, so a binding of a child shadows a binding of its parent, and returns nil
when no table of the chain defines it; a scope that `Extend()` has just made resolves every
name as its parent does.  The lookup is defined by recursion on the chain, so it returns for
every (finite) chain. -/
theorem ResolveSymbol_nearest (s : Scope) (name : String) :
    (s.ResolveSymbol name =
      match s.chain.find? (fun t => (t name).isSome) with
      | some t => valueOf (t name)
      | none => Value.nil) ∧
    (∀ (p : Option Scope) (symbols : SymbolTable) (v : Value),
      symbols name = some v → (Scope.mk p symbols).ResolveSymbol name = v) ∧
    (∀ symbols : SymbolTable, symbols name = none →
      (Scope.mk (some s) symbols).ResolveSymbol name = s.ResolveSymbol name) ∧
    ((∀ t ∈ s.chain, t name = none) → s.ResolveSymbol name = Value.nil) ∧
    s.Extend.ResolveSymbol name = s.ResolveSymbol name ∧
    NewRootScope.ResolveSymbol name = Value.nil := by
  refine ⟨Scope.ResolveSymbol_chain s name, ?_, ?_, ?_, ?_, ?_⟩
  · intro p symbols v h
    rw [Scope.ResolveSymbol_mk, h]
  · intro symbols h
    rw [Scope.ResolveSymbol_mk, h]
  · intro h
    rw [Scope.ResolveSymbol_chain]
    have hf : s.chain.find? (fun t => (t name).isSome) = none := by
      rw [List.find?_eq_none]
      intro t ht
      simp [h t ht]
    rw [hf]
  · rw [Scope.Extend, ExtendScope, Scope.ResolveSymbol_mk]
  · rw [NewRootScope, ExtendScope, Scope.ResolveSymbol_mk]

theorem ResolveSymbol_nearest_witness :
    ((fun k => if k = "a" then some (Value.int 3) else none : SymbolTable) "a" =
      some (Value.int 3)) ∧
    sampleChain.ResolveSymbol "a" = Value.int 3 :=
  ⟨by rfl, (ResolveSymbol_nearest sampleChain "a").2.1 _ _ (Value.int 3) (by rfl)⟩

/-- The sample chain: the child shadows `a`, the parent supplies `b`, nobody binds `c`. -/
theorem sampleChain_resolution :
    sampleChain.ResolveSymbol "a" = Value.int 3 ∧
    sampleChain.ResolveSymbol "b" = Value.int 2 ∧
    sampleChain.ResolveSymbol "c" = Value.nil ∧
    sampleChain.Extend.ResolveSymbol "b" = Value.int 2 := by
  refine ⟨by rfl, by rfl, by rfl, by rfl⟩

/-! ## WithField: panics -/

theorem newFieldType_date_slice (fmt : Fmt) (cell : Nat) (g : Generator) (fieldName : String)
    (bounds : List Value) (countRange : Option CountRange) (uniqueValue : Bool) :
    g.newFieldType fmt cell fieldName "date" (.slice bounds) countRange uniqueValue =
      match bounds.get? 0, bounds.get? 1, bounds.get? 2 with
      | some (.time min), some (.time max), some (.str format) =>
        if !DateType.ValidBounds min max format then
          some (.error ("max " ++ fmt.time max ++ " cannot be before min " ++ fmt.time min))
        else some (.ok (NewField (.DateType min max format) countRange uniqueValue))
      | _, _, _ => none := by
  simp only [Generator.newFieldType]

theorem WithField_eq_none (fmt : Fmt) (cell : Nat) (g : Generator)
    (fieldName fieldType : String) (fieldArgs : FieldArgs) (countRange : Option CountRange)
    (uniqueValue : Bool) :
    g.WithField fmt cell fieldName fieldType fieldArgs countRange uniqueValue = none ↔
      g.newFieldType fmt cell fieldName fieldType fieldArgs countRange uniqueValue = none := by
  rw [Generator.WithField]
  cases h : g.newFieldType fmt cell fieldName fieldType fieldArgs countRange uniqueValue with
  | none => simp
  | some r => cases r <;> simp

/-- `WithField` panics exactly for the tag "date" with a list whose first three elements are
not a time, a time and a string. -/
theorem WithField_panics_iff (fmt : Fmt) (cell : Nat) (g : Generator)
    (fieldName fieldType : String) (fieldArgs : FieldArgs) (countRange : Option CountRange)
    (uniqueValue : Bool) :
    g.WithField fmt cell fieldName fieldType fieldArgs countRange uniqueValue = none ↔
      fieldType = "date" ∧ ∃ bounds, fieldArgs = .slice bounds ∧
        ¬ ∃ min max format, bounds.get? 0 = some (Value.time min) ∧
          bounds.get? 1 = some (Value.time max) ∧ bounds.get? 2 = some (Value.str format) := by
  rw [WithField_eq_none]
  constructor
  · intro h
    unfold Generator.newFieldType at h
    split at h
    · split at h <;> simp at h
    · split at h
      · split at h <;> simp at h
      · simp at h
    · split at h
      · split at h <;> simp at h
      · simp at h
    · refine ⟨rfl, ?_⟩
      split at h
      · rename_i bounds
        refine ⟨bounds, rfl, ?_⟩
        rintro ⟨min, max, format, h0, h1, h2⟩
        rw [h0, h1, h2] at h
        simp only at h
        split at h <;> simp at h
      · simp at h
    · simp at h
    · split at h <;> simp at h
    · split at h <;> simp at h
    · split at h <;> simp at h
    · split at h <;> simp at h
    · simp at h
  · rintro ⟨rfl, bounds, rfl, hb⟩
    rw [newFieldType_date_slice]
    split
    · rename_i min max format h0 h1 h2
      exact absurd ⟨min, max, format, h0, h1, h2⟩ hb
    · rfl

/-- C30 fails on the code: `WithField` with the tag "date" panics on a list that is too short
(index out of range) and on a list whose elements are not a time, a time and a string (failed
type assertion); it does not return an error there. -/
theorem WithField_date_panics :
    person.WithField sampleFmt 0 "born" "date" (.slice []) none false = none ∧
    person.WithField sampleFmt 0 "born" "date" (.slice [Value.time 1, Value.time 2]) none
      false = none ∧
    person.WithField sampleFmt 0 "born" "date"
      (.slice [Value.str "1945-01-01", Value.str "2017-01-01", Value.str "2006-01-02"]) none
      false = none ∧
    person.WithField sampleFmt 0 "born" "date" (.string "1945-01-01") none false =
      some (person, some ("expected field args to be of type \x27time.Time\x27 for field "
        ++ "born" ++ " (" ++ "date" ++ "), but got " ++ sampleFmt.args (.string "1945-01-01"))) := by
  refine ⟨by rfl, by rfl, by rfl, by rfl⟩

/-! ## The unique flag -/

theorem newFieldType_uniqueOk (fmt : Fmt) (cell : Nat) (g : Generator)
    (fieldName fieldType : String) (fieldArgs : FieldArgs) (countRange : Option CountRange)
    (uniqueValue : Bool) (f : Field)
    (h : g.newFieldType fmt cell fieldName fieldType fieldArgs countRange uniqueValue =
      some (.ok f)) :
    f.uniqueOk ∧ (uniqueValue = false → f.UniqueValue = false) := by
  unfold Generator.newFieldType at h
  split at h
  · split at h <;> simp at h
    subst h
    exact ⟨⟨fun _ => rfl, fun _ _ hh => by cases hh⟩, fun hu => hu⟩
  · split at h
    · split at h <;> simp at h
      subst h
      exact ⟨⟨fun _ => rfl, fun _ _ hh => by cases hh⟩, fun hu => hu⟩
    · simp at h
  · split at h
    · split at h <;> simp at h
      subst h
      exact ⟨⟨fun _ => rfl, fun _ _ hh => by cases hh⟩, fun hu => hu⟩
    · simp at h
  · split at h
    · split at h
      · split at h <;> simp at h
        subst h
        exact ⟨⟨fun _ => rfl, fun _ _ hh => by cases hh⟩, fun hu => hu⟩
      · simp at h
    · simp at h
  · simp at h
    subst h
    exact ⟨⟨fun _ => rfl, fun _ _ hh => by cases hh⟩, fun _ => rfl⟩
  · split at h <;> simp at h
    subst h
    exact ⟨⟨fun hh => Bool.noConfusion hh, fun _ _ hh => by cases hh⟩, fun _ => rfl⟩
  · split at h <;> simp at h
    subst h
    exact ⟨⟨fun _ => rfl, fun _ _ hh => by cases hh⟩, fun hu => hu⟩
  · split at h <;> simp at h
    subst h
    exact ⟨⟨fun _ => rfl, fun _ _ hh => by cases hh⟩, fun hu => hu⟩
  · split at h <;> simp at h
    subst h
    exact ⟨⟨fun _ => rfl, fun _ _ hh => by cases hh⟩, fun _ => rfl⟩
  · simp at h

theorem Field.uniqueOk_of_not_unique (f : Field) (hu : f.UniqueValue = false)
    (hd : ∀ bins dist, f.fieldType ≠ .DistributionType bins dist) : f.uniqueOk := by
  constructor
  · intro h
    rw [hu] at h
    cases h
  · intro bins dist h
    exact absurd h (hd bins dist)

theorem uniqueOk_setField (g : Generator) (k0 : String) (f0 : Field)
    (hg : ∀ k f, (k, f) ∈ g.fields → f.uniqueOk) (h0 : f0.uniqueOk) :
    ∀ k f, (k, f) ∈ (g.setField k0 f0).fields → f.uniqueOk := by
  intro k f hm
  rw [Generator.fields_setField] at hm
  rcases FieldSet.mem_set _ _ _ _ _ hm with ⟨_, hf⟩ | h1
  · rw [hf]; exact h0
  · exact hg k f h1

theorem idField_uniqueOk (pk : PrimaryKey) : pk.idField.uniqueOk := by
  unfold PrimaryKey.idField
  split
  · exact Field.uniqueOk_of_not_unique _ rfl (fun _ _ h => by cases h)
  · exact Field.uniqueOk_of_not_unique _ rfl (fun _ _ h => by cases h)

theorem metadataField_uniqueOk (v : String) : (metadataField v).uniqueOk :=
  Field.uniqueOk_of_not_unique _ rfl (fun _ _ h => by cases h)

theorem distributionBins_not_unique (fmt : Fmt) (cells : Nat → Nat) (ds : Distributions)
    (g : Generator) (fieldName fieldType : String) (distributionType : Distribution)
    (fieldArgs : List FieldArgs) (i : Nat) (bins0 bins : List Field)
    (h : distributionBins fmt cells ds g fieldName fieldType distributionType fieldArgs i bins0
      = some (.ok bins))
    (h0 : ∀ b ∈ bins0, b.UniqueValue = false) : ∀ b ∈ bins, b.UniqueValue = false := by
  induction fieldArgs generalizing i bins0 with
  | nil =>
    simp only [distributionBins, Option.some.injEq, Except.ok.injEq] at h
    rw [← h]; exact h0
  | cons a rest ih =>
    simp only [distributionBins] at h
    cases hn : g.newFieldType fmt (cells i) fieldName fieldType a none false with
    | none => rw [hn] at h; simp at h
    | some r =>
      cases r with
      | error e => rw [hn] at h; simp at h
      | ok field =>
        rw [hn] at h
        simp only at h
        split at h
        · simp at h
        · refine ih _ _ h ?_
          intro b hb
          rcases List.mem_append.mp hb with hb | hb
          · exact h0 b hb
          · rw [List.mem_singleton] at hb
            rw [hb]
            exact (newFieldType_uniqueOk fmt (cells i) g fieldName fieldType a none false
              field hn).2 rfl

theorem Reachable.uniqueOk (g : Generator) (h : Reachable g) :
    ∀ k f, (k, f) ∈ g.fields → f.uniqueOk := by
  induction h with
  | new name pkey dm =>
    intro k f hm
    rw [NewGenerator_fields] at hm
    rcases newFields_mem _ _ _ _ _ hm with ⟨v, hv⟩ | ⟨_, hf⟩
    · rw [hv]; exact metadataField_uniqueOk v
    · rw [hf]; exact idField_uniqueOk _
  | extend name parent pkey dm _ _ =>
    intro k f hm
    rw [ExtendGenerator_shape] at hm
    rcases inheritFields_mem _ _ _ _ _ hm with h1 | ⟨c, hc⟩
    · rcases extendedFields_mem _ _ _ _ _ _ h1 with ⟨v, hv⟩ | ⟨_, hf⟩
      · rw [hv]; exact metadataField_uniqueOk v
      · rw [hf]; exact idField_uniqueOk _
    · rw [hc]
      exact Field.uniqueOk_of_not_unique _ rfl (fun _ _ h => by cases h)
  | withField fmt cell g fieldName fieldType fieldArgs countRange uniqueValue g' err _ hr ih =>
    rw [Generator.WithField] at hr
    cases hn : g.newFieldType fmt cell fieldName fieldType fieldArgs countRange
        uniqueValue with
    | none => rw [hn] at hr; simp at hr
    | some r =>
      cases r with
      | error e =>
        rw [hn] at hr
        simp only [Option.some.injEq, Prod.mk.injEq] at hr
        rw [← hr.1]; exact ih
      | ok field =>
        rw [hn] at hr
        simp only [Option.some.injEq, Prod.mk.injEq] at hr
        rw [← hr.1]
        exact uniqueOk_setField g fieldName field ih
          (newFieldType_uniqueOk fmt cell g fieldName fieldType fieldArgs countRange
            uniqueValue field hn).1
  | withLiteralField g fieldName fieldValue _ ih =>
    exact uniqueOk_setField g fieldName _ ih
      (Field.uniqueOk_of_not_unique _ rfl (fun _ _ h => by cases h))
  | withDeferredField g fieldName fieldValue _ ih =>
    exact uniqueOk_setField g fieldName _ ih
      (Field.uniqueOk_of_not_unique _ rfl (fun _ _ h => by cases h))
  | withEntityField g fieldName entityGenerator fieldArgs countRange _ _ ih _ =>
    exact uniqueOk_setField g fieldName _ ih
      (Field.uniqueOk_of_not_unique _ rfl (fun _ _ h => by cases h))
  | withStaticDistribution ds g fieldName distribution fieldValues weights _ ih =>
    unfold Generator.WithStaticDistribution
    simp only
    split
    · exact ih
    · split
      · exact ih
      · refine uniqueOk_setField g fieldName _ ih ⟨fun h => Bool.noConfusion h, ?_⟩
        intro bins dist hb b hbm
        simp only [NewField, Field.fieldType, FieldType.DistributionType.injEq] at hb
        rw [← hb.1] at hbm
        obtain ⟨v, _, hv⟩ := List.mem_map.mp hbm
        rw [← hv]; rfl
  | withDistribution fmt cells ds g fieldName distribution fieldType fieldArgs weights g' err
      _ hr ih =>
    unfold Generator.WithDistribution at hr
    simp only at hr
    split at hr
    · simp only [Option.some.injEq, Prod.mk.injEq] at hr
      rw [← hr.1]; exact ih
    · cases hb : distributionBins fmt cells ds g fieldName fieldType
          (g.newDistribution distribution weights) fieldArgs 0 [] with
      | none => rw [hb] at hr; simp at hr
      | some r =>
        cases r with
        | error e =>
          rw [hb] at hr
          simp only [Option.some.injEq, Prod.mk.injEq] at hr
          rw [← hr.1]; exact ih
        | ok bins =>
          rw [hb] at hr
          simp only [Option.some.injEq, Prod.mk.injEq] at hr
          rw [← hr.1]
          refine uniqueOk_setField g fieldName _ ih ⟨fun h => Bool.noConfusion h, ?_⟩
          intro bins' dist hbd b hbm
          simp only [NewField, Field.fieldType, FieldType.DistributionType.injEq] at hbd
          rw [← hbd.1] at hbm
          exact distributionBins_not_unique fmt cells ds g fieldName fieldType _ fieldArgs 0 []
            bins hb (fun _ hx => by cases hx) b hbm

theorem Field.Uniquable_iff (f : Field) :
    f.Uniquable = true ↔
      f.fieldType.Type ∈ ["string", "integer", "float", "date", "dict", "enum", "uid", "serial"] := by
  obtain ⟨t, c, u⟩ := f
  cases t <;> simp [Field.Uniquable, Field.fieldType, FieldType.Type]

theorem Field.not_Uniquable_of_tag (f : Field)
    (h : f.fieldType.Type ∈
      ["bool", "literal", "deferred", "entity", "reference", "distribution"]) :
    f.Uniquable = false := by
  obtain ⟨t, c, u⟩ := f
  cases t <;> simp [Field.Uniquable, Field.fieldType, FieldType.Type] at h ⊢

/-- C29: the invariant of the unique flag.  In every generator that is reachable through
`NewGenerator`, `ExtendGenerator`, `WithField`, `WithLiteralField`, `WithDeferredField`,
`WithEntityField`, `WithStaticDistribution` and `WithDistribution`, every field with
`UniqueValue = true` has a type of the uniquable set {String, Integer, Float, Date, Dict,
Enum, UID, Serial}; a Bool, Literal, Deferred, Entity, Reference or Distribution field has
`UniqueValue = false`, and so has every bin of a Distribution field. -/
theorem uniqueness_invariant (g : Generator) (h : Reachable g) (k : String) (f : Field)
    (hm : (k, f) ∈ g.fields) :
    (f.UniqueValue = true → f.Uniquable = true ∧
      f.fieldType.Type ∈
        ["string", "integer", "float", "date", "dict", "enum", "uid", "serial"]) ∧
    (f.fieldType.Type ∈ ["bool", "literal", "deferred", "entity", "reference", "distribution"] →
      f.UniqueValue = false) ∧
    (∀ bins dist, f.fieldType = .DistributionType bins dist →
      ∀ b ∈ bins, b.UniqueValue = false) := by
  obtain ⟨h1, h2⟩ := Reachable.uniqueOk g h k f hm
  refine ⟨fun hu => ⟨h1 hu, (Field.Uniquable_iff f).mp (h1 hu)⟩, fun ht => ?_, h2⟩
  cases hu : f.UniqueValue with
  | false => rfl
  | true =>
    have := h1 hu
    rw [Field.not_Uniquable_of_tag f ht] at this
    cases this

theorem uniqueSample_reachable : Reachable uniqueSample :=
  Reachable.withField sampleFmt 0 (NewGenerator "user" none false) "login" "string" (.int64 8)
    none true uniqueSample none (Reachable.new "user" none false) (by rfl)

theorem uniqueness_invariant_witness :
    (Reachable uniqueSample ∧
      ("login", NewField (.StringType 8) none true) ∈ uniqueSample.fields ∧
      (NewField (.StringType 8) none true).UniqueValue = true) ∧
    ((NewField (.StringType 8) none true).Uniquable = true ∧
      (NewField (.StringType 8) none true).fieldType.Type ∈
        ["string", "integer", "float", "date", "dict", "enum", "uid", "serial"]) :=
  ⟨⟨uniqueSample_reachable, FieldSet.get_some_mem _ _ _ (by rfl), by rfl⟩,
    (uniqueness_invariant uniqueSample uniqueSample_reachable "login"
      (NewField (.StringType 8) none true) (FieldSet.get_some_mem _ _ _ (by rfl))).1 (by rfl)⟩

/-! ## The primary-key field in One -/

theorem nonDeferredFields_skips_key (lib : Library) (fs : FieldSet) (idKey : String)
    (id : Value) (em : Emitter) (scope : Option Scope) (e : EntityResult) (w : World) :
    nonDeferredFields lib fs idKey id em scope e w =
      nonDeferredFields lib (fs.filter (fun x => x.1 != idKey)) idKey id em scope e w := by
  induction fs generalizing e w with
  | nil => rfl
  | cons hd rest ih =>
    obtain ⟨name, field⟩ := hd
    by_cases hn : name = idKey
    · rw [nonDeferredFields_cons, if_pos (Or.inr hn)]
      have hb : (name != idKey) = false := by simpa using hn
      simp only [List.filter, hb]
      exact ih e w
    · have hb : (name != idKey) = true := by simpa using hn
      simp only [List.filter, hb]
      rw [nonDeferredFields_cons, nonDeferredFields_cons]
      split
      · exact ih e w
      · cases field.GenerateValue lib id (em.NextEmitter e name (field.MultiValue lib))
            (TransientScope scope e) w with
        | none => rfl
        | some r =>
          obtain ⟨v, w1⟩ := r
          exact ih _ w1

theorem deferredFields_skips_key (lib : Library) (fs : FieldSet) (idKey : String)
    (hk : ∀ f, (idKey, f) ∈ fs → f.isDeferred = false)
    (id : Value) (em : Emitter) (scope : Option Scope) (e : EntityResult) (w : World) :
    deferredFields lib fs id em scope e w =
      deferredFields lib (fs.filter (fun x => x.1 != idKey)) id em scope e w := by
  induction fs generalizing e w with
  | nil => rfl
  | cons hd rest ih =>
    obtain ⟨name, field⟩ := hd
    have hrest : ∀ f, (idKey, f) ∈ rest → f.isDeferred = false :=
      fun f hf => hk f (List.mem_cons_of_mem _ hf)
    by_cases hn : name = idKey
    · have hd : field.isDeferred = false := hk field (by rw [hn]; exact List.mem_cons_self _ _)
      have hb : (name != idKey) = false := by simpa using hn
      rw [deferredFields_cons, if_neg (by simp [hd])]
      simp only [List.filter, hb]
      exact ih hrest e w
    · have hb : (name != idKey) = true := by simpa using hn
      simp only [List.filter, hb]
      rw [deferredFields_cons, deferredFields_cons]
      split
      · cases field.GenerateValue lib id (em.NextEmitter e name (field.MultiValue lib))
            (TransientScope scope e) w with
        | none => rfl
        | some r =>
          obtain ⟨v, w1⟩ := r
          exact ih hrest _ w1
      · exact ih hrest e w

/-- When the primary-key field is not deferred, `One` generates it once, first: the call is
the call of `GenerateValue` on that field, followed by the two loops over the other
fields. -/
theorem One_key_once (lib : Library) (g : Generator) (parentId : Value) (em : Emitter)
    (scope : Option Scope) (w : World) (rec : EntityResult) (w' : World)
    (hk : ∀ f, (g.PrimaryKeyName, f) ∈ g.fields → f.isDeferred = false)
    (h : g.One lib parentId em scope w = some (rec, w')) :
    ∃ f id w1 e1 w2 w3,
      FieldSet.get g.fields g.PrimaryKeyName = some f ∧
      f.GenerateValue lib Value.nil em (TransientScope scope EntityResult.empty) w
        = some (id, w1) ∧
      nonDeferredFields lib (g.fields.filter (fun x => x.1 != g.PrimaryKeyName))
        g.PrimaryKeyName id em scope (initialEntity g.PrimaryKeyName id parentId) w1
        = some (e1, w2) ∧
      deferredFields lib (g.fields.filter (fun x => x.1 != g.PrimaryKeyName)) id em scope e1 w2
        = some (rec, w3) ∧
      w' = em.Emit rec g.Type w3 := by
  obtain ⟨f, id, w1, e1, w2, w3, hf, hid, hp1, hp2, hw⟩ := One_inv lib g parentId em scope w
    rec w' h
  refine ⟨f, id, w1, e1, w2, w3, hf, hid, ?_, ?_, hw⟩
  · rw [← nonDeferredFields_skips_key]; exact hp1
  · rw [← deferredFields_skips_key lib g.fields g.PrimaryKeyName hk]; exact hp2

/-- C28 fails on the code for a generator whose primary-key field was redefined by
`WithDeferredField`: `One` calls `GenerateValue` on the field first (the result, "unset", is
the id that the sub-entity receives as its `$parent`), and the second loop calls it again (the
result, 1, is the `$id` of the record). -/
theorem One_deferred_key_twice :
    Reachable deferredKeyed ∧
    (FieldSet.get deferredKeyed.fields deferredKeyed.PrimaryKeyName).map Field.isDeferred =
      some true ∧
    lookupGenerate sampleLibrary deferredKeyed.fields deferredKeyed.PrimaryKeyName Value.nil
      rootEmitter (TransientScope none EntityResult.empty) freshWorld =
      some (Value.str "unset", freshWorld) ∧
    (deferredKeyed.One sampleLibrary Value.nil rootEmitter none freshWorld).map
      (fun r => (r.1 "$id", r.2.emitted.map (fun x => (x.2, x.1 "$parent", x.1 "$id")))) =
      some (some (Value.int 1),
        [("Pet", some (Value.str "unset"), some (Value.int 0)),
          ("x", none, some (Value.int 1))]) := by
  refine ⟨?_, by rfl, by rfl, by rfl⟩
  exact Reachable.withDeferredField _ _ _
    (Reachable.withEntityField _ _ _ _ _
      (Reachable.withLiteralField _ _ _ (Reachable.new _ _ _))
      (Reachable.withField sampleFmt 0 (NewGenerator "Pet" none false) "name" "string"
        (.int64 5) none false pet none (Reachable.new _ _ _) (by rfl)))

/-! ## The dictionary -/

theorem toInt64_inRange (rt : Runtime) (x : float64) : int64.inRange (rt.toInt64 x) := by
  cases x with
  | finite q =>
    simp only [Runtime.toInt64]
    split
    · split
      · rename_i h; exact h
      · exact int64.wrap_inRange _
    · split
      · rename_i h; exact h
      · exact int64.wrap_inRange _
  | negZero => unfold int64.inRange; simp [Runtime.toInt64]
  | inf negative => exact int64.wrap_inRange _
  | NaN => exact int64.wrap_inRange _

theorem toInt64_intCast (rt : Runtime) (n : Int) (h : int64.inRange n) :
    rt.toInt64 (.finite (n : Rat)) = n := by
  unfold int64.inRange at h
  simp only [Runtime.toInt64, Int.floor_intCast, Int.ceil_intCast, ite_self]
  rw [if_pos h]

theorem toFloat64_natCast (rt : Runtime) (n : Nat) (h : n ≤ 2 ^ 53) :
    rt.toFloat64 (n : Int) = .finite (n : Rat) := by
  unfold Runtime.toFloat64
  rw [if_pos (by simpa using h)]
  simp

theorem numericPossibilities_exact (env : Assets) (format : String)
    (hslots : strings.Count format '#' ≤ 19)
    (hpow : env.Pow (.finite 9) (.finite (strings.Count format '#' : Rat)) =
      .finite ((9 : Rat) ^ strings.Count format '#')) :
    numberOfNumericPossibilities env format = (9 : Int) ^ strings.Count format '#' := by
  unfold numberOfNumericPossibilities
  rw [toFloat64_natCast _ _ (le_trans hslots (by norm_num)), hpow]
  have hc : ((9 : Rat) ^ strings.Count format '#') =
      (((9 : Int) ^ strings.Count format '#' : Int) : Rat) := by
    push_cast; rfl
  rw [hc]
  apply toInt64_intCast
  unfold int64.inRange
  constructor
  · have : (0 : Int) ≤ (9 : Int) ^ strings.Count format '#' := by positivity
    omega
  · calc (9 : Int) ^ strings.Count format '#' ≤ 9 ^ 19 :=
        pow_le_pow_right₀ (by norm_num) hslots
      _ < 2 ^ 63 := by norm_num

theorem samplePow_nat (n : Nat) :
    samplePow (.finite 9) (.finite (n : Rat)) = .finite ((9 : Rat) ^ n) := by
  simp [samplePow]

/-- The claim C24 fails for a run of twenty `#`: 9^20 is not an `int64`, so the `int64` that
`numberOfNumericPossibilities` returns is not 9^20. -/
theorem numeric_possibilities_counterexample :
    strings.Count "####################" '#' = 20 ∧
    ¬ int64.inRange ((9 : Int) ^ 20) ∧
    numberOfNumericPossibilities sampleAssets "####################" ≠ (9 : Int) ^ 20 := by
  refine ⟨by decide, ?_, ?_⟩
  · unfold int64.inRange; norm_num
  · intro h
    have hr := toInt64_inRange sampleAssets.runtime
      (sampleAssets.Pow (.finite 9)
        (sampleAssets.runtime.toFloat64 (strings.Count "####################" '#')))
    unfold numberOfNumericPossibilities at h
    rw [h] at hr
    unfold int64.inRange at hr
    norm_num at hr

/-- C24, as amended: for a format part with at most 16 characters `#`, where `math.Pow`
returns the exact power (9^16 is below 2^53 and has an exact `float64`),
`numberOfNumericPossibilities(format)` equals 9 raised to the number of `#`.  The result is
always an `int64`, so for 20 or more `#` it is not that power. -/
theorem numeric_possibilities (env : Assets) (format : String) :
    (strings.Count format '#' ≤ 16 →
      env.Pow (.finite 9) (.finite (strings.Count format '#' : Rat)) =
        .finite ((9 : Rat) ^ strings.Count format '#') →
      numberOfNumericPossibilities env format = (9 : Int) ^ strings.Count format '#') ∧
    int64.inRange (numberOfNumericPossibilities env format) ∧
    (20 ≤ strings.Count format '#' →
      numberOfNumericPossibilities env format ≠ (9 : Int) ^ strings.Count format '#') := by
  refine ⟨fun h hpow => numericPossibilities_exact env format (by omega) hpow,
    toInt64_inRange _ _, fun h heq => ?_⟩
  have hr : int64.inRange (numberOfNumericPossibilities env format) := toInt64_inRange _ _
  rw [heq] at hr
  unfold int64.inRange at hr
  have h20 : (9 : Int) ^ 20 ≤ 9 ^ strings.Count format '#' :=
    pow_le_pow_right₀ (by norm_num) h
  have : (2 : Int) ^ 63 < 9 ^ 20 := by norm_num
  omega

theorem numeric_possibilities_witness :
    (strings.Count "####" '#' ≤ 16 ∧
      sampleAssets.Pow (.finite 9) (.finite (strings.Count "####" '#' : Rat)) =
        .finite ((9 : Rat) ^ strings.Count "####" '#')) ∧
    numberOfNumericPossibilities sampleAssets "####" = (9 : Int) ^ strings.Count "####" '#' :=
  ⟨⟨by decide, samplePow_nat _⟩,
    (numeric_possibilities sampleAssets "####").1 (by decide) (samplePow_nat _)⟩

theorem eleven_digits :
    numberOfNumericPossibilities sampleAssets "###########" = 31381059609 := by
  have h := numericPossibilities_exact sampleAssets "###########" (by decide)
    (samplePow_nat _)
  rw [h]
  have hc : strings.Count "###########" '#' = 11 := by decide
  rw [hc]
  norm_num

theorem formatParts_sample
    (callee : String → Dictionary → Option (Int × Dictionary)) (d : Dictionary) :
    formatParts sampleAssets callee ["###########", "###########"] 1 d =
      some (.ok 7093466277004997233, d) := by
  have hc : strings.Contains "###########" '#' = true := by decide
  simp only [formatParts, hc, if_true, eleven_digits]
  norm_num [int64.wrap]

/-- C23 fails on the code: the format file of the sample holds the line
`###########|###########`, whose parts have 9^11 possibilities each.  The product, 9^22,
is not an `int64`; the running product wraps around to a positive number, the test
`result <= 0` does not fire, and the function returns 7093466277004997233, not -1. -/
theorem format_overflow_undetected :
    numberOfNewLinesForFormat sampleAssets (NumberOfPossibleValuesForDictionary sampleAssets 0)
        sampleDictionary "en" "code" =
      some ((7093466277004997233, none), sampleDictionary) ∧
    NumberOfPossibleValuesForDictionary sampleAssets 1 "code" sampleDictionary =
      some (7093466277004997233, sampleDictionary) ∧
    numberOfNumericPossibilities sampleAssets "###########" = (9 : Int) ^ 11 ∧
    ¬ int64.inRange ((9 : Int) ^ 11 * (9 : Int) ^ 11) ∧
    (7093466277004997233 : Int) ≠ -1 := by
  have hsplit : strings.Split "###########|###########" '|' =
      ["###########", "###########"] := by decide
  have hopen : sampleAssets.Open false "/data/en/code_format" =
      some ["###########|###########"] := by rfl
  have hpath : fullPath sampleDictionary "en" "code" ++ "_format" = "/data/en/code_format" := by
    decide
  have h1 : ∀ callee, numberOfNewLinesForFormat sampleAssets callee sampleDictionary "en" "code" =
      some ((7093466277004997233, none), sampleDictionary) := by
    intro callee
    have hu : sampleDictionary.useExternalData = false := rfl
    rw [numberOfNewLinesForFormat, hpath, hu, hopen]
    simp only [formatLines, hsplit, formatParts_sample]
  refine ⟨h1 _, ?_, ?_, ?_, by norm_num⟩
  · rfl
  · rw [eleven_digits]; norm_num
  · unfold int64.inRange; norm_num

theorem SetLang.found_iff (newLang : String) (langs : List String) :
    SetLang.found newLang langs = true ↔ newLang ∈ langs := by
  induction langs with
  | nil => simp [SetLang.found]
  | cons l rest ih =>
    by_cases h : newLang = l
    · simp [SetLang.found, h]
    · simp [SetLang.found, h, ih]

/-- C25: `SetLang(newLang)` returns an error if and only if `newLang` is not among the
available languages; when it returns an error the current language (and every other variable)
is unchanged, and when it succeeds the current language is `newLang`. -/
theorem SetLang_spec (env : Assets) (d : Dictionary) (newLang : String) :
    (((SetLang env d newLang).1).isSome = true ↔ newLang ∉ d.availLangs) ∧
    (newLang ∉ d.availLangs →
      SetLang env d newLang = (some (env.ErrNoLanguageFn newLang), d) ∧
      (SetLang env d newLang).2.lang = d.lang) ∧
    (newLang ∈ d.availLangs →
      (SetLang env d newLang).1 = none ∧ (SetLang env d newLang).2.lang = newLang ∧
      (SetLang env d newLang).2 = { d with lang := newLang }) := by
  by_cases h : newLang ∈ d.availLangs
  · have hf : SetLang.found newLang d.availLangs = true := (SetLang.found_iff _ _).mpr h
    have hs : SetLang env d newLang = (none, { d with lang := newLang }) := by
      simp [SetLang, hf]
    refine ⟨?_, fun hn => absurd h hn, fun _ => ?_⟩
    · rw [hs]; simp [h]
    · rw [hs]; exact ⟨rfl, rfl, rfl⟩
  · have hf : SetLang.found newLang d.availLangs = false := by
      cases hc : SetLang.found newLang d.availLangs with
      | false => rfl
      | true => exact absurd ((SetLang.found_iff _ _).mp hc) h
    have hs : SetLang env d newLang = (some (env.ErrNoLanguageFn newLang), d) := by
      simp [SetLang, hf]
    refine ⟨?_, fun _ => ?_, fun hn => absurd hn h⟩
    · rw [hs]; simp [h]
    · rw [hs]; exact ⟨rfl, rfl⟩

theorem SetLang_spec_witness :
    ("ru" ∈ sampleDictionary.availLangs) ∧
    ((SetLang sampleAssets sampleDictionary "ru").1 = none ∧
      (SetLang sampleAssets sampleDictionary "ru").2.lang = "ru" ∧
      (SetLang sampleAssets sampleDictionary "ru").2 = { sampleDictionary with lang := "ru" }) :=
  ⟨by decide, (SetLang_spec sampleAssets sampleDictionary "ru").2.2 (by decide)⟩

/-- The language `xx` is not available: the call returns the error and the language stays
`en`. -/
theorem SetLang_sample :
    SetLang sampleAssets sampleDictionary "xx" = (some "no language xx", sampleDictionary) := by
  rfl

/-! ## The interpreter of interpreter.go -/

theorem newEntity_output (api : Packages) (i i' : InterpreterState api) (node : Node)
    (r : Except String (String × api.G))
    (h : newEntity api i node = some (r, i')) : i'.output = i.output := by
  unfold newEntity at h
  split at h
  · split at h
    · simp at h
    · split at h
      · simp at h
      · split at h
        · simp only [Option.some.injEq, Prod.mk.injEq] at h
          rw [← h.2]
        · simp only [Option.some.injEq, Prod.mk.injEq] at h
          rw [← h.2]
      · simp only [Option.some.injEq, Prod.mk.injEq] at h
        rw [← h.2]
  · split at h
    · simp only [Option.some.injEq, Prod.mk.injEq] at h
      rw [← h.2]
    · simp only [Option.some.injEq, Prod.mk.injEq] at h
      rw [← h.2]

theorem EntityFromNode_output (api : Packages) (i i' : InterpreterState api) (node : Node)
    (r : Except String api.G)
    (h : Interpreter.EntityFromNode api i node = some (r, i')) : i'.output = i.output := by
  unfold Interpreter.EntityFromNode at h
  cases hn : newEntity api i node with
  | none => rw [hn] at h; simp at h
  | some p =>
    obtain ⟨r0, i0⟩ := p
    have ho := newEntity_output api i i0 node r0 hn
    rw [hn] at h
    cases r0 with
    | error e =>
      simp only [Option.some.injEq, Prod.mk.injEq] at h
      rw [← h.2]; exact ho
    | ok p0 =>
      obtain ⟨formalName, entity⟩ := p0
      simp only at h
      cases hf : entityFields api node.Children entity with
      | none => rw [hf] at h; simp at h
      | some r1 =>
        rw [hf] at h
        cases r1 with
        | error e =>
          simp only [Option.some.injEq, Prod.mk.injEq] at h
          rw [← h.2]; exact ho
        | ok e1 =>
          simp only [Option.some.injEq, Prod.mk.injEq] at h
          rw [← h.2]; exact ho

theorem entityGeneratorOf_output (api : Packages) (i i' : InterpreterState api)
    (generationNode : Node) (r : Except String api.G)
    (h : entityGeneratorOf api i generationNode = some (r, i')) : i'.output = i.output := by
  unfold entityGeneratorOf at h
  split at h
  · split at h
    · split at h
      · simp at h
      · simp only [Option.some.injEq, Prod.mk.injEq] at h
        rw [← h.2]
    · split at h
      · exact EntityFromNode_output api i i' _ r h
      · simp only [Option.some.injEq, Prod.mk.injEq] at h
        rw [← h.2]
  · simp at h

/-- C26: for a generation node whose entity resolves (to the generator `g`, leaving the
interpreter `i1`) and whose first argument is the `int64` `count`, `GenerateFromNode` returns
an error if and only if `count < 1`; the error is the error of the node with the message
"Must generate at least 1 \x60name\x60 entity", and then nothing is generated: the interpreter
is as the resolution left it and its output is what it was before the call.  For
`count ≥ 1` the call returns nil and the output receives `Generate(count)` under the name of
the generator. -/
theorem GenerateFromNode_count (api : Packages) (i i1 : InterpreterState api)
    (generationNode first : Node) (rest : List Node) (g : api.G) (count : Int)
    (hres : entityGeneratorOf api i generationNode = some (.ok g, i1))
    (hargs : generationNode.Args = first :: rest) (hcount : first.Value = .int64 count) :
    ∃ err i2, Interpreter.GenerateFromNode api i generationNode = some (err, i2) ∧
      (err.isSome = true ↔ count < 1) ∧
      (count < 1 →
        err = some (api.Err generationNode ("Must generate at least 1 \x60" ++ api.Name g
          ++ "\x60 entity")) ∧
        i2 = i1 ∧ i2.output = i.output) ∧
      (1 ≤ count →
        err = none ∧
        i2.output = api.addAndAppend i.output (api.Name g) (api.Generate g count) ∧
        i2.entities = i1.entities) := by
  have ho := entityGeneratorOf_output api i i1 generationNode _ hres
  by_cases hc : count < 1
  · refine ⟨_, i1, ?_, ?_, fun _ => ⟨rfl, rfl, ho⟩, fun h => absurd hc (by omega)⟩
    · simp only [Interpreter.GenerateFromNode, hres, hargs, hcount, if_pos hc]
    · simp [hc]
  · refine ⟨none, InterpreterState.mk i1.entities
        (api.addAndAppend i1.output (api.Name g) (api.Generate g count)) i1.AnonExtendNames,
      ?_, ?_, fun h => absurd h hc, fun _ => ⟨rfl, ?_, rfl⟩⟩
    · simp only [Interpreter.GenerateFromNode, hres, hargs, hcount, if_neg hc]
    · simp [hc]
    · simp only [ho]

theorem GenerateFromNode_count_witness :
    (entityGeneratorOf samplePackages sampleState (GenerationNode "person" 0) =
        some (.ok ("person", []), sampleState) ∧
      (GenerationNode "person" 0).Args =
        Node.mk "literal-int" "" (.int64 0) [] [] none :: [] ∧
      (Node.mk "literal-int" "" (.int64 0) [] [] none).Value = .int64 0) ∧
    ∃ err i2, Interpreter.GenerateFromNode samplePackages sampleState
        (GenerationNode "person" 0) = some (err, i2) ∧
      (err.isSome = true ↔ (0 : Int) < 1) ∧
      ((0 : Int) < 1 →
        err = some (samplePackages.Err (GenerationNode "person" 0)
          ("Must generate at least 1 \x60" ++ samplePackages.Name ("person", [])
          ++ "\x60 entity")) ∧
        i2 = sampleState ∧ i2.output = sampleState.output) ∧
      ((1 : Int) ≤ 0 →
        err = none ∧
        i2.output = samplePackages.addAndAppend sampleState.output
          (samplePackages.Name ("person", [])) (samplePackages.Generate ("person", []) 0) ∧
        i2.entities = sampleState.entities) :=
  ⟨⟨by rfl, by rfl, by rfl⟩,
    GenerateFromNode_count samplePackages sampleState sampleState (GenerationNode "person" 0)
      _ [] ("person", []) 0 (by rfl) (by rfl) (by rfl)⟩

/-- The test `TestGenerateEntisiesRequiresCountTobeGreaterThatZero` and its counterpart: no
entity for the count 0, two for the count 2. -/
theorem GenerateFromNode_samples :
    (Interpreter.GenerateFromNode samplePackages sampleState (GenerationNode "person" 0)).map
        (fun r => (r.1, r.2.output)) =
      some (some "ERROR: Must generate at least 1 \x60person\x60 entity", []) ∧
    (Interpreter.GenerateFromNode samplePackages sampleState (GenerationNode "person" 2)).map
        (fun r => (r.1, r.2.output)) = some (none, [("person", 2)]) := by
  refine ⟨by rfl, by rfl⟩

/-- With arguments, `withDynamicField` returns nil without a call of `WithField` for every
type tag that its switch does not name. -/
theorem withDynamicField_unnamed (api : Packages) (entity : api.G) (field valueNode : Node)
    (fieldType : String) (hv : field.Value = .node valueNode)
    (ht : valueNode.Value = .string fieldType) (ha : field.Args.length ≠ 0)
    (hn : fieldType ∉ ["integer", "decimal", "string", "dict", "date"]) :
    Interpreter.withDynamicField api entity field = some (none, entity) := by
  simp only [List.mem_cons, List.mem_singleton, List.not_mem_nil, or_false, not_or] at hn
  unfold Interpreter.withDynamicField
  simp only [hv, ht, if_neg ha]
  split <;> first | rfl | (exfalso; simp_all)

/-- C27 fails on the code: for the field `code: bogus(1)`, a type tag that the interpreter
cannot build with an argument supplied, `withDynamicField` returns nil and installs no field
(the switch has no default case and the function returns the nil `err`); the same holds for
the tag `uid`.  Without arguments the same tag is rejected, and the tag `integer` installs its
field. -/
theorem withDynamicField_unknown_type :
    Interpreter.withDynamicField samplePackages ("person", [])
        (.mk "field" "code" (.node (Builtin "bogus")) (IntArgs [1]) [] none) =
      some (none, ("person", [])) ∧
    Interpreter.withDynamicField samplePackages ("person", [])
        (.mk "field" "code" (.node (Builtin "uid")) (IntArgs [1]) [] none) =
      some (none, ("person", [])) ∧
    Interpreter.withDynamicField samplePackages ("person", [])
        (.mk "field" "code" (.node (Builtin "bogus")) [] [] none) =
      some (some "ERROR: Field of type \x60bogus\x60 requires arguments", ("person", [])) ∧
    Interpreter.withDynamicField samplePackages ("person", [])
        (.mk "field" "code" (.node (Builtin "integer")) (IntArgs [1, 10]) [] none) =
      some (none, ("person", [("code", "integer")])) := by
  refine ⟨by rfl, by rfl, by rfl, by rfl⟩

/-! ## The dictionary: products without overflow -/

/-- Without overflow the inner loop of `numberOfNewLinesForFormat` multiplies: for parts that
are digit runs with positive counts, a positive running product and a total product in the
range of `int64`, the loop ends with the running product times the counts of the parts. -/
theorem formatParts_numeric (env : Assets)
    (callee : String → Dictionary → Option (Int × Dictionary)) (refs : List String)
    (result : Int) (d : Dictionary)
    (hnum : ∀ ref ∈ refs, strings.Contains ref '#' = true)
    (hpos : ∀ ref ∈ refs, 0 < numberOfNumericPossibilities env ref)
    (hres : 0 < result)
    (hrange : result * (refs.map (numberOfNumericPossibilities env)).prod < (2 : Int) ^ 63) :
    formatParts env callee refs result d =
      some (.ok (result * (refs.map (numberOfNumericPossibilities env)).prod), d) := by
  induction refs generalizing result with
  | nil => simp [formatParts]
  | cons ref rest ih =>
    have h1 := hnum ref (List.mem_cons_self _ _)
    have h2 := hpos ref (List.mem_cons_self _ _)
    have hrest : 0 < (rest.map (numberOfNumericPossibilities env)).prod := by
      apply List.prod_pos
      intro a ha
      obtain ⟨r, hr, rfl⟩ := List.mem_map.mp ha
      exact hpos r (List.mem_cons_of_mem _ hr)
    simp only [List.map_cons, List.prod_cons] at hrange ⊢
    have hprod : 0 < result * numberOfNumericPossibilities env ref := mul_pos hres h2
    have hle : result * numberOfNumericPossibilities env ref ≤
        result * (numberOfNumericPossibilities env ref *
          (rest.map (numberOfNumericPossibilities env)).prod) := by
      rw [← mul_assoc]
      exact le_mul_of_one_le_right hprod.le hrest
    have hw : int64.wrap (result * numberOfNumericPossibilities env ref) =
        result * numberOfNumericPossibilities env ref := by
      apply int64.wrap_of_inRange
      unfold int64.inRange
      constructor <;> omega
    have hne : numberOfNumericPossibilities env ref ≠ 0 := by omega
    simp only [formatParts, h1, if_true, hne, ne_eq, not_false_eq_true, hw]
    rw [if_neg (by omega)]
    rw [ih _ (fun r hr => hnum r (List.mem_cons_of_mem _ hr))
      (fun r hr => hpos r (List.mem_cons_of_mem _ hr)) hprod (by rw [mul_assoc]; exact hrange)]
    rw [mul_assoc]

/-! ## Inherited fields and the feasibility check -/

theorem ensureFields_not_unique (numberOfPossibilities : Field → Int) (count : Int)
    (fs : FieldSet) (h : ∀ k f, (k, f) ∈ fs → f.UniqueValue = false) :
    ensureFields numberOfPossibilities count fs = none := by
  induction fs with
  | nil => rfl
  | cons hd rest ih =>
    obtain ⟨name, field⟩ := hd
    have hu : field.UniqueValue = false := h name field (List.mem_cons_self _ _)
    simp only [ensureFields, hu, Bool.and_false, Bool.false_eq_true, if_false]
    exact ih (fun k f hm => h k f (List.mem_cons_of_mem _ hm))

theorem ExtendGenerator_not_unique (name : String) (parent : Generator)
    (pkey : Option PrimaryKey) (dm : Bool) (k : String) (f : Field)
    (hm : (k, f) ∈ (ExtendGenerator name parent pkey dm).fields) : f.UniqueValue = false := by
  rw [ExtendGenerator_shape] at hm
  rcases inheritFields_mem _ _ _ _ _ hm with h1 | ⟨c, hc⟩
  · rcases extendedFields_mem _ _ _ _ _ _ h1 with ⟨v, hv⟩ | ⟨_, hf⟩
    · rw [hv]; rfl
    · rw [hf]
      unfold PrimaryKey.idField
      split <;> rfl
  · rw [hc]; rfl

/-- C31: inherited fields are not checked for the feasibility of uniqueness.  Every field of
a freshly extended child, its Reference fields included, has `UniqueValue = false`, so
`EnsureGeneratable(N)` of the child returns nil for every `N`, every way of counting
possibilities and every visiting order of the fields, also when `EnsureGeneratable(N)` of the
parent fails: the parent of the sample has the unique field `login` with 3 possibilities and
fails for `N = 4`, its child inherits `login` as a Reference field and passes. -/
theorem inherited_not_checked (numberOfPossibilities : Field → Int) (name : String)
    (parent : Generator) (pkey : Option PrimaryKey) (disableMetadata : Bool) (N : Int) :
    (∀ k f, (k, f) ∈ (ExtendGenerator name parent pkey disableMetadata).fields →
      f.UniqueValue = false) ∧
    (ExtendGenerator name parent pkey disableMetadata).EnsureGeneratable numberOfPossibilities N
      = none ∧
    (∀ g, (ExtendGenerator name parent pkey disableMetadata).sameMap g →
      g.EnsureGeneratable numberOfPossibilities N = none) ∧
    uniqueSample.EnsureGeneratable threePossibilities 4 =
      some (notEnoughUniqueValues "login" 3 4) ∧
    FieldSet.get uniqueChild.fields "login" =
      some (NewField (.ReferenceType uniqueSample "login") none false) ∧
    uniqueChild.EnsureGeneratable threePossibilities 4 = none := by
  have h1 := ExtendGenerator_not_unique name parent pkey disableMetadata
  refine ⟨h1, ensureFields_not_unique _ _ _ h1, ?_, by rfl, by rfl, by rfl⟩
  intro g hg
  obtain ⟨_, _, _, _, _, hperm⟩ := hg
  exact ensureFields_not_unique _ _ _ (fun k f hm => h1 k f (hperm.mem_iff.mpr hm))

theorem inherited_not_checked_witness :
    ((ExtendGenerator "kid" uniqueSample none false).sameMap uniqueChild) ∧
    uniqueChild.EnsureGeneratable threePossibilities 4 = none :=
  ⟨⟨rfl, rfl, rfl, rfl, rfl, List.Perm.refl _⟩,
    (inherited_not_checked threePossibilities "kid" uniqueSample none false 4).2.2.1 uniqueChild
      ⟨rfl, rfl, rfl, rfl, rfl, List.Perm.refl _⟩⟩

/-! ## Eager resolution -/

theorem addToInt_eager (i : Interpreter) (op : String) (lhs : Int) (right : DeferredResolver)
    (scope : Scope) :
    i.addToInt op lhs (.DeferredResolver right) scope false =
      match right scope with
      | .error err => .error err
      | .ok _ => .ok (.DeferredResolver (i.handleDeferredRHS op (.int64 lhs) right)) := by
  rw [Interpreter.addToInt]
  cases h : right scope with
  | error err => simp [Interpreter.addToIntEager]
  | ok v => simp [Interpreter.addToIntEager]

theorem addToFloat_eager (i : Interpreter) (op : String) (lhs : float64)
    (right : DeferredResolver) (scope : Scope) :
    i.addToFloat op lhs (.DeferredResolver right) scope false =
      match right scope with
      | .error err => .error err
      | .ok _ => .ok (.DeferredResolver (i.handleDeferredRHS op (.float64 lhs) right)) := by
  rw [Interpreter.addToFloat]
  cases h : right scope with
  | error err => simp [Interpreter.addToFloatEager]
  | ok v => simp [Interpreter.addToFloatEager]

theorem addToString_eager (i : Interpreter) (op : String) (lhs : String)
    (right : DeferredResolver) (scope : Scope) (hop : op ≠ "-") :
    i.addToString op lhs (.DeferredResolver right) scope false =
      match right scope with
      | .error err => .error err
      | .ok _ => .ok (.DeferredResolver (i.handleDeferredRHS op (.string lhs) right)) := by
  have h2 : ¬ ("-" = op) := fun e => hop e.symm
  rw [Interpreter.addToString, if_neg h2]
  cases h : right scope with
  | error err => simp [Interpreter.addToStringEager]
  | ok v => simp [Interpreter.addToStringEager]

theorem addToBool_eager (i : Interpreter) (op : String) (lhs : Bool)
    (right : DeferredResolver) (scope : Scope) (hop : op ≠ "-") :
    i.addToBool op lhs (.DeferredResolver right) scope false =
      match right scope with
      | .error err => .error err
      | .ok _ => .ok (.DeferredResolver (i.handleDeferredRHS op (.bool lhs) right)) := by
  have h2 : ¬ ("-" = op) := fun e => hop e.symm
  rw [Interpreter.addToBool, if_neg h2]
  cases h : right scope with
  | error err => simp [Interpreter.addToBoolEager]
  | ok v => simp [Interpreter.addToBoolEager]

theorem multByInt_eager (i : Interpreter) (op : String) (lhs : Int) (right : DeferredResolver)
    (scope : Scope) :
    i.multByInt op lhs (.DeferredResolver right) scope false =
      match right scope with
      | .error err => .error err
      | .ok _ => .ok (.DeferredResolver (i.handleDeferredRHS op (.int64 lhs) right)) := by
  rw [Interpreter.multByInt]
  cases h : right scope with
  | error err => simp [Interpreter.multByIntEager]
  | ok v => simp [Interpreter.multByIntEager]

theorem multByFloat_eager (i : Interpreter) (op : String) (lhs : float64)
    (right : DeferredResolver) (scope : Scope) :
    i.multByFloat op lhs (.DeferredResolver right) scope false =
      match right scope with
      | .error err => .error err
      | .ok _ => .ok (.DeferredResolver (i.handleDeferredRHS op (.float64 lhs) right)) := by
  rw [Interpreter.multByFloat]
  cases h : right scope with
  | error err => simp [Interpreter.multByFloatEager]
  | ok v => simp [Interpreter.multByFloatEager]

theorem multByString_eager (i : Interpreter) (op : String) (lhs : String)
    (right : DeferredResolver) (scope : Scope) :
    i.multByString op lhs (.DeferredResolver right) scope false =
      match right scope with
      | .error err => .error err
      | .ok _ => .ok (.DeferredResolver (i.handleDeferredRHS op (.string lhs) right)) := by
  rw [Interpreter.multByString]
  cases h : right scope with
  | error err => simp [Interpreter.multByStringEager]
  | ok v => simp [Interpreter.multByStringEager]

theorem addToInt_minus_string (i : Interpreter) (lhs : Int) (t : String) (scope : Scope)
    (deferred : Bool) :
    i.addToInt "-" lhs (.string t) scope deferred = .error (incompatible i.runtime "-") := by
  simp [Interpreter.addToInt]

/-- C32: with a deferred right operand that fails, `addToString` with the operator "-" returns
the Incompatible-types error and not the error of the operand; with an operand that resolves
it returns the same error and no resolver. -/
theorem eager_minus_counterexample :
    sampleInterpreter.addToString "-" "a" (.DeferredResolver unbound) emptyScope false =
      .error "Incompatible types for operator \x22-\x22" ∧
    unbound emptyScope = .error "unbound" ∧
    sampleInterpreter.addToString "-" "a" (.DeferredResolver resolvesToX) emptyScope false =
      .error "Incompatible types for operator \x22-\x22" ∧
    sampleInterpreter.addToBool "-" true (.DeferredResolver unbound) emptyScope false =
      .error "Incompatible types for operator \x22-\x22" := by
  refine ⟨by rfl, by rfl, by rfl, by rfl⟩

/-- C32, as amended: in the non-deferred mode with a DeferredResolver right operand, each of
`addToInt`, `addToFloat`, `multByInt`, `multByFloat`, `multByString`, and `addToString` and
`addToBool` with an operator other than "-", returns the error of the operand when the
operand fails on the scope, and when the operand resolves returns the resolver of
`handleDeferredRHS` with a nil error, whatever the operand resolved to; `addToString` and
`addToBool` with "-" return the Incompatible-types error without looking at the operand.
Example: when `right` resolves to a string, `addToInt("-", 1, string)` is the
Incompatible-types error, `addToInt("-", 1, right, scope, false)` is a resolver with no
error, and that resolver invoked on the scope returns what `ApplyOperator` returns for the
resolved string, which is the Incompatible-types error when `ApplyOperator` hands the
operands to `addToInt`. -/
theorem eager_resolution (i : Interpreter) (op : String) (k : Int) (x : float64) (s : String)
    (b : Bool) (right : DeferredResolver) (scope : Scope) :
    (∀ err, right scope = .error err →
      i.addToInt op k (.DeferredResolver right) scope false = .error err ∧
      i.addToFloat op x (.DeferredResolver right) scope false = .error err ∧
      i.multByInt op k (.DeferredResolver right) scope false = .error err ∧
      i.multByFloat op x (.DeferredResolver right) scope false = .error err ∧
      i.multByString op s (.DeferredResolver right) scope false = .error err ∧
      (op ≠ "-" →
        i.addToString op s (.DeferredResolver right) scope false = .error err ∧
        i.addToBool op b (.DeferredResolver right) scope false = .error err)) ∧
    (∀ rhs, right scope = .ok rhs →
      i.addToInt op k (.DeferredResolver right) scope false =
        .ok (.DeferredResolver (i.handleDeferredRHS op (.int64 k) right)) ∧
      i.addToFloat op x (.DeferredResolver right) scope false =
        .ok (.DeferredResolver (i.handleDeferredRHS op (.float64 x) right)) ∧
      i.multByInt op k (.DeferredResolver right) scope false =
        .ok (.DeferredResolver (i.handleDeferredRHS op (.int64 k) right)) ∧
      i.multByFloat op x (.DeferredResolver right) scope false =
        .ok (.DeferredResolver (i.handleDeferredRHS op (.float64 x) right)) ∧
      i.multByString op s (.DeferredResolver right) scope false =
        .ok (.DeferredResolver (i.handleDeferredRHS op (.string s) right)) ∧
      (op ≠ "-" →
        i.addToString op s (.DeferredResolver right) scope false =
          .ok (.DeferredResolver (i.handleDeferredRHS op (.string s) right)) ∧
        i.addToBool op b (.DeferredResolver right) scope false =
          .ok (.DeferredResolver (i.handleDeferredRHS op (.bool b) right)))) ∧
    i.addToString "-" s (.DeferredResolver right) scope false =
      .error (incompatible i.runtime "-") ∧
    i.addToBool "-" b (.DeferredResolver right) scope false =
      .error (incompatible i.runtime "-") ∧
    (∀ t, right scope = .ok (.string t) →
      i.addToInt "-" 1 (.string t) scope false = .error (incompatible i.runtime "-") ∧
      i.addToInt "-" 1 (.DeferredResolver right) scope false =
        .ok (.DeferredResolver (i.handleDeferredRHS "-" (.int64 1) right)) ∧
      i.handleDeferredRHS "-" (.int64 1) right scope =
        i.ApplyOperator "-" (.int64 1) (.string t) scope false ∧
      (i.ApplyOperator "-" (.int64 1) (.string t) scope false =
          i.addToInt "-" 1 (.string t) scope false →
        i.handleDeferredRHS "-" (.int64 1) right scope =
          .error (incompatible i.runtime "-"))) := by
  refine ⟨?_, ?_, ?_, ?_, ?_⟩
  · intro err he
    refine ⟨?_, ?_, ?_, ?_, ?_, ?_⟩
    · rw [addToInt_eager, he]
    · rw [addToFloat_eager, he]
    · rw [multByInt_eager, he]
    · rw [multByFloat_eager, he]
    · rw [multByString_eager, he]
    · intro hop
      refine ⟨?_, ?_⟩
      · rw [addToString_eager _ _ _ _ _ hop, he]
      · rw [addToBool_eager _ _ _ _ _ hop, he]
  · intro rhs he
    refine ⟨?_, ?_, ?_, ?_, ?_, ?_⟩
    · rw [addToInt_eager, he]
    · rw [addToFloat_eager, he]
    · rw [multByInt_eager, he]
    · rw [multByFloat_eager, he]
    · rw [multByString_eager, he]
    · intro hop
      refine ⟨?_, ?_⟩
      · rw [addToString_eager _ _ _ _ _ hop, he]
      · rw [addToBool_eager _ _ _ _ _ hop, he]
  · simp [Interpreter.addToString]
  · simp [Interpreter.addToBool]
  · intro t ht
    have h3 : i.handleDeferredRHS "-" (.int64 1) right scope =
        i.ApplyOperator "-" (.int64 1) (.string t) scope false := by
      rw [handleDeferredRHS_apply, ht]
    refine ⟨addToInt_minus_string _ _ _ _ _, ?_, h3, ?_⟩
    · rw [addToInt_eager, ht]
    · intro hd
      rw [h3, hd, addToInt_minus_string]

theorem eager_resolution_witness :
    (resolvesToX emptyScope = .ok (.string "x") ∧
      dispatchingInterpreter.ApplyOperator "-" (.int64 1) (.string "x") emptyScope false =
        dispatchingInterpreter.addToInt "-" 1 (.string "x") emptyScope false) ∧
    dispatchingInterpreter.addToInt "-" 1 (.DeferredResolver resolvesToX) emptyScope false =
      .ok (.DeferredResolver
        (dispatchingInterpreter.handleDeferredRHS "-" (.int64 1) resolvesToX)) ∧
    dispatchingInterpreter.handleDeferredRHS "-" (.int64 1) resolvesToX emptyScope =
      .error (incompatible dispatchingInterpreter.runtime "-") :=
  ⟨⟨by rfl, by rfl⟩,
    ((eager_resolution dispatchingInterpreter "-" 1 .NaN "a" true resolvesToX emptyScope
      ).2.2.2.2 "x" (by rfl)).2.1,
    ((eager_resolution dispatchingInterpreter "-" 1 .NaN "a" true resolvesToX emptyScope
      ).2.2.2.2 "x" (by rfl)).2.2.2 (by rfl)⟩

/-! ## The setting useExternalData after a lookup -/

theorem pairRun_eq :
    ValueFromDictionary sampleSources 2 "pair" (UseExternalData sampleDictionary true) 0 =
      some pairRun ∧ pairRun.1 = "green 23" ∧ pairRun.2.1.useExternalData = false := by
  refine ⟨by rfl, by rfl, by rfl⟩

theorem codeRun_eq :
    NumberOfPossibleValuesForDictionary sampleAssets 1 "code"
      (UseExternalData sampleDictionary true) = some codeRun ∧
    codeRun.2.useExternalData = false := by
  refine ⟨by rfl, by rfl⟩

theorem Dictionary.sameSettings_refl (d : Dictionary) : d.sameSettings d :=
  ⟨rfl, rfl, rfl⟩

theorem Dictionary.sameSettings_trans (a b c : Dictionary) (h1 : a.sameSettings b)
    (h2 : b.sameSettings c) : a.sameSettings c :=
  ⟨h2.1.trans h1.1, h2.2.1.trans h1.2.1, h2.2.2.trans h1.2.2⟩

theorem Dictionary.sameSettings_flag (d : Dictionary) (flag : Bool) :
    d.sameSettings { d with useExternalData := flag } :=
  ⟨rfl, rfl, rfl⟩

theorem populateSamples_settings (env : Sources) (d : Dictionary) (lang cat : String) :
    (populateSamples env d lang cat).2.useExternalData = d.useExternalData ∧
    d.sameSettings (populateSamples env d lang cat).2 := by
  unfold populateSamples
  split
  · exact ⟨rfl, rfl, rfl, rfl⟩
  · exact ⟨rfl, rfl, rfl, rfl⟩

theorem _lookup.go_settings (env : Sources) (fuel : Nat) :
    ∀ (lang cat : String) (fallback : Bool) (d : Dictionary) (rng : Nat) (s : String)
      (d' : Dictionary) (rng' : Nat),
      _lookup.go env fuel lang cat fallback d rng = some (s, d', rng') →
      d'.useExternalData = d.useExternalData ∧ d.sameSettings d' := by
  induction fuel with
  | zero =>
    intro lang cat fallback d rng s d' rng' h
    simp [_lookup.go] at h
  | succ fuel ih =>
    intro lang cat fallback d rng s d' rng' h
    rw [_lookup.go] at h
    split at h
    · split at h
      · cases h
      · simp only [Option.some.injEq, Prod.mk.injEq] at h
        obtain ⟨_, hd, _⟩ := h
        subst hd
        exact ⟨rfl, d.sameSettings_refl⟩
    · have hp := populateSamples_settings env d lang cat
      split at h
      · rename_i err d1 heq
        rw [heq] at hp
        simp only at hp
        split at h
        · have h2 := ih _ _ _ _ _ _ _ _ h
          exact ⟨h2.1.trans hp.1, Dictionary.sameSettings_trans _ _ _ hp.2 h2.2⟩
        · simp only [Option.some.injEq, Prod.mk.injEq] at h
          obtain ⟨_, hd, _⟩ := h
          subst hd
          exact hp
      · rename_i samples d1 heq
        rw [heq] at hp
        simp only at hp
        split at h
        · cases h
        · simp only [Option.some.injEq, Prod.mk.injEq] at h
          obtain ⟨_, hd, _⟩ := h
          subst hd
          exact hp

theorem lookup_settings (env : Sources) (lang cat : String) (fallback : Bool) (d : Dictionary)
    (rng : Nat) (s : String) (d' : Dictionary) (rng' : Nat)
    (h : lookup env lang cat fallback d rng = some (s, d', rng')) :
    d'.useExternalData = d.useExternalData ∧ d.sameSettings d' :=
  _lookup.go_settings env 2 lang cat fallback d rng s d' rng' h

theorem tryLookup_settings (env : Sources) (cat : String) (d : Dictionary) (rng : Nat)
    (s : String) (d' : Dictionary) (rng' : Nat)
    (h : tryLookup env cat d rng = some (s, d', rng')) :
    d'.useExternalData = false ∧ d.sameSettings d' := by
  unfold tryLookup at h
  split at h
  · cases h
  · rename_i s1 d1 rng1 heq
    have h1 := lookup_settings _ _ _ _ _ _ _ _ _ heq
    have h1s : d.sameSettings d1 :=
      Dictionary.sameSettings_trans _ _ _ (d.sameSettings_flag true) h1.2
    split at h
    · have h2 := lookup_settings _ _ _ _ _ _ _ _ _ h
      exact ⟨h2.1, Dictionary.sameSettings_trans _ _ _ h1s
        (Dictionary.sameSettings_trans _ _ _ (d1.sameSettings_flag false) h2.2)⟩
    · simp only [Option.some.injEq, Prod.mk.injEq] at h
      obtain ⟨_, hd, _⟩ := h
      subst hd
      exact ⟨rfl, Dictionary.sameSettings_trans _ _ _ h1s (d1.sameSettings_flag false)⟩

theorem formatRefs_settings (env : Sources)
    (compositeFormat : String → Dictionary → Nat → Option (String × Dictionary × Nat))
    (hc : ∀ ref d rng s d' rng', compositeFormat ref d rng = some (s, d', rng') →
      d'.useExternalData = false ∧ d.sameSettings d')
    (refs : List String) :
    ∀ (result : String) (d : Dictionary) (rng : Nat) (s : String) (d' : Dictionary)
      (rng' : Nat), formatRefs env compositeFormat refs result d rng = some (s, d', rng') →
      d.sameSettings d' ∧ (d.useExternalData = false → d'.useExternalData = false) := by
  induction refs with
  | nil =>
    intro result d rng s d' rng' h
    simp only [formatRefs, Option.some.injEq, Prod.mk.injEq] at h
    obtain ⟨_, hd, _⟩ := h
    subst hd
    exact ⟨d.sameSettings_refl, id⟩
  | cons ref rest ih =>
    intro result d rng s d' rng' h
    rw [formatRefs] at h
    split at h
    · exact ih _ _ _ _ _ _ h
    · split at h
      · exact ih _ _ _ _ _ _ h
      · split at h
        · cases h
        · rename_i s1 d1 rng1 heq
          have h1 := hc _ _ _ _ _ _ heq
          have h2 := ih _ _ _ _ _ _ h
          exact ⟨Dictionary.sameSettings_trans _ _ _ h1.2 h2.1, fun _ => h2.2 h1.1⟩

theorem compositeFormat_settings (env : Sources)
    (valueFromFormat : String → Dictionary → Nat → Option (String × Dictionary × Nat))
    (hv : ∀ format d rng s d' rng', valueFromFormat format d rng = some (s, d', rng') →
      d.sameSettings d' ∧ (d.useExternalData = false → d'.useExternalData = false))
    (ref : String) (d : Dictionary) (rng : Nat) (s : String) (d' : Dictionary) (rng' : Nat)
    (h : compositeFormat env valueFromFormat ref d rng = some (s, d', rng')) :
    d'.useExternalData = false ∧ d.sameSettings d' := by
  unfold compositeFormat at h
  split at h
  · cases h
  · rename_i r d1 rng1 heq
    have h1 := tryLookup_settings _ _ _ _ _ _ _ heq
    split at h
    · simp only [Option.some.injEq, Prod.mk.injEq] at h
      obtain ⟨_, hd, _⟩ := h
      subst hd
      exact h1
    · split at h
      · split at h
        · cases h
        · rename_i s2 d2 rng2 heq2
          simp only [Option.some.injEq, Prod.mk.injEq] at h
          obtain ⟨_, hd, _⟩ := h
          subst hd
          have h2 := hv _ _ _ _ _ _ heq2
          exact ⟨h2.2 h1.1, Dictionary.sameSettings_trans _ _ _ h1.2 h2.1⟩
      · simp only [Option.some.injEq, Prod.mk.injEq] at h
        obtain ⟨_, hd, _⟩ := h
        subst hd
        exact h1

theorem valueFromFormat_settings (env : Sources) (depth : Nat) :
    ∀ (format : String) (d : Dictionary) (rng : Nat) (s : String) (d' : Dictionary)
      (rng' : Nat), valueFromFormat env depth format d rng = some (s, d', rng') →
      d.sameSettings d' ∧ (d.useExternalData = false → d'.useExternalData = false) := by
  induction depth with
  | zero =>
    intro format d rng s d' rng' h
    simp [valueFromFormat] at h
  | succ depth ih =>
    intro format d rng s d' rng' h
    rw [valueFromFormat] at h
    exact formatRefs_settings env _ (compositeFormat_settings env _ ih) _ _ _ _ _ _ _ h

theorem ValueFromDictionary_settings (env : Sources) (depth : Nat) (cat : String)
    (d : Dictionary) (rng : Nat) (s : String) (d' : Dictionary) (rng' : Nat)
    (h : ValueFromDictionary env depth cat d rng = some (s, d', rng')) :
    d'.useExternalData = false ∧ d.sameSettings d' := by
  unfold ValueFromDictionary at h
  split at h
  · cases h
  · rename_i s1 d1 rng1 heq
    have h1 := tryLookup_settings _ _ _ _ _ _ _ heq
    split at h
    · unfold formatLookup at h
      split at h
      · cases h
      · rename_i f2 d2 rng2 heq2
        have h2 := tryLookup_settings _ _ _ _ _ _ _ heq2
        have h3 := valueFromFormat_settings env depth _ _ _ _ _ _ h
        exact ⟨h3.2 h2.1, Dictionary.sameSettings_trans _ _ _ h1.2
          (Dictionary.sameSettings_trans _ _ _ h2.2 h3.1)⟩
    · simp only [Option.some.injEq, Prod.mk.injEq] at h
      obtain ⟨_, hd, _⟩ := h
      subst hd
      exact h1

theorem _lookup.go_last (env : Sources) (fuel : Nat) (lang cat : String) (d : Dictionary)
    (rng : Nat) :
    _lookup.go env (fuel + 1) lang cat false d rng = _lookup.go env 1 lang cat false d rng := by
  rw [_lookup.go, _lookup.go]
  simp

/-- The bound in `_lookup` is never reached: a larger bound gives the same result. -/
theorem _lookup.go_fuel (env : Sources) (fuel : Nat) (lang cat : String) (fallback : Bool)
    (d : Dictionary) (rng : Nat) :
    _lookup.go env (fuel + 2) lang cat fallback d rng = _lookup env lang cat fallback d rng := by
  unfold _lookup
  rw [_lookup.go]
  conv_rhs => rw [_lookup.go]
  simp only [_lookup.go_last env fuel]

theorem formatParts_settings (env : Assets)
    (callee : String → Dictionary → Option (Int × Dictionary))
    (hc : ∀ cat d n d', callee cat d = some (n, d') →
      d'.useExternalData = false ∧ d.sameSettings d')
    (refs : List String) :
    ∀ (result : Int) (d : Dictionary) (r : Except Int Int) (d' : Dictionary),
      formatParts env callee refs result d = some (r, d') →
      d.sameSettings d' ∧ (d.useExternalData = false → d'.useExternalData = false) := by
  induction refs with
  | nil =>
    intro result d r d' h
    simp only [formatParts, Option.some.injEq, Prod.mk.injEq] at h
    obtain ⟨_, hd⟩ := h
    subst hd
    exact ⟨d.sameSettings_refl, id⟩
  | cons ref rest ih =>
    intro result d r d' h
    rw [formatParts] at h
    split at h
    · cases h
    · rename_i sub d1 heq
      have h1 : d.sameSettings d1 ∧ (d.useExternalData = false → d1.useExternalData = false) := by
        by_cases c1 : strings.Contains ref '#' = true
        · rw [if_pos c1] at heq
          simp only [Option.some.injEq, Prod.mk.injEq] at heq
          obtain ⟨_, hd⟩ := heq
          subst hd
          exact ⟨d.sameSettings_refl, id⟩
        · rw [if_neg c1] at heq
          by_cases c2 : ref ≠ " "
          · rw [if_pos c2] at heq
            have h2 := hc _ _ _ _ heq
            exact ⟨h2.2, fun _ => h2.1⟩
          · rw [if_neg c2] at heq
            simp only [Option.some.injEq, Prod.mk.injEq] at heq
            obtain ⟨_, hd⟩ := heq
            subst hd
            exact ⟨d.sameSettings_refl, id⟩
      generalize (if sub ≠ 0 then int64.wrap (result * sub) else result) = next at h
      by_cases c3 : next ≤ 0
      · rw [if_pos c3] at h
        simp only [Option.some.injEq, Prod.mk.injEq] at h
        obtain ⟨_, hd⟩ := h
        subst hd
        exact h1
      · rw [if_neg c3] at h
        have h2 := ih _ _ _ _ h
        exact ⟨Dictionary.sameSettings_trans _ _ _ h1.1 h2.1, fun h0 => h2.2 (h1.2 h0)⟩

theorem formatLines_settings (env : Assets)
    (callee : String → Dictionary → Option (Int × Dictionary))
    (hc : ∀ cat d n d', callee cat d = some (n, d') →
      d'.useExternalData = false ∧ d.sameSettings d')
    (lines : List String) :
    ∀ (result : Int) (d : Dictionary) (r : Int) (d' : Dictionary),
      formatLines env callee lines result d = some (r, d') →
      d.sameSettings d' ∧ (d.useExternalData = false → d'.useExternalData = false) := by
  induction lines with
  | nil =>
    intro result d r d' h
    simp only [formatLines, Option.some.injEq, Prod.mk.injEq] at h
    obtain ⟨_, hd⟩ := h
    subst hd
    exact ⟨d.sameSettings_refl, id⟩
  | cons text rest ih =>
    intro result d r d' h
    rw [formatLines] at h
    split at h
    · cases h
    · rename_i r1 d1 heq
      have h1 := formatParts_settings env callee hc _ _ _ _ _ heq
      simp only [Option.some.injEq, Prod.mk.injEq] at h
      obtain ⟨_, hd⟩ := h
      subst hd
      exact h1
    · rename_i r1 d1 heq
      have h1 := formatParts_settings env callee hc _ _ _ _ _ heq
      have h2 := ih _ _ _ _ h
      exact ⟨Dictionary.sameSettings_trans _ _ _ h1.1 h2.1, fun h0 => h2.2 (h1.2 h0)⟩

theorem numberOfNewLinesForFormat_settings (env : Assets)
    (callee : String → Dictionary → Option (Int × Dictionary))
    (hc : ∀ cat d n d', callee cat d = some (n, d') →
      d'.useExternalData = false ∧ d.sameSettings d')
    (d : Dictionary) (lang cat : String) (r : Int × Option String) (d' : Dictionary)
    (h : numberOfNewLinesForFormat env callee d lang cat = some (r, d')) :
    d.sameSettings d' ∧ (d.useExternalData = false → d'.useExternalData = false) := by
  unfold numberOfNewLinesForFormat at h
  split at h
  · simp only [Option.some.injEq, Prod.mk.injEq] at h
    obtain ⟨_, hd⟩ := h
    subst hd
    exact ⟨d.sameSettings_refl, id⟩
  · split at h
    · cases h
    · rename_i r1 d1 heq
      simp only [Option.some.injEq, Prod.mk.injEq] at h
      obtain ⟨_, hd⟩ := h
      subst hd
      exact formatLines_settings env callee hc _ _ _ _ _ heq

theorem NumberOfPossibleValuesForDictionary_settings (env : Assets) (depth : Nat) :
    ∀ (cat : String) (d : Dictionary) (n : Int) (d' : Dictionary),
      NumberOfPossibleValuesForDictionary env depth cat d = some (n, d') →
      d'.useExternalData = false ∧ d.sameSettings d' := by
  induction depth with
  | zero =>
    intro cat d n d' h
    simp [NumberOfPossibleValuesForDictionary] at h
  | succ depth ih =>
    intro cat d n d' h
    rw [NumberOfPossibleValuesForDictionary] at h
    simp only [] at h
    split at h
    · split at h
      · split at h
        · cases h
        · rename_i r1 d1 heq
          have h1 := numberOfNewLinesForFormat_settings env _ ih _ _ _ _ _ heq
          have h1s : d.sameSettings d1 := h1.1
          split at h
          · split at h
            · cases h
            · rename_i r2 d2 heq2
              have h2 := numberOfNewLinesForFormat_settings env _ ih _ _ _ _ _ heq2
              simp only [Option.some.injEq, Prod.mk.injEq] at h
              obtain ⟨_, hd⟩ := h
              subst hd
              exact ⟨h2.2 rfl, Dictionary.sameSettings_trans _ _ _ h1s h2.1⟩
          · simp only [Option.some.injEq, Prod.mk.injEq] at h
            obtain ⟨_, hd⟩ := h
            subst hd
            exact ⟨rfl, h1s⟩
      · simp only [Option.some.injEq, Prod.mk.injEq] at h
        obtain ⟨_, hd⟩ := h
        subst hd
        exact ⟨rfl, rfl, rfl, rfl⟩
    · simp only [Option.some.injEq, Prod.mk.injEq] at h
      obtain ⟨_, hd⟩ := h
      subst hd
      exact ⟨rfl, rfl, rfl, rfl⟩

/-- C33: after `ValueFromDictionary` (which goes through `tryLookup`), `tryLookup` or
`NumberOfPossibleValuesForDictionary` returns, the setting `useExternalData` is false,
whatever it was before the call, and `lang`, `enFallback` and `customDataLocation` are what
they were before the call; in particular a call made after `UseExternalData(true)`, when the
setting is true, returns with the setting false. -/
theorem useExternalData_reset (env : Sources) (depth : Nat) (cat : String) (d : Dictionary)
    (rng : Nat) :
    (∀ s d' rng', ValueFromDictionary env depth cat d rng = some (s, d', rng') →
      d'.useExternalData = false ∧ d'.lang = d.lang ∧ d'.enFallback = d.enFallback ∧
        d'.customDataLocation = d.customDataLocation) ∧
    (∀ s d' rng', tryLookup env cat d rng = some (s, d', rng') →
      d'.useExternalData = false ∧ d'.lang = d.lang ∧ d'.enFallback = d.enFallback ∧
        d'.customDataLocation = d.customDataLocation) ∧
    (∀ n d', NumberOfPossibleValuesForDictionary env.assets depth cat d = some (n, d') →
      d'.useExternalData = false ∧ d'.lang = d.lang ∧ d'.enFallback = d.enFallback ∧
        d'.customDataLocation = d.customDataLocation) ∧
    (∀ s d' rng',
      ValueFromDictionary env depth cat (UseExternalData d true) rng = some (s, d', rng') →
      (UseExternalData d true).useExternalData = true ∧ d'.useExternalData = false) ∧
    (∀ n d',
      NumberOfPossibleValuesForDictionary env.assets depth cat (UseExternalData d true) =
        some (n, d') →
      (UseExternalData d true).useExternalData = true ∧ d'.useExternalData = false) := by
  refine ⟨?_, ?_, ?_, ?_, ?_⟩
  · intro s d' rng' h
    exact ValueFromDictionary_settings env depth cat d rng s d' rng' h
  · intro s d' rng' h
    exact tryLookup_settings env cat d rng s d' rng' h
  · intro n d' h
    exact NumberOfPossibleValuesForDictionary_settings env.assets depth cat d n d' h
  · intro s d' rng' h
    exact ⟨rfl, (ValueFromDictionary_settings env depth cat _ rng s d' rng' h).1⟩
  · intro n d' h
    exact ⟨rfl, (NumberOfPossibleValuesForDictionary_settings env.assets depth cat _ n d' h).1⟩

theorem useExternalData_reset_witness :
    (ValueFromDictionary sampleSources 2 "pair" (UseExternalData sampleDictionary true) 0 =
        some (pairRun.1, pairRun.2.1, pairRun.2.2) ∧
      NumberOfPossibleValuesForDictionary sampleSources.assets 2 "code"
        (UseExternalData sampleDictionary true) = some (codeRun.1, codeRun.2)) ∧
    pairRun.1 = "green 23" ∧
    ((UseExternalData sampleDictionary true).useExternalData = true ∧
      pairRun.2.1.useExternalData = false) ∧
    ((UseExternalData sampleDictionary true).useExternalData = true ∧
      codeRun.2.useExternalData = false) :=
  ⟨⟨by rfl, by rfl⟩, by rfl,
    (useExternalData_reset sampleSources 2 "pair" sampleDictionary 0).2.2.2.1
      pairRun.1 pairRun.2.1 pairRun.2.2 (by rfl),
    (useExternalData_reset sampleSources 2 "code" sampleDictionary 0).2.2.2.2
      codeRun.1 codeRun.2 (by rfl)⟩

end generator
